import Mathlib

/-!
# KSCrash: crash-time environment capture

A shallow embedding of the stack cursor (`KSStackCursor.c`,
`KSStackCursor_Backtrace.c`), the arm64 address normalisation (`KSCPU_arm64.c`),
the machine context, its capture and the suspend/resume pair
(`KSMachineContext.c`), the signal classification table (`KSSignalInfo.c`) and
the thread metadata cache with its freeze gate (`KSCrashCachedData.c`).

Conventions of the embedding:
* `uintptr_t` values and thread handles are natural numbers; C `int` values are
  integers (no claim below depends on wrap-around of an `int`);
* a C array is a list; a read outside the array is undefined behaviour in C and
  is the result `none` of the reading function;
* a `NULL` pointer is `none`;
* calls into the operating system are parameters (the result of `task_threads`,
  the calling thread, the outcome of `thread_suspend`) and their requests are
  recorded as a list of events;
* constants of platform headers and functions of source files that are not at
  hand are parameters as well.
-/

namespace KSCrash

/-! ## Stack cursor -/

/-- The current frame of a cursor, `cursor->stackEntry`. -/
structure StackEntry where
  address : Nat
  imageName : Option String
  imageAddress : Nat
  symbolName : Option String
  symbolAddress : Nat
deriving DecidableEq

/-- The walking state of a cursor, `cursor->state`. -/
structure CursorState where
  currentDepth : Int
  hasGivenUp : Bool
deriving DecidableEq

/-- The functions that `cursor->resetCursor` can point to. -/
inductive ResetFn where
  | kssc_resetCursor
deriving DecidableEq

/-- The functions that `cursor->advanceCursor` can point to: the fallback
`g_advanceCursor` of `KSStackCursor.c` and the static `advanceCursor` of
`KSStackCursor_Backtrace.c`. -/
inductive AdvanceFn where
  | g_advanceCursor
  | backtrace_advanceCursor
deriving DecidableEq

/-- The functions that `cursor->symbolicate` can point to. -/
inductive SymbolicateFn where
  | kssymbolicator_symbolicate
deriving DecidableEq

/-- The producer payload of a backtrace cursor, stored in `cursor->context`:
the array is the memory that the `backtrace` pointer refers to. -/
structure KSStackCursor_Backtrace_Context where
  skippedEntries : Int
  backtraceLength : Int
  backtrace : List Nat
deriving DecidableEq

/-- The cursor: current frame, walking state, three operation pointers and the
producer payload. -/
structure KSStackCursor where
  stackEntry : StackEntry
  state : CursorState
  resetCursor : ResetFn
  advanceCursor : AdvanceFn
  symbolicate : SymbolicateFn
  context : KSStackCursor_Backtrace_Context
deriving DecidableEq

/-- The macro `KSPACStrippingMask_ARM64e`, the constant `0x0000000fffffffff`. -/
def KSPACStrippingMask_ARM64e : Nat := 0x0000000fffffffff

/-- The C function `kscpu_normaliseInstructionPointer` of `KSCPU_arm64.c`:
`ip & KSPACStrippingMask_ARM64e`. -/
def kscpu_normaliseInstructionPointer (ip : Nat) : Nat :=
  ip &&& KSPACStrippingMask_ARM64e

/-- The C function `g_advanceCursor`: warns and returns false. -/
def g_advanceCursor (cursor : KSStackCursor) : Bool × KSStackCursor :=
  (false, cursor)

/-- The C function `kssc_resetCursor`: clears the walking state and the current frame. -/
def kssc_resetCursor (cursor : KSStackCursor) : KSStackCursor :=
  { cursor with
    state := { currentDepth := 0, hasGivenUp := false }
    stackEntry :=
      { address := 0, imageAddress := 0, imageName := none,
        symbolAddress := 0, symbolName := none } }

/-- The call `cursor->resetCursor(cursor)`. -/
def callResetCursor (cursor : KSStackCursor) : KSStackCursor :=
  match cursor.resetCursor with
  | ResetFn.kssc_resetCursor => kssc_resetCursor cursor

/-- The C function `kssc_initCursor`: installs the three operations (a `NULL` argument is
replaced by the default) and resets the cursor through the installed pointer. -/
def kssc_initCursor (cursor : KSStackCursor) (resetCursor : Option ResetFn)
    (advanceCursor : Option AdvanceFn) : KSStackCursor :=
  let cursor := { cursor with symbolicate := SymbolicateFn.kssymbolicator_symbolicate }
  let cursor := { cursor with
    advanceCursor := match advanceCursor with
      | some f => f
      | none => AdvanceFn.g_advanceCursor }
  let cursor := { cursor with
    resetCursor := match resetCursor with
      | some f => f
      | none => ResetFn.kssc_resetCursor }
  callResetCursor cursor

/-- The read `context->backtrace[currentIndex]`; `none` outside the array. -/
def readBacktrace (backtrace : List Nat) (currentIndex : Int) : Option Nat :=
  if 0 ≤ currentIndex then backtrace[currentIndex.toNat]? else none

/-- The static `advanceCursor` of `KSStackCursor_Backtrace.c`: the return value
and the cursor after the call; `none` when the array read is out of bounds. -/
def advanceCursor (cursor : KSStackCursor) : Option (Bool × KSStackCursor) :=
  let context := cursor.context
  let endDepth := context.backtraceLength - context.skippedEntries
  if cursor.state.currentDepth < endDepth then
    let currentIndex := cursor.state.currentDepth + context.skippedEntries
    match readBacktrace context.backtrace currentIndex with
    | none => none
    | some nextAddress =>
      if nextAddress > 1 then
        some (true,
          { cursor with
            stackEntry :=
              { cursor.stackEntry with
                address := kscpu_normaliseInstructionPointer nextAddress }
            state :=
              { cursor.state with currentDepth := cursor.state.currentDepth + 1 } })
      else
        some (false, cursor)
  else
    some (false, cursor)

/-- The call `cursor->advanceCursor(cursor)`. -/
def callAdvanceCursor (cursor : KSStackCursor) : Option (Bool × KSStackCursor) :=
  match cursor.advanceCursor with
  | AdvanceFn.g_advanceCursor => some (g_advanceCursor cursor)
  | AdvanceFn.backtrace_advanceCursor => advanceCursor cursor

/-- The C function `kssc_initWithBacktrace`: a backtrace cursor over the given array. -/
def kssc_initWithBacktrace (cursor : KSStackCursor) (backtrace : List Nat)
    (backtraceLength skipEntries : Int) : KSStackCursor :=
  let cursor := kssc_initCursor cursor (some ResetFn.kssc_resetCursor)
    (some AdvanceFn.backtrace_advanceCursor)
  let context := cursor.context
  let context := { context with skippedEntries := skipEntries }
  let context := { context with backtraceLength := backtraceLength }
  let context := { context with backtrace := backtrace }
  { cursor with context := context }

/-- A caller making `n` successive `advanceCursor` calls: the return value of
each call paired with `stackEntry.address` as the call leaves it, and the
cursor after the last call. -/
def advanceTimes : Nat → KSStackCursor → Option (List (Bool × Nat) × KSStackCursor)
  | 0, cursor => some ([], cursor)
  | n + 1, cursor =>
    match advanceCursor cursor with
    | none => none
    | some (r, c1) =>
      match advanceTimes n c1 with
      | none => none
      | some (rs, c2) => some ((r, c1.stackEntry.address) :: rs, c2)

/-- A caller advancing until `advanceCursor` returns false, as in
`while (cursor.advanceCursor(&cursor))`: the return values and addresses of
all calls, the final false included; `none` when the fuel does not suffice or a
read is out of bounds. -/
def advanceUntilFalse : Nat → KSStackCursor → Option (List (Bool × Nat))
  | 0, _ => none
  | fuel + 1, cursor =>
    match advanceCursor cursor with
    | none => none
    | some (false, c1) => some [(false, c1.stackEntry.address)]
    | some (true, c1) =>
      match advanceUntilFalse fuel c1 with
      | none => none
      | some rs => some ((true, c1.stackEntry.address) :: rs)

/-- Some prior content of the memory in which a cursor is built. -/
def staleCursor : KSStackCursor :=
  { stackEntry :=
      { address := 77, imageName := some "stale", imageAddress := 5,
        symbolName := none, symbolAddress := 9 }
    state := { currentDepth := 12, hasGivenUp := true }
    resetCursor := ResetFn.kssc_resetCursor
    advanceCursor := AdvanceFn.g_advanceCursor
    symbolicate := SymbolicateFn.kssymbolicator_symbolicate
    context := { skippedEntries := 3, backtraceLength := 8, backtrace := [1, 2, 3] } }

/-- C1 as it is stated: of four successive `advanceCursor` calls the first
three return true and leave `stackEntry.address` equal to `B`, then `C`, then
`D`, and the fourth returns false. -/
def YieldsExactly (cursor : KSStackCursor) (B C D : Nat) : Prop :=
  ∃ a final, advanceTimes 4 cursor
    = some ([(true, B), (true, C), (true, D), (false, a)], final)

/-- A backtrace cursor at depth 0 whose current entry is the sentinel 1 and
whose later entries are valid addresses. -/
def sentinelCursor : KSStackCursor :=
  kssc_initWithBacktrace staleCursor [1, 7, 9] 3 0

/-- The backtrace cursor over `[10, 20, 30, 40]` with length 4 and skip 1 after
two `advanceCursor` calls. -/
def midWalkCursor : KSStackCursor :=
  { stackEntry :=
      { address := 30, imageName := none, imageAddress := 0,
        symbolName := none, symbolAddress := 0 }
    state := { currentDepth := 2, hasGivenUp := false }
    resetCursor := ResetFn.kssc_resetCursor
    advanceCursor := AdvanceFn.backtrace_advanceCursor
    symbolicate := SymbolicateFn.kssymbolicator_symbolicate
    context := { skippedEntries := 1, backtraceLength := 4, backtrace := [10, 20, 30, 40] } }

/-! ## Machine context -/

/-- A thread handle (`KSThread`, `thread_t`). -/
abbrev KSThread := Nat

/-- The arm64 thread state `__ss` of the register block. -/
structure ThreadState64 where
  __x : List Nat
  __fp : Nat
  __lr : Nat
  __sp : Nat
  __pc : Nat
  __cpsr : Nat
deriving DecidableEq

/-- The arm64 exception state `__es` of the register block. -/
structure ExceptionState64 where
  __far : Nat
  __esr : Nat
  __exception : Nat
deriving DecidableEq

/-- The register block `STRUCT_MCONTEXT_L`. -/
structure STRUCT_MCONTEXT_L where
  __es : ExceptionState64
  __ss : ThreadState64
deriving DecidableEq

/-- The machine context; `allThreads` is the fixed-capacity array, its length
is the capacity `sizeof(allThreads) / sizeof(allThreads[0])`. -/
structure KSMachineContext where
  thisThread : KSThread
  allThreads : List KSThread
  threadCount : Int
  isCrashedContext : Bool
  isCurrentThread : Bool
  isStackOverflow : Bool
  isSignalContext : Bool
  machineContext : STRUCT_MCONTEXT_L
deriving DecidableEq

/-- The requests that the suspend/resume pair sends to the operating system
and to the log. -/
inductive OSCall where
  | thread_suspend (thread : KSThread)
  | thread_resume (thread : KSThread)
  | mach_port_deallocate (thread : KSThread)
  | vm_deallocate (numThreads : Nat)
  | KSLOG_ERROR (message : String)
deriving DecidableEq

/-- The statics `g_reservedThreads` (an array of 10 handles) and
`g_reservedThreadsCount`. -/
structure ReservedThreads where
  g_reservedThreads : List KSThread
  g_reservedThreadsCount : Int
deriving DecidableEq

/-- The statics as the program starts: a zeroed array and a count of 0. -/
def ReservedThreads.initial : ReservedThreads :=
  { g_reservedThreads := List.replicate 10 0, g_reservedThreadsCount := 0 }

/-- The static `g_reservedThreadsMaxIndex`: the array size, 10, minus one. -/
def g_reservedThreadsMaxIndex : Int := 10 - 1

/-- The C function `ksmc_addReservedThread`: appends the handle unless the array is full. -/
def ksmc_addReservedThread (g : ReservedThreads) (thread : KSThread) : ReservedThreads :=
  let nextIndex := g.g_reservedThreadsCount
  if nextIndex > g_reservedThreadsMaxIndex then
    g
  else
    { g_reservedThreads := g.g_reservedThreads.set g.g_reservedThreadsCount.toNat thread
      g_reservedThreadsCount := g.g_reservedThreadsCount + 1 }

/-- The statics after the given `ksmc_addReservedThread` calls, in call order. -/
def reservedAfter (added : List KSThread) : ReservedThreads :=
  added.foldl ksmc_addReservedThread ReservedThreads.initial

/-- The C function `isThreadInList`: is `list[i] == thread` for some `i < listCount`. -/
def isThreadInList (thread : KSThread) (list : List KSThread) (listCount : Int) : Bool :=
  (List.range listCount.toNat).any (fun i => list[i]? == some thread)

/-- The loop of `ksmc_suspendEnvironment` over the enumerated threads:
`thread_suspend` is requested for every thread that passes the test, a failure
(`thread_suspend thread = false`) is logged and the loop goes on. -/
def suspendLoop (thisThread : KSThread) (g : ReservedThreads)
    (thread_suspend : KSThread → Bool) : List KSThread → List OSCall
  | [] => []
  | thread :: rest =>
    if thread ≠ thisThread ∧
        ¬ isThreadInList thread g.g_reservedThreads g.g_reservedThreadsCount then
      if thread_suspend thread then
        OSCall.thread_suspend thread :: suspendLoop thisThread g thread_suspend rest
      else
        OSCall.thread_suspend thread :: OSCall.KSLOG_ERROR "thread_suspend"
          :: suspendLoop thisThread g thread_suspend rest
    else
      suspendLoop thisThread g thread_suspend rest

/-- The C function `ksmc_suspendEnvironment` (the body under `KSCRASH_HAS_THREADS_API`).
`task_threads` is the result of the enumeration, `none` when it fails;
`thisThread` is the calling thread. The result is the thread list written to
the out-parameters (`none` when they are not written) and the requests made. -/
def ksmc_suspendEnvironment (task_threads : Option (List KSThread)) (thisThread : KSThread)
    (g : ReservedThreads) (thread_suspend : KSThread → Bool) :
    Option (List KSThread) × List OSCall :=
  match task_threads with
  | none => (none, [OSCall.KSLOG_ERROR "task_threads"])
  | some suspendedThreads =>
    (some suspendedThreads, suspendLoop thisThread g thread_suspend suspendedThreads)

/-- The first loop of `ksmc_resumeEnvironment`. -/
def resumeLoop (thisThread : KSThread) (g : ReservedThreads)
    (thread_resume : KSThread → Bool) : List KSThread → List OSCall
  | [] => []
  | thread :: rest =>
    if thread ≠ thisThread ∧
        ¬ isThreadInList thread g.g_reservedThreads g.g_reservedThreadsCount then
      if thread_resume thread then
        OSCall.thread_resume thread :: resumeLoop thisThread g thread_resume rest
      else
        OSCall.thread_resume thread :: OSCall.KSLOG_ERROR "thread_resume"
          :: resumeLoop thisThread g thread_resume rest
    else
      resumeLoop thisThread g thread_resume rest

/-- The C function `ksmc_resumeEnvironment` (the body under `KSCRASH_HAS_THREADS_API`).
`threads` is the array with its `numThreads` entries, `none` for `NULL`. -/
def ksmc_resumeEnvironment (threads : Option (List KSThread)) (thisThread : KSThread)
    (g : ReservedThreads) (thread_resume : KSThread → Bool) : List OSCall :=
  match threads with
  | none => [OSCall.KSLOG_ERROR "we should call ksmc_suspendEnvironment() first"]
  | some [] => [OSCall.KSLOG_ERROR "we should call ksmc_suspendEnvironment() first"]
  | some threads =>
    resumeLoop thisThread g thread_resume threads
      ++ threads.map OSCall.mach_port_deallocate
      ++ [OSCall.vm_deallocate threads.length]

/-- The threads on which `thread_suspend` was requested, in request order. -/
def suspendRequests : List OSCall → List KSThread
  | [] => []
  | OSCall.thread_suspend thread :: rest => thread :: suspendRequests rest
  | _ :: rest => suspendRequests rest

/-- The threads on which `thread_resume` was requested, in request order. -/
def resumeRequests : List OSCall → List KSThread
  | [] => []
  | OSCall.thread_resume thread :: rest => thread :: resumeRequests rest
  | _ :: rest => resumeRequests rest

/-- The handles that the reserved set holds: `g_reservedThreads[0 .. count-1]`. -/
def ReservedThreads.stored (g : ReservedThreads) : List KSThread :=
  g.g_reservedThreads.take g.g_reservedThreadsCount.toNat

/-- The reserved set is in range: ten slots and a count between 0 and 10. -/
def ReservedThreads.InRange (g : ReservedThreads) : Prop :=
  g.g_reservedThreads.length = 10 ∧ 0 ≤ g.g_reservedThreadsCount ∧ g.g_reservedThreadsCount ≤ 10

/-- The copy loop of `getThreadList`:
`for (i = 0; i < threadCount; i++) allThreads[i] = threads[i]`. -/
def copyThreads (threads : List KSThread) (threadCount : Nat)
    (allThreads : List KSThread) : List KSThread :=
  (List.range threadCount).foldl
    (fun acc i =>
      match threads[i]? with
      | some thread => acc.set i thread
      | none => acc)
    allThreads

/-- The C function `getThreadList`: `task_threads` is the result of the enumeration, `none`
when it fails. When the enumeration exceeds the capacity, the first entry at an
index from the capacity on that equals `thisThread` is written to the last slot
that will be copied. The release of the enumerated handles is not modelled. -/
def getThreadList (context : KSMachineContext) (task_threads : Option (List KSThread)) :
    Bool × KSMachineContext :=
  match task_threads with
  | none => (false, context)
  | some threads =>
    let actualThreadCount := threads.length
    let maxThreadCount := context.allThreads.length
    if actualThreadCount > maxThreadCount then
      let threads :=
        match (threads.drop maxThreadCount).find? (fun thread => thread == context.thisThread) with
        | some thread => threads.set (maxThreadCount - 1) thread
        | none => threads
      let threadCount := maxThreadCount
      (true,
        { context with
          allThreads := copyThreads threads threadCount context.allThreads
          threadCount := (threadCount : Int) })
    else
      let threadCount := actualThreadCount
      (true,
        { context with
          allThreads := copyThreads threads threadCount context.allThreads
          threadCount := (threadCount : Int) })

/-- The threads that a suspend call suspended: those on which `thread_suspend`
was requested and succeeded. -/
def suspendedThreads (calls : List OSCall) (thread_suspend : KSThread → Bool) :
    List KSThread :=
  (suspendRequests calls).filter thread_suspend

/-- Some prior content of a machine context for `thisThread`, with an
`allThreads` array of the given capacity. -/
def staleContext (thisThread : KSThread) (capacity : Nat) : KSMachineContext :=
  { thisThread := thisThread
    allThreads := List.replicate capacity 0
    threadCount := 0
    isCrashedContext := true
    isCurrentThread := true
    isStackOverflow := false
    isSignalContext := false
    machineContext :=
      { __es := { __far := 0, __esr := 0, __exception := 0 }
        __ss := { __x := List.replicate 29 0, __fp := 0, __lr := 0, __sp := 0, __pc := 0, __cpsr := 0 } } }

/-- The C function `ksmc_isCrashedContext`. -/
def ksmc_isCrashedContext (context : KSMachineContext) : Bool :=
  context.isCrashedContext

/-- The C function `isContextForCurrentThread`. -/
def isContextForCurrentThread (context : KSMachineContext) : Bool :=
  context.isCurrentThread

/-- The C function `isSignalContext`. -/
def isSignalContext (context : KSMachineContext) : Bool :=
  context.isSignalContext

/-- The C function `ksmc_canHaveCPUState`. -/
def ksmc_canHaveCPUState (context : KSMachineContext) : Bool :=
  !isContextForCurrentThread context || isSignalContext context

/-- The C function `ksmc_hasValidExceptionRegisters`. -/
def ksmc_hasValidExceptionRegisters (context : KSMachineContext) : Bool :=
  ksmc_canHaveCPUState context && ksmc_isCrashedContext context

/-! ## Freeze gate of the thread metadata cache -/

/-- The C function `ksccd_freeze` on the counter `g_semaphoreCount`: the
counter after the call and whether `usleep(1)` was called, which is when the
value observed by `g_semaphoreCount++` (the counter before the increment) is at
most 0. The counter is an `int` taken as an integer, which is exact while fewer
than `2^31` freezes are outstanding. -/
def ksccd_freeze (g_semaphoreCount : Int) : Int × Bool :=
  let observed := g_semaphoreCount
  let g_semaphoreCount := g_semaphoreCount + 1
  if observed ≤ 0 then (g_semaphoreCount, true) else (g_semaphoreCount, false)

/-- The C function `ksccd_unfreeze` on the counter `g_semaphoreCount`. -/
def ksccd_unfreeze (g_semaphoreCount : Int) : Int :=
  let g_semaphoreCount := g_semaphoreCount - 1
  if g_semaphoreCount < 0 then g_semaphoreCount + 1 else g_semaphoreCount

/-- A call on the gate. -/
inductive GateCall where
  | freeze
  | unfreeze
deriving DecidableEq

/-- The counter after one call on the gate. -/
def gateStep (g_semaphoreCount : Int) : GateCall → Int
  | GateCall.freeze => (ksccd_freeze g_semaphoreCount).1
  | GateCall.unfreeze => ksccd_unfreeze g_semaphoreCount

/-- The counter after a sequence of calls on the gate, made one after the
other, starting from the static initial value 0. -/
def gateAfter (calls : List GateCall) : Int :=
  calls.foldl gateStep 0

/-! ## Signal classification table -/

/-- The constants of the platform header `signal.h` that `KSSignalInfo.c`
names; the header is not part of the sources, so the values are parameters.
A constant tested with `#ifdef` is `none` when the header does not define it. -/
structure SignalHeader where
  SIGABRT : Int
  SIGBUS : Int
  SIGFPE : Int
  SIGILL : Int
  SIGPIPE : Int
  SIGSEGV : Int
  SIGSYS : Int
  SIGTRAP : Int
  SIGTERM : Int
  ILL_NOOP : Option Int
  ILL_ILLOPC : Int
  ILL_ILLTRP : Int
  ILL_PRVOPC : Int
  ILL_ILLOPN : Int
  ILL_ILLADR : Int
  ILL_PRVREG : Int
  ILL_COPROC : Int
  ILL_BADSTK : Int
  TRAP_BRKPT : Int
  TRAP_TRACE : Int
  FPE_NOOP : Option Int
  FPE_FLTDIV : Int
  FPE_FLTOVF : Int
  FPE_FLTUND : Int
  FPE_FLTRES : Int
  FPE_FLTINV : Int
  FPE_FLTSUB : Int
  FPE_INTDIV : Int
  FPE_INTOVF : Int
  BUS_NOOP : Option Int
  BUS_ADRALN : Int
  BUS_ADRERR : Int
  BUS_OBJERR : Int
  SEGV_NOOP : Option Int
  SEGV_MAPERR : Int
  SEGV_ACCERR : Int
deriving DecidableEq

/-- The values of these constants in the Darwin header. -/
def darwinSignalHeader : SignalHeader :=
  { SIGABRT := 6, SIGBUS := 10, SIGFPE := 8, SIGILL := 4, SIGPIPE := 13, SIGSEGV := 11
    SIGSYS := 12, SIGTRAP := 5, SIGTERM := 15
    ILL_NOOP := some 0, ILL_ILLOPC := 1, ILL_ILLTRP := 2, ILL_PRVOPC := 3, ILL_ILLOPN := 4
    ILL_ILLADR := 5, ILL_PRVREG := 6, ILL_COPROC := 7, ILL_BADSTK := 8
    TRAP_BRKPT := 1, TRAP_TRACE := 2
    FPE_NOOP := some 0, FPE_FLTDIV := 1, FPE_FLTOVF := 2, FPE_FLTUND := 3, FPE_FLTRES := 4
    FPE_FLTINV := 5, FPE_FLTSUB := 6, FPE_INTDIV := 7, FPE_INTOVF := 8
    BUS_NOOP := some 0, BUS_ADRALN := 1, BUS_ADRERR := 2, BUS_OBJERR := 3
    SEGV_NOOP := some 0, SEGV_MAPERR := 1, SEGV_ACCERR := 2 }

/-- The struct `KSSignalCodeInfo`. -/
structure KSSignalCodeInfo where
  code : Int
  name : String
deriving DecidableEq

/-- The struct `KSSignalInfo`; `codes` is the pointer to the code table, `none`
for the null pointer. -/
structure KSSignalInfo where
  sigNum : Int
  name : String
  codes : Option (List KSSignalCodeInfo)
  numCodes : Int
deriving DecidableEq

/-- The macro `ENUM_NAME_MAPPING(A)`, which is `{ A, #A }`: the value of the
constant and its spelling. -/
def ENUM_NAME_MAPPING (A : Int) (spelling : String) : KSSignalCodeInfo :=
  { code := A, name := spelling }

/-- An entry of a code table under `#ifdef`: present when the constant is
defined. -/
def ifdefEntry (A : Option Int) (spelling : String) : List KSSignalCodeInfo :=
  match A with
  | some a => [ENUM_NAME_MAPPING a spelling]
  | none => []

/-- The table `g_sigIllCodes`. -/
def g_sigIllCodes (H : SignalHeader) : List KSSignalCodeInfo :=
  ifdefEntry H.ILL_NOOP "ILL_NOOP" ++
  [ENUM_NAME_MAPPING H.ILL_ILLOPC "ILL_ILLOPC", ENUM_NAME_MAPPING H.ILL_ILLTRP "ILL_ILLTRP",
   ENUM_NAME_MAPPING H.ILL_PRVOPC "ILL_PRVOPC", ENUM_NAME_MAPPING H.ILL_ILLOPN "ILL_ILLOPN",
   ENUM_NAME_MAPPING H.ILL_ILLADR "ILL_ILLADR", ENUM_NAME_MAPPING H.ILL_PRVREG "ILL_PRVREG",
   ENUM_NAME_MAPPING H.ILL_COPROC "ILL_COPROC", ENUM_NAME_MAPPING H.ILL_BADSTK "ILL_BADSTK"]

/-- The table `g_sigTrapCodes`. -/
def g_sigTrapCodes (H : SignalHeader) : List KSSignalCodeInfo :=
  [ENUM_NAME_MAPPING 0 "0", ENUM_NAME_MAPPING H.TRAP_BRKPT "TRAP_BRKPT",
   ENUM_NAME_MAPPING H.TRAP_TRACE "TRAP_TRACE"]

/-- The table `g_sigFPECodes`. -/
def g_sigFPECodes (H : SignalHeader) : List KSSignalCodeInfo :=
  ifdefEntry H.FPE_NOOP "FPE_NOOP" ++
  [ENUM_NAME_MAPPING H.FPE_FLTDIV "FPE_FLTDIV", ENUM_NAME_MAPPING H.FPE_FLTOVF "FPE_FLTOVF",
   ENUM_NAME_MAPPING H.FPE_FLTUND "FPE_FLTUND", ENUM_NAME_MAPPING H.FPE_FLTRES "FPE_FLTRES",
   ENUM_NAME_MAPPING H.FPE_FLTINV "FPE_FLTINV", ENUM_NAME_MAPPING H.FPE_FLTSUB "FPE_FLTSUB",
   ENUM_NAME_MAPPING H.FPE_INTDIV "FPE_INTDIV", ENUM_NAME_MAPPING H.FPE_INTOVF "FPE_INTOVF"]

/-- The table `g_sigBusCodes`. -/
def g_sigBusCodes (H : SignalHeader) : List KSSignalCodeInfo :=
  ifdefEntry H.BUS_NOOP "BUS_NOOP" ++
  [ENUM_NAME_MAPPING H.BUS_ADRALN "BUS_ADRALN", ENUM_NAME_MAPPING H.BUS_ADRERR "BUS_ADRERR",
   ENUM_NAME_MAPPING H.BUS_OBJERR "BUS_OBJERR"]

/-- The table `g_sigSegVCodes`. -/
def g_sigSegVCodes (H : SignalHeader) : List KSSignalCodeInfo :=
  ifdefEntry H.SEGV_NOOP "SEGV_NOOP" ++
  [ENUM_NAME_MAPPING H.SEGV_MAPERR "SEGV_MAPERR", ENUM_NAME_MAPPING H.SEGV_ACCERR "SEGV_ACCERR"]

/-- The macro `SIGNAL_INFO(SIGNAL, CODES)`. -/
def SIGNAL_INFO (SIGNAL : Int) (spelling : String) (CODES : List KSSignalCodeInfo) :
    KSSignalInfo :=
  { sigNum := SIGNAL, name := spelling, codes := some CODES, numCodes := CODES.length }

/-- The macro `SIGNAL_INFO_NOCODES(SIGNAL)`. -/
def SIGNAL_INFO_NOCODES (SIGNAL : Int) (spelling : String) : KSSignalInfo :=
  { sigNum := SIGNAL, name := spelling, codes := none, numCodes := 0 }

/-- The table `g_fatalSignalData`. -/
def g_fatalSignalData (H : SignalHeader) : List KSSignalInfo :=
  [SIGNAL_INFO_NOCODES H.SIGABRT "SIGABRT", SIGNAL_INFO H.SIGBUS "SIGBUS" (g_sigBusCodes H),
   SIGNAL_INFO H.SIGFPE "SIGFPE" (g_sigFPECodes H),
   SIGNAL_INFO H.SIGILL "SIGILL" (g_sigIllCodes H), SIGNAL_INFO_NOCODES H.SIGPIPE "SIGPIPE",
   SIGNAL_INFO H.SIGSEGV "SIGSEGV" (g_sigSegVCodes H),
   SIGNAL_INFO_NOCODES H.SIGSYS "SIGSYS", SIGNAL_INFO H.SIGTRAP "SIGTRAP" (g_sigTrapCodes H),
   SIGNAL_INFO_NOCODES H.SIGTERM "SIGTERM"]

/-- The constant `g_fatalSignalsCount`: the number of entries of
`g_fatalSignalData`. -/
def g_fatalSignalsCount (H : SignalHeader) : Int :=
  (g_fatalSignalData H).length

/-- The array `g_fatalSignals`. -/
def g_fatalSignals (H : SignalHeader) : List Int :=
  [H.SIGABRT, H.SIGBUS, H.SIGFPE, H.SIGILL, H.SIGPIPE, H.SIGSEGV, H.SIGSYS, H.SIGTRAP,
   H.SIGTERM]

/-- The C function `kssignal_signalName`: the name of the first of the first
`g_fatalSignalsCount` entries with the signal number, `none` for `NULL`. -/
def kssignal_signalName (H : SignalHeader) (sigNum : Int) : Option String :=
  match ((g_fatalSignalData H).take (g_fatalSignalsCount H).toNat).find?
      (fun info => info.sigNum == sigNum) with
  | some info => some info.name
  | none => none

/-- The entries `codes[0 .. numCodes-1]` that the inner loop of
`kssignal_signalCodeName` reads; none when `numCodes` is 0. -/
def KSSignalInfo.listedCodes (info : KSSignalInfo) : List KSSignalCodeInfo :=
  match info.codes with
  | some codes => codes.take info.numCodes.toNat
  | none => []

/-- The inner loop of `kssignal_signalCodeName` over the codes of one entry. -/
def signalCodeNameInner (info : KSSignalInfo) (code : Int) : Option String :=
  match info.listedCodes.find? (fun codeInfo => codeInfo.code == code) with
  | some codeInfo => some codeInfo.name
  | none => none

/-- The outer loop of `kssignal_signalCodeName`: an entry with the signal
number whose codes do not list the code does not end the loop. -/
def signalCodeNameOuter (sigNum code : Int) : List KSSignalInfo → Option String
  | [] => none
  | info :: rest =>
    if info.sigNum == sigNum then
      match signalCodeNameInner info code with
      | some name => some name
      | none => signalCodeNameOuter sigNum code rest
    else
      signalCodeNameOuter sigNum code rest

/-- The C function `kssignal_signalCodeName`, `none` for `NULL`. -/
def kssignal_signalCodeName (H : SignalHeader) (sigNum code : Int) : Option String :=
  signalCodeNameOuter sigNum code ((g_fatalSignalData H).take (g_fatalSignalsCount H).toNat)

/-- The C function `kssignal_fatalSignals`. -/
def kssignal_fatalSignals (H : SignalHeader) : List Int :=
  g_fatalSignals H

/-- The C function `kssignal_numFatalSignals`. -/
def kssignal_numFatalSignals (H : SignalHeader) : Int :=
  g_fatalSignalsCount H

/-- The header defines distinct numbers for the nine signals and, within each
code table, distinct codes. -/
def SignalHeader.Distinct (H : SignalHeader) : Prop :=
  (g_fatalSignals H).Nodup ∧
  ∀ info ∈ g_fatalSignalData H, (info.listedCodes.map (fun codeInfo => codeInfo.code)).Nodup

/-! ## Thread metadata cache -/

/-- A string made by `strdup`: the number of the `strdup` call that made it,
which tells two strings of the same text apart, and the text. -/
structure HeapString where
  allocation : Nat
  text : String
deriving DecidableEq

/-- The statics of `KSCrashCachedData.c`, with the static local
`quickPollCount` of `monitorCachedData`. An array pointer is `none` when it is
`NULL`. The last field counts the `strdup` calls made so far; it is not a
variable of the program. -/
structure CachedData where
  g_pollingIntervalInSeconds : Int
  g_allMachThreads : Option (List KSThread)
  g_allPThreads : Option (List KSThread)
  g_allThreadNames : Option (List (Option HeapString))
  g_allQueueNames : Option (List (Option HeapString))
  g_allThreadsCount : Int
  g_semaphoreCount : Int
  g_searchQueueNames : Bool
  g_hasThreadStarted : Bool
  quickPollCount : Int
  strdupCount : Nat
deriving DecidableEq

/-- The statics as the program starts. -/
def CachedData.initial : CachedData :=
  { g_pollingIntervalInSeconds := 0
    g_allMachThreads := none
    g_allPThreads := none
    g_allThreadNames := none
    g_allQueueNames := none
    g_allThreadsCount := 0
    g_semaphoreCount := 0
    g_searchQueueNames := false
    g_hasThreadStarted := false
    quickPollCount := 4
    strdupCount := 0 }

/-- What the operating system answers during one refresh: the enumeration
(`none` when `task_threads` fails), whether each of the four `calloc` calls
succeeds, the posix handle of a thread (0 when it has none), and the name that
`pthread_getname_np` and `ksthread_getQueueName` write to the buffer (`none`
when the call fails). -/
structure RefreshOS where
  task_threads : Option (List KSThread)
  calloc_allMachThreads : Bool
  calloc_allPThreads : Bool
  calloc_allThreadNames : Bool
  calloc_allQueueNames : Bool
  pthread_from_mach_thread_np : KSThread → KSThread
  pthread_getname_np : KSThread → Option String
  ksthread_getQueueName : KSThread → Option String

/-- The requests that the cache sends to the operating system, the allocator
and the log. -/
inductive CacheCall where
  | KSLOG_ERROR (message : String)
  | free_threads (array : List KSThread)
  | free_names (array : List (Option HeapString))
  | free_name (name : HeapString)
  | mach_port_deallocate (thread : KSThread)
  | vm_deallocate (numThreads : Nat)
  | sleep (seconds : Nat)
deriving DecidableEq

/-- The locals of `updateThreadList` that point to the arrays of the
generation being built, and after the swaps to the arrays being replaced. -/
structure RefreshLocals where
  allMachThreads : Option (List KSThread)
  allPThreads : Option (List KSThread)
  allThreadNames : Option (List (Option HeapString))
  allQueueNames : Option (List (Option HeapString))
  strdupCount : Nat
deriving DecidableEq

/-- The call `calloc(count, size)`: a zeroed array, or `NULL` when the
allocation fails. The result is not tested by `updateThreadList`. -/
def calloc {α : Type} (succeeds : Bool) (count : Nat) (zero : α) : Option (List α) :=
  if succeeds then some (List.replicate count zero) else none

/-- The write `array[i] = value` through a local pointer: `none`, undefined
behaviour, when the pointer is `NULL` or the index is outside the array. -/
def storeAt {α : Type} (array : Option (List α)) (i : Nat) (value : α) : Option (List α) :=
  match array with
  | none => none
  | some entries => if i < entries.length then some (entries.set i value) else none

/-- The guarded statement `names[i] = strdup(buffer)`: run when the guard call
succeeded with a buffer that does not start with the byte 0; the pointer after
the statement and the count of `strdup` calls, `none` for undefined
behaviour. -/
def storeName (names : Option (List (Option HeapString))) (i : Nat) (buffer : Option String)
    (strdupCount : Nat) : Option (Option (List (Option HeapString)) × Nat) :=
  match buffer with
  | none => some (names, strdupCount)
  | some text =>
    if text ≠ "" then
      match storeAt names i (some { allocation := strdupCount, text := text }) with
      | none => none
      | some entries => some (some entries, strdupCount + 1)
    else
      some (names, strdupCount)

/-- The body of the loop of `updateThreadList` over the enumerated threads,
for the thread at index `i`. -/
def fillEntry (os : RefreshOS) (g_searchQueueNames : Bool) (i : Nat) (thread : KSThread)
    (l : RefreshLocals) : Option RefreshLocals :=
  let pthread := os.pthread_from_mach_thread_np thread
  match storeAt l.allMachThreads i thread with
  | none => none
  | some machThreads =>
    match storeAt l.allPThreads i pthread with
    | none => none
    | some pThreads =>
      match storeName l.allThreadNames i
          (if pthread ≠ 0 then os.pthread_getname_np pthread else none) l.strdupCount with
      | none => none
      | some (threadNames, count1) =>
        match storeName l.allQueueNames i
            (if g_searchQueueNames then os.ksthread_getQueueName thread else none) count1 with
        | none => none
        | some (queueNames, count2) =>
          some
            { allMachThreads := some machThreads
              allPThreads := some pThreads
              allThreadNames := threadNames
              allQueueNames := queueNames
              strdupCount := count2 }

/-- The loop of `updateThreadList` over the enumerated threads from index `i`. -/
def fillGeneration (os : RefreshOS) (g_searchQueueNames : Bool) :
    Nat → List KSThread → RefreshLocals → Option RefreshLocals
  | _, [], l => some l
  | i, thread :: rest, l =>
    match fillEntry os g_searchQueueNames i thread l with
    | none => none
    | some l1 => fillGeneration os g_searchQueueNames (i + 1) rest l1

/-- The four `calloc` calls and the loop of `updateThreadList`: the locals as
the loop leaves them, `none` for undefined behaviour. -/
def buildGeneration (os : RefreshOS) (s : CachedData) (threads : List KSThread) :
    Option RefreshLocals :=
  fillGeneration os s.g_searchQueueNames 0 threads
    { allMachThreads := calloc os.calloc_allMachThreads threads.length 0
      allPThreads := calloc os.calloc_allPThreads threads.length 0
      allThreadNames := calloc os.calloc_allThreadNames threads.length none
      allQueueNames := calloc os.calloc_allQueueNames threads.length none
      strdupCount := s.strdupCount }

/-- The statement
`g_allThreadsCount = g_allThreadsCount < (int)allThreadsCount ? g_allThreadsCount : (int)allThreadsCount`. -/
def lowerCount (s : CachedData) (allThreadsCount : Int) : CachedData :=
  { s with
    g_allThreadsCount :=
      if s.g_allThreadsCount < allThreadsCount then s.g_allThreadsCount else allThreadsCount }

/-- The statement `SWAP_POINTERS(g_allMachThreads, allMachThreads)`. -/
def swapMachThreads (p : CachedData × RefreshLocals) : CachedData × RefreshLocals :=
  ({ p.1 with g_allMachThreads := p.2.allMachThreads },
   { p.2 with allMachThreads := p.1.g_allMachThreads })

/-- The statement `SWAP_POINTERS(g_allPThreads, allPThreads)`. -/
def swapPThreads (p : CachedData × RefreshLocals) : CachedData × RefreshLocals :=
  ({ p.1 with g_allPThreads := p.2.allPThreads },
   { p.2 with allPThreads := p.1.g_allPThreads })

/-- The statement `SWAP_POINTERS(g_allThreadNames, allThreadNames)`. -/
def swapThreadNames (p : CachedData × RefreshLocals) : CachedData × RefreshLocals :=
  ({ p.1 with g_allThreadNames := p.2.allThreadNames },
   { p.2 with allThreadNames := p.1.g_allThreadNames })

/-- The statement `SWAP_POINTERS(g_allQueueNames, allQueueNames)`. -/
def swapQueueNames (p : CachedData × RefreshLocals) : CachedData × RefreshLocals :=
  ({ p.1 with g_allQueueNames := p.2.allQueueNames },
   { p.2 with allQueueNames := p.1.g_allQueueNames })

/-- The statement `g_allThreadsCount = (int)allThreadsCount`. -/
def setCount (s : CachedData) (allThreadsCount : Int) : CachedData :=
  { s with g_allThreadsCount := allThreadsCount }

/-- The six statements of `updateThreadList` that install the new generation:
the statics and the locals after the last of them. -/
def installGeneration (s : CachedData) (l : RefreshLocals) (allThreadsCount : Int) :
    CachedData × RefreshLocals :=
  let p := swapQueueNames (swapThreadNames (swapPThreads (swapMachThreads
    (lowerCount s allThreadsCount, l))))
  (setCount p.1 allThreadsCount, p.2)

/-- The statics after each of the six statements that install the new
generation, in order: what a reader can observe while they run. -/
def installStates (s : CachedData) (l : RefreshLocals) (allThreadsCount : Int) :
    List CachedData :=
  let p1 := (lowerCount s allThreadsCount, l)
  let p2 := swapMachThreads p1
  let p3 := swapPThreads p2
  let p4 := swapThreadNames p3
  let p5 := swapQueueNames p4
  [p1.1, p2.1, p3.1, p4.1, p5.1, setCount p5.1 allThreadsCount]

/-- The release of a replaced array of thread handles:
`if (array != NULL) free(array)`. -/
def freeThreads (array : Option (List KSThread)) : List CacheCall :=
  match array with
  | none => []
  | some entries => [CacheCall.free_threads entries]

/-- The release of a replaced array of names: when the pointer is not `NULL`,
every name at an index below `oldThreadsCount` that is not `NULL` is freed,
then the array; `none`, undefined behaviour, when `oldThreadsCount` exceeds
the array. -/
def freeNames (names : Option (List (Option HeapString))) (oldThreadsCount : Int) :
    Option (List CacheCall) :=
  match names with
  | none => some []
  | some entries =>
    if oldThreadsCount.toNat ≤ entries.length then
      some ((entries.take oldThreadsCount.toNat).filterMap
          (fun name => name.map CacheCall.free_name)
        ++ [CacheCall.free_names entries])
    else
      none

/-- The C function `updateThreadList`: the statics after the call and the
requests made, `none` for undefined behaviour (a write through `NULL`, a read
outside an array). `strdup` is taken to succeed. -/
def updateThreadList (os : RefreshOS) (s : CachedData) : Option (CachedData × List CacheCall) :=
  let oldThreadsCount := s.g_allThreadsCount
  match os.task_threads with
  | none => some (s, [CacheCall.KSLOG_ERROR "task_threads"])
  | some threads =>
    let allThreadsCount : Int := threads.length
    match buildGeneration os s threads with
    | none => none
    | some locals =>
      let installed := installGeneration s locals allThreadsCount
      match freeNames installed.2.allThreadNames oldThreadsCount,
          freeNames installed.2.allQueueNames oldThreadsCount with
      | some freedThreadNames, some freedQueueNames =>
        some ({ installed.1 with strdupCount := locals.strdupCount },
          freeThreads installed.2.allMachThreads ++ freeThreads installed.2.allPThreads
            ++ freedThreadNames ++ freedQueueNames
            ++ threads.map CacheCall.mach_port_deallocate
            ++ [CacheCall.vm_deallocate threads.length])
      | _, _ => none

/-- The statics that a reader can observe while `updateThreadList` runs: as
they are on entry, and after each of the statements that install the new
generation; only the entry state when the enumeration fails. -/
def observableStates (os : RefreshOS) (s : CachedData) : Option (List CachedData) :=
  match os.task_threads with
  | none => some [s]
  | some threads =>
    match buildGeneration os s threads with
    | none => none
    | some locals => some (s :: installStates s locals threads.length)

/-- A sequence of refresh cycles, one `updateThreadList` call after the other. -/
def runRefreshes : List RefreshOS → CachedData → Option CachedData
  | [], s => some s
  | os :: rest, s =>
    match updateThreadList os s with
    | none => none
    | some (s1, _) => runRefreshes rest s1

/-- The length of the sequence behind an array pointer, 0 for `NULL`. -/
def seqLength {α : Type} : Option (List α) → Nat
  | none => 0
  | some entries => entries.length

/-- The four parallel sequences of the cache have equal length. -/
def CachedData.EqualLengths (s : CachedData) : Prop :=
  seqLength s.g_allPThreads = seqLength s.g_allMachThreads ∧
  seqLength s.g_allThreadNames = seqLength s.g_allMachThreads ∧
  seqLength s.g_allQueueNames = seqLength s.g_allMachThreads

/-- The four `calloc` calls of a refresh succeed. -/
def RefreshOS.allocationsSucceed (os : RefreshOS) : Bool :=
  os.calloc_allMachThreads && os.calloc_allPThreads && os.calloc_allThreadNames
    && os.calloc_allQueueNames

/-- One cycle of the loop of `monitorCachedData`: whether `updateThreadList`
was called, and the statics and requests at the end of the cycle (`none` when
the refresh has undefined behaviour). The interval is the polling interval
converted to `unsigned`, or 1 while `quickPollCount` is positive. -/
def monitorCachedData_cycle (os : RefreshOS) (s : CachedData) :
    Bool × Option (CachedData × List CacheCall) :=
  let refreshed : Bool × Option (CachedData × List CacheCall) :=
    if s.g_semaphoreCount ≤ 0 then (true, updateThreadList os s) else (false, some (s, []))
  match refreshed with
  | (called, none) => (called, none)
  | (called, some (s1, calls)) =>
    let pollintInterval := (s1.g_pollingIntervalInSeconds % 2 ^ 32).toNat
    if s1.quickPollCount > 0 then
      (called, some ({ s1 with quickPollCount := s1.quickPollCount - 1 },
        calls ++ [CacheCall.sleep 1]))
    else
      (called, some (s1, calls ++ [CacheCall.sleep pollintInterval]))

/-- The C function `ksccd_setSearchQueueNames`. -/
def ksccd_setSearchQueueNames (s : CachedData) (searchQueueNames : Bool) : CachedData :=
  { s with g_searchQueueNames := searchQueueNames }

/-- A step of a run of the cache: a call on the gate by some thread, a call of
`ksccd_setSearchQueueNames`, or a cycle of the background worker. The steps of
a run are taken one after the other, which is exact as long as calls on the
gate do not overlap one another: the check of the worker is one atomic read,
`ksccd_freeze` one atomic increment, and `ksccd_unfreeze` passes through a
second value only when the counter is at most 0 before it, where the check
decides the same for both values. -/
inductive CacheStep where
  | gate (call : GateCall)
  | setSearchQueueNames (searchQueueNames : Bool)
  | cycle (os : RefreshOS)

/-- A run of the cache: the statics at the end and, for every cycle of the
worker in order, whether it called `updateThreadList`. -/
def runCache : List CacheStep → CachedData → Option (CachedData × List Bool)
  | [], s => some (s, [])
  | CacheStep.gate call :: rest, s =>
    runCache rest { s with g_semaphoreCount := gateStep s.g_semaphoreCount call }
  | CacheStep.setSearchQueueNames searchQueueNames :: rest, s =>
    runCache rest (ksccd_setSearchQueueNames s searchQueueNames)
  | CacheStep.cycle os :: rest, s =>
    match monitorCachedData_cycle os s with
    | (_, none) => none
    | (called, some (s1, _)) =>
      match runCache rest s1 with
      | none => none
      | some (s2, log) => some (s2, called :: log)

/-- The steps stay inside the freeze that was entered just before them: the
unfreeze that matches that freeze is not among them. The depth counts the
freezes entered since and not yet left. -/
def staysFrozen : Nat → List CacheStep → Bool
  | _, [] => true
  | depth, CacheStep.gate GateCall.freeze :: rest => staysFrozen (depth + 1) rest
  | 0, CacheStep.gate GateCall.unfreeze :: _ => false
  | depth + 1, CacheStep.gate GateCall.unfreeze :: rest => staysFrozen depth rest
  | depth, CacheStep.setSearchQueueNames _ :: rest => staysFrozen depth rest
  | depth, CacheStep.cycle _ :: rest => staysFrozen depth rest

/-- The number of worker cycles among the steps. -/
def countCycles : List CacheStep → Nat
  | [] => 0
  | CacheStep.gate _ :: rest => countCycles rest
  | CacheStep.setSearchQueueNames _ :: rest => countCycles rest
  | CacheStep.cycle _ :: rest => countCycles rest + 1

/-- The thread count is not negative and each of the four sequences of the
cache has that length. -/
def CachedData.Consistent (s : CachedData) : Prop :=
  0 ≤ s.g_allThreadsCount ∧
  seqLength s.g_allMachThreads = s.g_allThreadsCount.toNat ∧
  seqLength s.g_allPThreads = s.g_allThreadsCount.toNat ∧
  seqLength s.g_allThreadNames = s.g_allThreadsCount.toNat ∧
  seqLength s.g_allQueueNames = s.g_allThreadsCount.toNat

/-- Each of the four local arrays is allocated with the given length. -/
def RefreshLocals.Sized (l : RefreshLocals) (n : Nat) : Prop :=
  (∃ a, l.allMachThreads = some a ∧ a.length = n) ∧
  (∃ a, l.allPThreads = some a ∧ a.length = n) ∧
  (∃ a, l.allThreadNames = some a ∧ a.length = n) ∧
  (∃ a, l.allQueueNames = some a ∧ a.length = n)

/-- An operating system for a refresh over the given threads, with the given
outcome of the four `calloc` calls, in which thread `t` has the posix handle
`t + 100` and the name `main` when `t` is 1, and no thread has a queue name. -/
def sampleOS (threads : Option (List KSThread)) (machOk pOk namesOk queuesOk : Bool) :
    RefreshOS :=
  { task_threads := threads
    calloc_allMachThreads := machOk
    calloc_allPThreads := pOk
    calloc_allThreadNames := namesOk
    calloc_allQueueNames := queuesOk
    pthread_from_mach_thread_np := fun thread => thread + 100
    pthread_getname_np := fun pthread => if pthread = 101 then some "main" else none
    ksthread_getQueueName := fun _ => none }

/-- The statics after one good refresh over the threads 1 and 2. -/
def cacheOfTwo : CachedData :=
  { g_pollingIntervalInSeconds := 0
    g_allMachThreads := some [1, 2]
    g_allPThreads := some [101, 102]
    g_allThreadNames := some [some { allocation := 0, text := "main" }, none]
    g_allQueueNames := some [none, none]
    g_allThreadsCount := 2
    g_semaphoreCount := 0
    g_searchQueueNames := false
    g_hasThreadStarted := false
    quickPollCount := 4
    strdupCount := 1 }

/-- Steps inside a freeze: a worker cycle, a nested freeze, a cycle, the
unfreeze that matches the nested freeze, a call of `ksccd_setSearchQueueNames`
and a cycle. -/
def sampleFrozenSteps : List CacheStep :=
  [CacheStep.cycle (sampleOS (some [1, 2, 3]) true true true true),
   CacheStep.gate GateCall.freeze,
   CacheStep.cycle (sampleOS (some [1, 2, 3]) true true true true),
   CacheStep.gate GateCall.unfreeze,
   CacheStep.setSearchQueueNames true,
   CacheStep.cycle (sampleOS (some [1, 2, 3]) true true true true)]

/-! ## Capture of a machine context -/

/-- What the capture functions of `KSMachineContext.c` get from the operating
system and from parts of the program that are not among the sources: the
calling thread (`ksthread_self`), the result of `task_threads` (`none` when it
fails), what `kscpu_i_fillState` leaves in the thread state and in the
exception state of a thread, given what the buffer held, and whether the walk
of the machine-context stack cursor over a context ends with `hasGivenUp`. -/
structure CaptureOS where
  ksthread_self : KSThread
  task_threads : Option (List KSThread)
  kscpu_i_fillState_ss : KSThread → ThreadState64 → ThreadState64
  kscpu_i_fillState_es : KSThread → ExceptionState64 → ExceptionState64
  stackCursorGivesUp : KSMachineContext → Bool

/-- The C function `kscpu_getState` of `KSCPU_arm64.c`: fills the thread state,
then the exception state, of the thread of the context. -/
def kscpu_getState (os : CaptureOS) (context : KSMachineContext) : KSMachineContext :=
  let thread := context.thisThread
  let machineContext := context.machineContext
  let machineContext :=
    { machineContext with __ss := os.kscpu_i_fillState_ss thread machineContext.__ss }
  let machineContext :=
    { machineContext with __es := os.kscpu_i_fillState_es thread machineContext.__es }
  { context with machineContext := machineContext }

/-- The C function `isStackOverflow`: walks a machine-context stack cursor over
the context until it returns false and reports `hasGivenUp`. -/
def isStackOverflow (os : CaptureOS) (context : KSMachineContext) : Bool :=
  os.stackCursorGivesUp context

/-- The call `memset(destinationContext, 0, sizeof(*destinationContext))`: every
field zero, the arrays keeping their size. -/
def memsetZero (destinationContext : KSMachineContext) : KSMachineContext :=
  { thisThread := 0
    allThreads := List.replicate destinationContext.allThreads.length 0
    threadCount := 0
    isCrashedContext := false
    isCurrentThread := false
    isStackOverflow := false
    isSignalContext := false
    machineContext :=
      { __es := { __far := 0, __esr := 0, __exception := 0 }
        __ss :=
          { __x := List.replicate destinationContext.machineContext.__ss.__x.length 0
            __fp := 0, __lr := 0, __sp := 0, __pc := 0, __cpsr := 0 } } }

/-- The C function `ksmc_getContextForThread`. -/
def ksmc_getContextForThread (os : CaptureOS) (thread : KSThread)
    (destinationContext : KSMachineContext) (isCrashedContext : Bool) :
    Bool × KSMachineContext :=
  let destinationContext := memsetZero destinationContext
  let destinationContext := { destinationContext with thisThread := thread }
  let destinationContext :=
    { destinationContext with isCurrentThread := decide (thread = os.ksthread_self) }
  let destinationContext := { destinationContext with isCrashedContext := isCrashedContext }
  let destinationContext := { destinationContext with isSignalContext := false }
  let destinationContext :=
    if ksmc_canHaveCPUState destinationContext then kscpu_getState os destinationContext
    else destinationContext
  let destinationContext :=
    if ksmc_isCrashedContext destinationContext then
      let destinationContext :=
        { destinationContext with isStackOverflow := isStackOverflow os destinationContext }
      (getThreadList destinationContext os.task_threads).2
    else destinationContext
  (true, destinationContext)

/-- The C function `ksmc_getContextForSignal`; `sourceContext` is the register
block that the signal user context points to. -/
def ksmc_getContextForSignal (os : CaptureOS) (sourceContext : STRUCT_MCONTEXT_L)
    (destinationContext : KSMachineContext) : Bool × KSMachineContext :=
  let destinationContext := { destinationContext with machineContext := sourceContext }
  let destinationContext := { destinationContext with thisThread := os.ksthread_self }
  let destinationContext := { destinationContext with isCrashedContext := true }
  let destinationContext := { destinationContext with isSignalContext := true }
  let destinationContext :=
    { destinationContext with isStackOverflow := isStackOverflow os destinationContext }
  let destinationContext := (getThreadList destinationContext os.task_threads).2
  (true, destinationContext)

/-- An operating system for a capture on the calling thread 7, in which
`kscpu_i_fillState` sets the program counter to 4096 and the fault address to
16, and the stack walk does not give up. -/
def sampleCaptureOS (task_threads : Option (List KSThread)) : CaptureOS :=
  { ksthread_self := 7
    task_threads := task_threads
    kscpu_i_fillState_ss := fun _ state => { state with __pc := 4096 }
    kscpu_i_fillState_es := fun _ state => { state with __far := 16 }
    stackCursorGivesUp := fun _ => false }

/-- A register block with program counter 8192 and fault address 32. -/
def sampleRegisters : STRUCT_MCONTEXT_L :=
  { __es := { __far := 32, __esr := 1, __exception := 2 }
    __ss :=
      { __x := List.replicate 29 5, __fp := 1, __lr := 2, __sp := 3, __pc := 8192,
        __cpsr := 4 } }

/-! ## Further callers, accessors and the start of the worker -/

/-- A caller making `n` successive calls `cursor->advanceCursor(cursor)`
through the operation pointer: the return values and the cursor after the
last call. -/
def callAdvanceTimes : Nat → KSStackCursor → Option (List Bool × KSStackCursor)
  | 0, cursor => some ([], cursor)
  | n + 1, cursor =>
    match callAdvanceCursor cursor with
    | none => none
    | some (r, c1) =>
      match callAdvanceTimes n c1 with
      | none => none
      | some (rs, c2) => some (r :: rs, c2)

/-- The read `array[i]` through a static pointer of the cache: `none`,
undefined behaviour, when the pointer is `NULL` or the index is outside the
array. -/
def readAt {α : Type} (array : Option (List α)) (i : Nat) : Option α :=
  match array with
  | none => none
  | some entries => entries[i]?

/-- The loop of `ksccd_getThreadName` and `ksccd_getQueueName` from index `i`
with the given number of iterations left: the entry of the name table at the
first index whose machine thread is the query, `NULL` (`some none`) when the
loop ends without a match, `none` for undefined behaviour. -/
def scanNames (machThreads : Option (List KSThread)) (names : Option (List (Option HeapString)))
    (thread : KSThread) : Nat → Nat → Option (Option HeapString)
  | _, 0 => some none
  | i, remaining + 1 =>
    match readAt machThreads i with
    | none => none
    | some handle =>
      if handle = thread then readAt names i
      else scanNames machThreads names thread (i + 1) remaining

/-- The C function `ksccd_getThreadName`. -/
def ksccd_getThreadName (s : CachedData) (thread : KSThread) : Option (Option HeapString) :=
  match s.g_allThreadNames with
  | none => some none
  | some _ => scanNames s.g_allMachThreads s.g_allThreadNames thread 0 s.g_allThreadsCount.toNat

/-- The C function `ksccd_getQueueName`. -/
def ksccd_getQueueName (s : CachedData) (thread : KSThread) : Option (Option HeapString) :=
  match s.g_allQueueNames with
  | none => some none
  | some _ => scanNames s.g_allMachThreads s.g_allQueueNames thread 0 s.g_allThreadsCount.toNat

/-- The C function `ksccd_getAllThreads`: the returned pointer and the content
of `*threadCount` after the call; `threadCount` is `none` for a `NULL`
argument and else what the out-parameter held. -/
def ksccd_getAllThreads (s : CachedData) (threadCount : Option Int) :
    Option (List KSThread) × Option Int :=
  match threadCount with
  | some _ => (s.g_allMachThreads, some s.g_allThreadsCount)
  | none => (s.g_allMachThreads, none)

/-- The requests of `ksccd_init`. -/
inductive InitCall where
  | pthread_attr_init
  | pthread_attr_setdetachstate
  | pthread_create (argument : String)
  | KSLOG_ERROR (message : String)
  | pthread_attr_destroy
deriving DecidableEq

/-- The C function `ksccd_init`; `error` is what `pthread_create` returns. The
handle that `pthread_create` stores in `g_cacheThread` is not modelled, no
statement reads it. -/
def ksccd_init (s : CachedData) (pollingIntervalInSeconds : Int) (error : Int) :
    CachedData × List InitCall :=
  if s.g_hasThreadStarted = true then
    (s, [])
  else
    let s := { s with g_hasThreadStarted := true }
    let s := { s with g_pollingIntervalInSeconds := pollingIntervalInSeconds }
    (s,
      [InitCall.pthread_attr_init, InitCall.pthread_attr_setdetachstate,
        InitCall.pthread_create "KSCrash Cached Data Monitor"]
      ++ (if error ≠ 0 then [InitCall.KSLOG_ERROR "pthread_create_suspended_np"] else [])
      ++ [InitCall.pthread_attr_destroy])

/-- The number of `pthread_create` requests among the requests. -/
def countWorkers : List InitCall → Nat
  | [] => 0
  | InitCall.pthread_create _ :: rest => countWorkers rest + 1
  | _ :: rest => countWorkers rest

/-- The seconds of the `sleep` request that ends the requests of a cycle. -/
def lastSleep (calls : List CacheCall) : Option Nat :=
  match calls.getLast? with
  | some (CacheCall.sleep seconds) => some seconds
  | _ => none

/-- A run of the cache as `runCache`, recording for every cycle of the worker,
in order, the seconds of the sleep that ends it. -/
def runCacheSleeps : List CacheStep → CachedData → Option (CachedData × List Nat)
  | [], s => some (s, [])
  | CacheStep.gate call :: rest, s =>
    runCacheSleeps rest { s with g_semaphoreCount := gateStep s.g_semaphoreCount call }
  | CacheStep.setSearchQueueNames searchQueueNames :: rest, s =>
    runCacheSleeps rest (ksccd_setSearchQueueNames s searchQueueNames)
  | CacheStep.cycle os :: rest, s =>
    match monitorCachedData_cycle os s with
    | (_, none) => none
    | (_, some (s1, calls)) =>
      match lastSleep calls, runCacheSleeps rest s1 with
      | some seconds, some (s2, sleeps) => some (s2, seconds :: sleeps)
      | _, _ => none

/-- A run of seven worker cycles with a freeze around the third and fourth. -/
def sampleSevenCycles : List CacheStep :=
  [CacheStep.cycle (sampleOS (some [1, 2]) true true true true),
   CacheStep.cycle (sampleOS (some [1, 2, 3]) true true true true),
   CacheStep.gate GateCall.freeze,
   CacheStep.cycle (sampleOS (some [1, 2]) true true true true),
   CacheStep.cycle (sampleOS (some [1, 2]) true true true true),
   CacheStep.gate GateCall.unfreeze,
   CacheStep.cycle (sampleOS none true true true true),
   CacheStep.cycle (sampleOS (some [1]) true true true true),
   CacheStep.cycle (sampleOS (some [1, 2]) true true true true)]

/-- The name at index `i` of a name table: absent when the table is `NULL`,
when the entry is `NULL` and when the index is outside the table. -/
def nameAt (names : Option (List (Option HeapString))) (i : Nat) : Option HeapString :=
  match names with
  | none => none
  | some entries =>
    match entries[i]? with
    | some name => name
    | none => none

/-- The sleeps of the next `n` cycles of the worker when `quickPollCount` is
`q` and the polling interval converted to `unsigned` is `p`. -/
def expectedSleeps (p : Nat) : Int → Nat → List Nat
  | _, 0 => []
  | q, n + 1 =>
    (if q > 0 then 1 else p) :: expectedSleeps p (if q > 0 then q - 1 else q) n

/-- The published thread count is at most the length of each of the four
installed sequences. -/
def CachedData.CountWithinSequences (s : CachedData) : Prop :=
  s.g_allThreadsCount ≤ (seqLength s.g_allMachThreads : Int) ∧
  s.g_allThreadsCount ≤ (seqLength s.g_allPThreads : Int) ∧
  s.g_allThreadsCount ≤ (seqLength s.g_allThreadNames : Int) ∧
  s.g_allThreadsCount ≤ (seqLength s.g_allQueueNames : Int)

/-! ## Register enumeration, thread accessors and calls on a cursor -/

/-- The static table `g_registerNames` of `KSCPU_arm64.c`. -/
def g_registerNames : List String :=
  ["x0", "x1", "x2", "x3", "x4", "x5", "x6", "x7", "x8",
   "x9", "x10", "x11", "x12", "x13", "x14", "x15", "x16", "x17",
   "x18", "x19", "x20", "x21", "x22", "x23", "x24", "x25", "x26",
   "x27", "x28", "x29", "fp", "lr", "sp", "pc", "cpsr"]

/-- The static `g_registerNamesCount`: the number of entries of the table. -/
def g_registerNamesCount : Int := g_registerNames.length

/-- The static table `g_exceptionRegisterNames` of `KSCPU_arm64.c`. -/
def g_exceptionRegisterNames : List String := ["exception", "esr", "far"]

/-- The static `g_exceptionRegisterNamesCount`. -/
def g_exceptionRegisterNamesCount : Int := g_exceptionRegisterNames.length

/-- The C function `kscpu_numRegisters`. -/
def kscpu_numRegisters : Int := g_registerNamesCount

/-- The read `table[index]` of a C array with a signed index: `none`,
undefined behaviour, when the index is negative or past the last entry. -/
def readIndex {α : Type} (table : List α) (index : Int) : Option α :=
  if 0 ≤ index then table[index.toNat]? else none

/-- The C function `kscpu_registerName`: the name, `some none` for `NULL`, and
`none` when the table is read outside its entries. -/
def kscpu_registerName (regNumber : Int) : Option (Option String) :=
  if regNumber < kscpu_numRegisters then
    match readIndex g_registerNames regNumber with
    | some name => some (some name)
    | none => none
  else
    some none

/-- The C function `kscpu_registerValue`: `none` when `__x` is read outside
its entries. -/
def kscpu_registerValue (context : KSMachineContext) (regNumber : Int) : Option Nat :=
  if regNumber ≤ 29 then
    readIndex context.machineContext.__ss.__x regNumber
  else
    match regNumber with
    | 30 => some context.machineContext.__ss.__fp
    | 31 => some context.machineContext.__ss.__lr
    | 32 => some context.machineContext.__ss.__sp
    | 33 => some context.machineContext.__ss.__pc
    | 34 => some context.machineContext.__ss.__cpsr
    | _ => some 0

/-- The C function `kscpu_numExceptionRegisters`. -/
def kscpu_numExceptionRegisters : Int := g_exceptionRegisterNamesCount

/-- The C function `kscpu_exceptionRegisterName`: the name, `some none` for
`NULL`, and `none` when the table is read outside its entries. -/
def kscpu_exceptionRegisterName (regNumber : Int) : Option (Option String) :=
  if regNumber < kscpu_numExceptionRegisters then
    match readIndex g_exceptionRegisterNames regNumber with
    | some name => some (some name)
    | none => none
  else
    some none

/-- The C function `kscpu_exceptionRegisterValue`. -/
def kscpu_exceptionRegisterValue (context : KSMachineContext) (regNumber : Int) : Nat :=
  match regNumber with
  | 0 => context.machineContext.__es.__exception
  | 1 => context.machineContext.__es.__esr
  | 2 => context.machineContext.__es.__far
  | _ => 0

/-- A machine context whose registers all hold different values: `x0` to
`x28` hold 100 to 128 in the 29 entries of `__x`, and the frame pointer holds
201. -/
def sampleRegisterContext : KSMachineContext :=
  { thisThread := 7
    allThreads := [7, 8, 9, 0]
    threadCount := 3
    isCrashedContext := true
    isCurrentThread := false
    isStackOverflow := false
    isSignalContext := false
    machineContext :=
      { __es := { __far := 32, __esr := 1, __exception := 2 }
        __ss :=
          { __x := (List.range 29).map (fun k => 100 + k)
            __fp := 201, __lr := 202, __sp := 203, __pc := 204, __cpsr := 205 } } }

/-- The C function `ksmc_getThreadCount`. -/
def ksmc_getThreadCount (context : KSMachineContext) : Int :=
  context.threadCount

/-- The C function `ksmc_getThreadAtIndex`: `none`, undefined behaviour, when
the index is outside the array. -/
def ksmc_getThreadAtIndex (context : KSMachineContext) (index : Int) : Option KSThread :=
  readIndex context.allThreads index

/-- The loop of `ksmc_indexOfThread` from index `i` with the given number of
iterations left: the first index whose entry is the thread, -1 when the loop
ends without a match, `none` when the array is read outside its entries. -/
def indexOfThreadLoop (allThreads : List KSThread) (thread : KSThread) :
    Nat → Nat → Option Int
  | _, 0 => some (-1)
  | i, remaining + 1 =>
    match allThreads[i]? with
    | none => none
    | some entry =>
      if entry = thread then some (i : Int)
      else indexOfThreadLoop allThreads thread (i + 1) remaining

/-- The C function `ksmc_indexOfThread`. -/
def ksmc_indexOfThread (context : KSMachineContext) (thread : KSThread) : Option Int :=
  indexOfThreadLoop context.allThreads thread 0 context.threadCount.toNat

/-- A call on a cursor through one of its operation pointers. -/
inductive CursorCall where
  | resetCursor
  | advanceCursor
deriving DecidableEq

/-- The cursor after the given calls, made in order through the operation
pointers; `none` when an array read is out of bounds. -/
def runCursor : List CursorCall → KSStackCursor → Option KSStackCursor
  | [], cursor => some cursor
  | CursorCall.resetCursor :: rest, cursor => runCursor rest (callResetCursor cursor)
  | CursorCall.advanceCursor :: rest, cursor =>
    match callAdvanceCursor cursor with
    | none => none
    | some (_, c1) => runCursor rest c1

/-- The index `currentIndex` at which the static `advanceCursor` of
`KSStackCursor_Backtrace.c` reads the array in a call on the cursor: `none`
when the call reads no element. -/
def advanceCursor_currentIndex (cursor : KSStackCursor) : Option Int :=
  let context := cursor.context
  let endDepth := context.backtraceLength - context.skippedEntries
  if cursor.state.currentDepth < endDepth then
    some (cursor.state.currentDepth + context.skippedEntries)
  else
    none

/-- The number of calls that returned true among the results of a walk. -/
def countTrue (results : List (Bool × Nat)) : Nat :=
  (results.filter (fun r => r.1)).length

/-! ## Ownership of the name strings of the cache -/

/-- The strings that a name table holds: its entries that are not `NULL`, in
index order; none for a `NULL` table. -/
def namesOf (names : Option (List (Option HeapString))) : List HeapString :=
  match names with
  | none => []
  | some entries => entries.filterMap id

/-- The strings of the installed generation: those of the thread-name table,
then those of the queue-name table. -/
def CachedData.installedNames (s : CachedData) : List HeapString :=
  namesOf s.g_allThreadNames ++ namesOf s.g_allQueueNames

/-- The strings on which `free` was called, in call order. -/
def freedNames : List CacheCall → List HeapString
  | [] => []
  | CacheCall.free_name name :: rest => name :: freedNames rest
  | _ :: rest => freedNames rest

/-- A sequence of refresh cycles as `runRefreshes`, with the requests of all
the cycles in order. -/
def runRefreshesCalls : List RefreshOS → CachedData → Option (CachedData × List CacheCall)
  | [], s => some (s, [])
  | os :: rest, s =>
    match updateThreadList os s with
    | none => none
    | some (s1, calls) =>
      match runRefreshesCalls rest s1 with
      | none => none
      | some (s2, more) => some (s2, calls ++ more)

/-- The statics are consistent and the strings of the installed generation
are strings made so far by `strdup`, each held by one entry only. -/
def CachedData.OwnsNames (s : CachedData) : Prop :=
  s.Consistent ∧
  (∀ name ∈ s.installedNames, name.allocation < s.strdupCount) ∧
  (s.installedNames.map HeapString.allocation).Nodup

/-- An operating system for a refresh over the given threads whose allocations
succeed, in which thread `t` has the posix handle `t + 100`, every thread has
the name `worker` and thread 1 has the queue name `main-queue`. -/
def namedOS (threads : List KSThread) : RefreshOS :=
  { task_threads := some threads
    calloc_allMachThreads := true
    calloc_allPThreads := true
    calloc_allThreadNames := true
    calloc_allQueueNames := true
    pthread_from_mach_thread_np := fun thread => thread + 100
    pthread_getname_np := fun _ => some "worker"
    ksthread_getQueueName := fun thread => if thread = 1 then some "main-queue" else none }

/-! ## Lemmas on the stack cursor -/

theorem kscpu_normaliseInstructionPointer_eq_mod (ip : Nat) :
    kscpu_normaliseInstructionPointer ip = ip % 2 ^ 36 := by
  have h : KSPACStrippingMask_ARM64e = 2 ^ 36 - 1 := by decide
  unfold kscpu_normaliseInstructionPointer
  rw [h]
  exact Nat.and_pow_two_sub_one_eq_mod ip 36

theorem kscpu_normaliseInstructionPointer_of_lt (ip : Nat) (h : ip < 2 ^ 36) :
    kscpu_normaliseInstructionPointer ip = ip := by
  rw [kscpu_normaliseInstructionPointer_eq_mod]
  exact Nat.mod_eq_of_lt h

/-- What a backtrace cursor is after `kssc_initWithBacktrace`, whatever the
memory held before. -/
theorem kssc_initWithBacktrace_eq (prior : KSStackCursor) (backtrace : List Nat)
    (backtraceLength skipEntries : Int) :
    kssc_initWithBacktrace prior backtrace backtraceLength skipEntries =
      { stackEntry :=
          { address := 0, imageName := none, imageAddress := 0,
            symbolName := none, symbolAddress := 0 }
        state := { currentDepth := 0, hasGivenUp := false }
        resetCursor := ResetFn.kssc_resetCursor
        advanceCursor := AdvanceFn.backtrace_advanceCursor
        symbolicate := SymbolicateFn.kssymbolicator_symbolicate
        context :=
          { skippedEntries := skipEntries, backtraceLength := backtraceLength,
            backtrace := backtrace } } := by
  rfl

/-- One `advanceCursor` call changes neither the payload nor the operation
pointers, nor any part of the frame other than the address. -/
theorem advanceCursor_frame (cursor c1 : KSStackCursor) (r : Bool)
    (h : advanceCursor cursor = some (r, c1)) :
    c1.context = cursor.context ∧ c1.resetCursor = cursor.resetCursor ∧
    c1.advanceCursor = cursor.advanceCursor ∧ c1.symbolicate = cursor.symbolicate ∧
    c1.state.hasGivenUp = cursor.state.hasGivenUp ∧
    c1.stackEntry.imageName = cursor.stackEntry.imageName ∧
    c1.stackEntry.imageAddress = cursor.stackEntry.imageAddress ∧
    c1.stackEntry.symbolName = cursor.stackEntry.symbolName ∧
    c1.stackEntry.symbolAddress = cursor.stackEntry.symbolAddress := by
  unfold advanceCursor at h
  simp only at h
  split at h
  · split at h
    · exact absurd h (by simp)
    · split at h
      · simp only [Option.some.injEq, Prod.mk.injEq] at h
        obtain ⟨-, rfl⟩ := h
        simp
      · simp only [Option.some.injEq, Prod.mk.injEq] at h
        obtain ⟨-, rfl⟩ := h
        simp
  · simp only [Option.some.injEq, Prod.mk.injEq] at h
    obtain ⟨-, rfl⟩ := h
    simp

/-- Any number of `advanceCursor` calls changes neither the payload nor the
operation pointers. -/
theorem advanceTimes_frame (n : Nat) :
    ∀ (cursor c2 : KSStackCursor) (rs : List (Bool × Nat)),
      advanceTimes n cursor = some (rs, c2) →
      c2.context = cursor.context ∧ c2.resetCursor = cursor.resetCursor ∧
      c2.advanceCursor = cursor.advanceCursor ∧ c2.symbolicate = cursor.symbolicate := by
  induction n with
  | zero =>
    intro cursor c2 rs h
    simp only [advanceTimes, Option.some.injEq, Prod.mk.injEq] at h
    obtain ⟨-, rfl⟩ := h
    simp
  | succ n ih =>
    intro cursor c2 rs h
    unfold advanceTimes at h
    cases h1 : advanceCursor cursor with
    | none => simp [h1] at h
    | some p =>
      obtain ⟨r, c1⟩ := p
      simp only [h1] at h
      cases h2 : advanceTimes n c1 with
      | none => simp [h2] at h
      | some q =>
        obtain ⟨rs1, c3⟩ := q
        simp only [h2, Option.some.injEq, Prod.mk.injEq] at h
        obtain ⟨-, rfl⟩ := h
        have f1 := advanceCursor_frame cursor c1 r h1
        have f2 := ih c1 c3 rs1 h2
        exact ⟨f2.1.trans f1.1, f2.2.1.trans f1.2.1, f2.2.2.1.trans f1.2.2.1,
          f2.2.2.2.trans f1.2.2.2.1⟩

/-- Resetting any cursor reached from a fresh backtrace cursor gives the fresh
cursor back. -/
theorem kssc_resetCursor_of_reached (prior : KSStackCursor) (backtrace : List Nat)
    (backtraceLength skipEntries : Int) (n : Nat) (rs : List (Bool × Nat))
    (cursor : KSStackCursor)
    (h : advanceTimes n (kssc_initWithBacktrace prior backtrace backtraceLength skipEntries)
      = some (rs, cursor)) :
    kssc_resetCursor cursor
      = kssc_initWithBacktrace prior backtrace backtraceLength skipEntries := by
  have f := advanceTimes_frame n _ cursor rs h
  rw [kssc_initWithBacktrace_eq] at f ⊢
  obtain ⟨f1, -, f3, -⟩ := f
  obtain ⟨se, st, r, a, sy, ctx⟩ := cursor
  cases r
  cases sy
  simp only at f1 f3
  subst f1 f3
  rfl

/-- With a non-negative skip count and an array of at least `backtraceLength`
entries, a walk from a non-negative depth ends: the fuel
`backtraceLength - skippedEntries - currentDepth + 1` suffices. -/
theorem advanceUntilFalse_terminates (fuel : Nat) :
    ∀ cursor : KSStackCursor,
      0 ≤ cursor.context.skippedEntries →
      cursor.context.backtraceLength ≤ cursor.context.backtrace.length →
      0 ≤ cursor.state.currentDepth →
      (cursor.context.backtraceLength - cursor.context.skippedEntries
        - cursor.state.currentDepth).toNat < fuel →
      ∃ trace, advanceUntilFalse fuel cursor = some trace := by
  induction fuel with
  | zero => intro cursor _ _ _ h; omega
  | succ fuel ih =>
    intro cursor hs hl hd hf
    unfold advanceUntilFalse
    cases h1 : advanceCursor cursor with
    | none =>
      exfalso
      unfold advanceCursor at h1
      simp only at h1
      split at h1
      · rename_i hlt
        split at h1
        · rename_i hread
          unfold readBacktrace at hread
          rw [if_pos (by omega)] at hread
          rw [List.getElem?_eq_none_iff] at hread
          omega
        · split at h1 <;> simp at h1
      · simp at h1
    | some p =>
      obtain ⟨r, c1⟩ := p
      cases r with
      | false => exact ⟨_, rfl⟩
      | true =>
        have fr := advanceCursor_frame cursor c1 true h1
        have hdepth : c1.state.currentDepth = cursor.state.currentDepth + 1 := by
          unfold advanceCursor at h1
          simp only at h1
          split at h1
          · split at h1
            · simp at h1
            · split at h1
              · simp only [Option.some.injEq, Prod.mk.injEq, true_and] at h1
                rw [← h1]
              · simp at h1
          · simp at h1
        have hlt : cursor.state.currentDepth
            < cursor.context.backtraceLength - cursor.context.skippedEntries := by
          unfold advanceCursor at h1
          simp only at h1
          split at h1
          · assumption
          · simp at h1
        obtain ⟨trace, ht⟩ := ih c1 (by rw [fr.1]; exact hs) (by rw [fr.1]; exact hl)
          (by omega) (by rw [fr.1, hdepth]; omega)
        refine ⟨(true, c1.stackEntry.address) :: trace, ?_⟩
        simp only [ht]

/-! ## Claims on the backtrace cursor -/

/-- C1 (counterexample): the array `[2, 2^36 + 2, 3, 4]` holds four addresses
greater than 1, yet the first `advanceCursor` call leaves the address 2, not
the entry `2^36 + 2`: the sequence yielded is not `B, C, D`. -/
theorem C1_counterexample :
    (1 < 2 ∧ 1 < 68719476738 ∧ 1 < 3 ∧ 1 < 4) ∧
    (advanceTimes 4 (kssc_initWithBacktrace staleCursor [2, 68719476738, 3, 4] 4 1)).map Prod.fst
      = some [(true, 2), (true, 3), (true, 4), (false, 4)] ∧
    ¬ YieldsExactly (kssc_initWithBacktrace staleCursor [2, 68719476738, 3, 4] 4 1)
        68719476738 3 4 := by
  have hrun : (advanceTimes 4
      (kssc_initWithBacktrace staleCursor [2, 68719476738, 3, 4] 4 1)).map Prod.fst
      = some [(true, 2), (true, 3), (true, 4), (false, 4)] := by decide
  refine ⟨by decide, hrun, ?_⟩
  rintro ⟨a, final, h⟩
  rw [h] at hrun
  simp at hrun

/-- C1 (amended): for every array `[A, B, C, D]` with `B`, `C`, `D` greater
than 1, a backtrace cursor built with length 4 and skip 1 yields the normalised
entries: three `advanceCursor` calls return true and leave the address equal to
`B`, `C`, `D` with the bits above bit 35 cleared, and the fourth call returns
false; the sequence is exactly `B, C, D` when the three addresses are below
`2^36`. -/
theorem C1_backtrace_yields_normalised (prior : KSStackCursor) (A B C D : Nat)
    (hB : 1 < B) (hC : 1 < C) (hD : 1 < D) :
    YieldsExactly (kssc_initWithBacktrace prior [A, B, C, D] 4 1)
      (kscpu_normaliseInstructionPointer B) (kscpu_normaliseInstructionPointer C)
      (kscpu_normaliseInstructionPointer D) ∧
    kscpu_normaliseInstructionPointer B = B % 2 ^ 36 ∧
    kscpu_normaliseInstructionPointer C = C % 2 ^ 36 ∧
    kscpu_normaliseInstructionPointer D = D % 2 ^ 36 ∧
    (B < 2 ^ 36 → C < 2 ^ 36 → D < 2 ^ 36 →
      YieldsExactly (kssc_initWithBacktrace prior [A, B, C, D] 4 1) B C D) := by
  have key : YieldsExactly (kssc_initWithBacktrace prior [A, B, C, D] 4 1)
      (kscpu_normaliseInstructionPointer B) (kscpu_normaliseInstructionPointer C)
      (kscpu_normaliseInstructionPointer D) := by
    rw [kssc_initWithBacktrace_eq]
    refine ⟨kscpu_normaliseInstructionPointer D, ?_⟩
    simp [advanceTimes, advanceCursor, readBacktrace, hB, hC, hD]
  refine ⟨key, kscpu_normaliseInstructionPointer_eq_mod B,
    kscpu_normaliseInstructionPointer_eq_mod C, kscpu_normaliseInstructionPointer_eq_mod D, ?_⟩
  intro hB36 hC36 hD36
  rw [kscpu_normaliseInstructionPointer_of_lt B hB36,
    kscpu_normaliseInstructionPointer_of_lt C hC36,
    kscpu_normaliseInstructionPointer_of_lt D hD36] at key
  exact key

/-- C1 (witness): the array `[10, 20, 30, 40]` yields 20, 30, 40. -/
theorem C1_backtrace_yields_normalised_witness :
    (1 < 20 ∧ 1 < 30 ∧ 1 < 40) ∧
    YieldsExactly (kssc_initWithBacktrace staleCursor [10, 20, 30, 40] 4 1) 20 30 40 :=
  ⟨by decide,
    (C1_backtrace_yields_normalised staleCursor 10 20 30 40
      (by decide) (by decide) (by decide)).2.2.2.2
      (by norm_num) (by norm_num) (by norm_num)⟩

/-- C2: when the array holds 0 or 1 at index `currentDepth + skippedEntries`,
`advanceCursor` returns false and leaves the cursor, hence `currentDepth` and
`stackEntry.address`, unchanged; every later call returns false as well,
whatever the later array entries are. -/
theorem C2_sentinel_stops (cursor : KSStackCursor) (v : Nat)
    (hread : readBacktrace cursor.context.backtrace
      (cursor.state.currentDepth + cursor.context.skippedEntries) = some v)
    (hv : v = 0 ∨ v = 1) :
    advanceCursor cursor = some (false, cursor) ∧
    ∀ n, advanceTimes n cursor
      = some (List.replicate n (false, cursor.stackEntry.address), cursor) := by
  have h1 : advanceCursor cursor = some (false, cursor) := by
    unfold advanceCursor
    simp only [hread]
    rcases hv with rfl | rfl <;> simp
  refine ⟨h1, ?_⟩
  intro n
  induction n with
  | zero => rfl
  | succ n ih =>
    unfold advanceTimes
    simp only [h1, ih, List.replicate_succ]

/-- C2 (witness): the cursor over `[1, 7, 9]` at depth 0 stops at the sentinel. -/
theorem C2_sentinel_stops_witness :
    (readBacktrace sentinelCursor.context.backtrace
      (sentinelCursor.state.currentDepth + sentinelCursor.context.skippedEntries) = some 1 ∧
      ((1 : Nat) = 0 ∨ (1 : Nat) = 1)) ∧
    advanceCursor sentinelCursor = some (false, sentinelCursor) ∧
    ∀ n, advanceTimes n sentinelCursor
      = some (List.replicate n (false, sentinelCursor.stackEntry.address), sentinelCursor) :=
  ⟨⟨by decide, by decide⟩, C2_sentinel_stops sentinelCursor 1 (by decide) (by decide)⟩

/-- C3 (counterexample): over the array `[2^36]` the call returns true and
leaves the address 0, which is not greater than 1. -/
theorem C3_counterexample :
    ∃ c1, advanceCursor (kssc_initWithBacktrace staleCursor [68719476736] 1 0) = some (true, c1) ∧
      c1.stackEntry.address = 0 ∧ ¬ (1 < c1.stackEntry.address) :=
  ⟨{ kssc_initWithBacktrace staleCursor [68719476736] 1 0 with
      state := { currentDepth := 1, hasGivenUp := false } },
    by decide, by decide, by decide⟩

/-- C3 (amended): whenever `advanceCursor` returns true, the array entry it
read, at index `currentDepth + skippedEntries`, is greater than 1 and the
resulting `stackEntry.address` is that entry with the bits above bit 35
cleared; the address is greater than 1 whenever the entry is below `2^36`. -/
theorem C3_advance_true_reads_valid (cursor c1 : KSStackCursor)
    (h : advanceCursor cursor = some (true, c1)) :
    ∃ nextAddress,
      readBacktrace cursor.context.backtrace
        (cursor.state.currentDepth + cursor.context.skippedEntries) = some nextAddress ∧
      1 < nextAddress ∧
      c1.stackEntry.address = nextAddress % 2 ^ 36 ∧
      (nextAddress < 2 ^ 36 → 1 < c1.stackEntry.address) := by
  unfold advanceCursor at h
  simp only at h
  split at h
  · split at h
    · simp at h
    · rename_i nextAddress hread
      split at h
      · rename_i hgt
        simp only [Option.some.injEq, Prod.mk.injEq, true_and] at h
        subst h
        refine ⟨nextAddress, hread, hgt, kscpu_normaliseInstructionPointer_eq_mod _, ?_⟩
        intro hlt
        simp only [kscpu_normaliseInstructionPointer_of_lt nextAddress hlt]
        exact hgt
      · simp at h
  · simp at h

/-- C3 (witness): the third call on the cursor over `[10, 20, 30, 40]` reads 40. -/
theorem C3_advance_true_reads_valid_witness :
    advanceCursor midWalkCursor
      = some (true, { midWalkCursor with
          stackEntry := { midWalkCursor.stackEntry with address := 40 }
          state := { currentDepth := 3, hasGivenUp := false } }) ∧
    ∃ nextAddress,
      readBacktrace midWalkCursor.context.backtrace
        (midWalkCursor.state.currentDepth + midWalkCursor.context.skippedEntries)
          = some nextAddress ∧
      1 < nextAddress ∧
      (40 : Nat) = nextAddress % 2 ^ 36 ∧
      (nextAddress < 2 ^ 36 → 1 < (40 : Nat)) :=
  ⟨by decide,
    C3_advance_true_reads_valid midWalkCursor
      { midWalkCursor with
        stackEntry := { midWalkCursor.stackEntry with address := 40 }
        state := { currentDepth := 3, hasGivenUp := false } }
      (by decide)⟩

/-- C4: for a backtrace cursor in a state reached from the freshly initialised
cursor by any number of `advanceCursor` calls, the reset gives back the cursor
that `kssc_initWithBacktrace` builds in any memory over the same array, length
and skip count, so advancing until false after the reset yields the same
return values and addresses as on a freshly initialised cursor; with a
non-negative skip count and an array of at least `backtraceLength` entries
both walks end. -/
theorem C4_reset_replays (prior other : KSStackCursor) (backtrace : List Nat)
    (backtraceLength skipEntries : Int) (n : Nat) (rs : List (Bool × Nat))
    (cursor : KSStackCursor)
    (hreach : advanceTimes n
      (kssc_initWithBacktrace prior backtrace backtraceLength skipEntries) = some (rs, cursor)) :
    callResetCursor cursor
      = kssc_initWithBacktrace other backtrace backtraceLength skipEntries ∧
    (∀ fuel, advanceUntilFalse fuel (callResetCursor cursor)
      = advanceUntilFalse fuel
          (kssc_initWithBacktrace other backtrace backtraceLength skipEntries)) ∧
    (0 ≤ skipEntries → backtraceLength ≤ backtrace.length →
      ∃ trace,
        advanceUntilFalse ((backtraceLength - skipEntries).toNat + 1) (callResetCursor cursor)
          = some trace ∧
        advanceUntilFalse ((backtraceLength - skipEntries).toNat + 1)
          (kssc_initWithBacktrace other backtrace backtraceLength skipEntries) = some trace) := by
  have hreset : callResetCursor cursor
      = kssc_initWithBacktrace other backtrace backtraceLength skipEntries := by
    have h := kssc_resetCursor_of_reached prior backtrace backtraceLength skipEntries n rs
      cursor hreach
    unfold callResetCursor
    split
    rw [h, kssc_initWithBacktrace_eq, kssc_initWithBacktrace_eq]
  refine ⟨hreset, fun fuel => by rw [hreset], ?_⟩
  intro hs hl
  rw [hreset]
  obtain ⟨trace, ht⟩ := advanceUntilFalse_terminates ((backtraceLength - skipEntries).toNat + 1)
    (kssc_initWithBacktrace other backtrace backtraceLength skipEntries)
    (by rw [kssc_initWithBacktrace_eq]; exact hs)
    (by rw [kssc_initWithBacktrace_eq]; exact hl)
    (by rw [kssc_initWithBacktrace_eq])
    (by rw [kssc_initWithBacktrace_eq]; simp)
  exact ⟨trace, ht, ht⟩

/-- C4 (witness): after two calls over `[10, 20, 30, 40]`, a reset gives the
fresh cursor back and both walks end with the same trace. -/
theorem C4_reset_replays_witness :
    advanceTimes 2 (kssc_initWithBacktrace staleCursor [10, 20, 30, 40] 4 1)
      = some ([(true, 20), (true, 30)], midWalkCursor) ∧
    callResetCursor midWalkCursor
      = kssc_initWithBacktrace sentinelCursor [10, 20, 30, 40] 4 1 ∧
    advanceUntilFalse 4 (callResetCursor midWalkCursor)
      = some [(true, 20), (true, 30), (true, 40), (false, 40)] ∧
    (∀ fuel, advanceUntilFalse fuel (callResetCursor midWalkCursor)
      = advanceUntilFalse fuel (kssc_initWithBacktrace sentinelCursor [10, 20, 30, 40] 4 1)) ∧
    ((0 : Int) ≤ 1 ∧ (4 : Int) ≤ ([10, 20, 30, 40] : List Nat).length) ∧
    (∃ trace,
      advanceUntilFalse (((4 : Int) - 1).toNat + 1) (callResetCursor midWalkCursor)
        = some trace ∧
      advanceUntilFalse (((4 : Int) - 1).toNat + 1)
        (kssc_initWithBacktrace sentinelCursor [10, 20, 30, 40] 4 1) = some trace) :=
  have h := C4_reset_replays staleCursor sentinelCursor [10, 20, 30, 40] 4 1 2
    [(true, 20), (true, 30)] midWalkCursor (by decide)
  ⟨by decide, h.1, by decide, h.2.1, ⟨by decide, by decide⟩, h.2.2 (by decide) (by decide)⟩

/-! ## Lemmas on the machine context -/

theorem take_succ_set {α : Type} (l : List α) :
    ∀ (k : Nat) (x : α), k < l.length → (l.set k x).take (k + 1) = l.take k ++ [x] := by
  induction l with
  | nil => intro k x h; simp at h
  | cons a l ih =>
    intro k x h
    cases k with
    | zero => simp
    | succ k =>
      simp only [List.length_cons, Nat.add_lt_add_iff_right] at h
      simp [ih k x h]

theorem take_take_append {α : Type} (l r : List α) :
    ∀ n : Nat, (l.take n ++ r).take n = (l ++ r).take n := by
  induction l with
  | nil => intro n; simp
  | cons a l ih =>
    intro n
    cases n with
    | zero => simp
    | succ n => simp [ih n]

theorem ksmc_addReservedThread_stored (g : ReservedThreads) (thread : KSThread)
    (h : g.InRange) :
    (ksmc_addReservedThread g thread).InRange ∧
    (ksmc_addReservedThread g thread).stored = (g.stored ++ [thread]).take 10 := by
  obtain ⟨arr, cnt⟩ := g
  obtain ⟨hlen, h0, h10⟩ := h
  simp only at hlen h0 h10
  obtain ⟨k, rfl⟩ := Int.eq_ofNat_of_zero_le h0
  have hk : k ≤ 10 := by omega
  unfold ksmc_addReservedThread g_reservedThreadsMaxIndex ReservedThreads.stored
    ReservedThreads.InRange
  simp only [Int.toNat_ofNat]
  by_cases hfull : (k : Int) > 10 - 1
  · rw [if_pos hfull]
    have hk10 : k = 10 := by omega
    subst hk10
    refine ⟨⟨hlen, by simp, by simp⟩, ?_⟩
    simp only [Int.toNat_ofNat]
    rw [List.take_append_of_le_length (by simp [hlen])]
    simp
  · rw [if_neg hfull]
    have hk9 : k < 10 := by omega
    have e : ((k : Int) + 1).toNat = k + 1 := by omega
    refine ⟨⟨?_, ?_, ?_⟩, ?_⟩
    · simp [hlen]
    · show (0 : Int) ≤ (k : Int) + 1
      omega
    · show (k : Int) + 1 ≤ 10
      omega
    · show (arr.set k thread).take ((k : Int) + 1).toNat = (arr.take k ++ [thread]).take 10
      rw [e, take_succ_set arr k thread (by omega)]
      symm
      apply List.take_of_length_le
      simp only [List.length_append, List.length_take, List.length_singleton]
      omega

theorem foldl_ksmc_addReservedThread_stored (added : List KSThread) :
    ∀ g : ReservedThreads, g.InRange →
      (added.foldl ksmc_addReservedThread g).InRange ∧
      (added.foldl ksmc_addReservedThread g).stored = (g.stored ++ added).take 10 := by
  induction added with
  | nil =>
    intro g h
    refine ⟨h, ?_⟩
    simp only [List.foldl_nil, List.append_nil]
    unfold ReservedThreads.stored
    rw [List.take_take]
    congr 1
    have := h.2.2
    omega
  | cons t rest ih =>
    intro g h
    have h1 := ksmc_addReservedThread_stored g t h
    have h2 := ih (ksmc_addReservedThread g t) h1.1
    refine ⟨h2.1, ?_⟩
    simp only [List.foldl_cons]
    rw [h2.2, h1.2, take_take_append]
    simp

/-- The reserved set after any sequence of `ksmc_addReservedThread` calls is in
range and holds the first ten handles added, in call order. -/
theorem reservedAfter_stored (added : List KSThread) :
    (reservedAfter added).InRange ∧ (reservedAfter added).stored = added.take 10 := by
  have h := foldl_ksmc_addReservedThread_stored added ReservedThreads.initial
    ⟨by decide, by decide, by decide⟩
  refine ⟨h.1, ?_⟩
  unfold reservedAfter
  rw [h.2]
  rfl

/-- The suspend requests are the enumerated threads that pass the test, in
enumeration order, whatever the outcome of each request. -/
theorem suspendRequests_suspendLoop (thisThread : KSThread) (g : ReservedThreads)
    (thread_suspend : KSThread → Bool) (threads : List KSThread) :
    suspendRequests (suspendLoop thisThread g thread_suspend threads)
      = threads.filter (fun thread => decide (thread ≠ thisThread) &&
          !isThreadInList thread g.g_reservedThreads g.g_reservedThreadsCount) := by
  induction threads with
  | nil => rfl
  | cons t rest ih =>
    unfold suspendLoop
    by_cases h : t ≠ thisThread ∧
        ¬ isThreadInList t g.g_reservedThreads g.g_reservedThreadsCount
    · rw [if_pos h]
      have hf : (decide (t ≠ thisThread) &&
          !isThreadInList t g.g_reservedThreads g.g_reservedThreadsCount) = true := by
        simp [h.1, h.2]
      rw [List.filter_cons, if_pos hf]
      cases thread_suspend t <;> simp [suspendRequests, ih]
    · rw [if_neg h]
      have hf : ¬ (decide (t ≠ thisThread) &&
          !isThreadInList t g.g_reservedThreads g.g_reservedThreadsCount) = true := by
        simpa using h
      rw [List.filter_cons, if_neg hf]
      exact ih

/-- The resume requests are the listed threads that pass the test, in list
order, whatever the outcome of each request. -/
theorem resumeRequests_resumeLoop (thisThread : KSThread) (g : ReservedThreads)
    (thread_resume : KSThread → Bool) (threads : List KSThread) :
    resumeRequests (resumeLoop thisThread g thread_resume threads)
      = threads.filter (fun thread => decide (thread ≠ thisThread) &&
          !isThreadInList thread g.g_reservedThreads g.g_reservedThreadsCount) := by
  induction threads with
  | nil => rfl
  | cons t rest ih =>
    unfold resumeLoop
    by_cases h : t ≠ thisThread ∧
        ¬ isThreadInList t g.g_reservedThreads g.g_reservedThreadsCount
    · rw [if_pos h]
      have hf : (decide (t ≠ thisThread) &&
          !isThreadInList t g.g_reservedThreads g.g_reservedThreadsCount) = true := by
        simp [h.1, h.2]
      rw [List.filter_cons, if_pos hf]
      cases thread_resume t <;> simp [resumeRequests, ih]
    · rw [if_neg h]
      have hf : ¬ (decide (t ≠ thisThread) &&
          !isThreadInList t g.g_reservedThreads g.g_reservedThreadsCount) = true := by
        simpa using h
      rw [List.filter_cons, if_neg hf]
      exact ih

theorem resumeRequests_append (xs ys : List OSCall) :
    resumeRequests (xs ++ ys) = resumeRequests xs ++ resumeRequests ys := by
  induction xs with
  | nil => rfl
  | cons x xs ih => cases x <;> simp [resumeRequests, ih]

theorem resumeRequests_map_deallocate (threads : List KSThread) :
    resumeRequests (threads.map OSCall.mach_port_deallocate) = [] := by
  induction threads with
  | nil => rfl
  | cons t rest ih => simp [resumeRequests, ih]

/-- The resume requests of `ksmc_resumeEnvironment` on a thread list. -/
theorem resumeRequests_ksmc_resumeEnvironment (thisThread : KSThread) (g : ReservedThreads)
    (thread_resume : KSThread → Bool) (threads : List KSThread) :
    resumeRequests (ksmc_resumeEnvironment (some threads) thisThread g thread_resume)
      = threads.filter (fun thread => decide (thread ≠ thisThread) &&
          !isThreadInList thread g.g_reservedThreads g.g_reservedThreadsCount) := by
  cases threads with
  | nil => rfl
  | cons t rest =>
    unfold ksmc_resumeEnvironment
    simp only
    rw [resumeRequests_append, resumeRequests_append, resumeRequests_resumeLoop,
      resumeRequests_map_deallocate]
    simp [resumeRequests]

/-! ## Claims on suspend and resume -/

/-- C6 (counterexample): threads 2 and 3 are suspended from calling thread 1;
thread 3 is then added to the reserved set; the resume of the same list
requests `thread_resume` on thread 2 only, so thread 3 stays suspended. -/
theorem C6_counterexample :
    suspendedThreads (ksmc_suspendEnvironment (some [1, 2, 3]) 1 (reservedAfter [])
      (fun _ => true)).2 (fun _ => true) = [2, 3] ∧
    resumeRequests (ksmc_resumeEnvironment
      (ksmc_suspendEnvironment (some [1, 2, 3]) 1 (reservedAfter []) (fun _ => true)).1
      1 (ksmc_addReservedThread (reservedAfter []) 3) (fun _ => true)) = [2] ∧
    (3 : KSThread) ∈ suspendedThreads (ksmc_suspendEnvironment (some [1, 2, 3]) 1
      (reservedAfter []) (fun _ => true)).2 (fun _ => true) ∧
    (3 : KSThread) ∉ resumeRequests (ksmc_resumeEnvironment
      (ksmc_suspendEnvironment (some [1, 2, 3]) 1 (reservedAfter []) (fun _ => true)).1
      1 (ksmc_addReservedThread (reservedAfter []) 3) (fun _ => true)) := by
  decide

/-- C6 (amended): when the calling thread and the reserved set are the same at
both calls, `ksmc_resumeEnvironment` on the thread list produced by a
`ksmc_suspendEnvironment` call requests `thread_resume` on exactly the threads
on which that call requested `thread_suspend`, in the same order; these are
the threads it suspended when every suspend request succeeded. -/
theorem C6_resume_matches_suspend_requests (threads : List KSThread) (thisThread : KSThread)
    (added : List KSThread) (thread_suspend thread_resume : KSThread → Bool) :
    resumeRequests (ksmc_resumeEnvironment
        (ksmc_suspendEnvironment (some threads) thisThread (reservedAfter added)
          thread_suspend).1
        thisThread (reservedAfter added) thread_resume)
      = suspendRequests (ksmc_suspendEnvironment (some threads) thisThread
          (reservedAfter added) thread_suspend).2 ∧
    ((∀ thread, thread ∈ threads → thread_suspend thread = true) →
      resumeRequests (ksmc_resumeEnvironment
          (ksmc_suspendEnvironment (some threads) thisThread (reservedAfter added)
            thread_suspend).1
          thisThread (reservedAfter added) thread_resume)
        = suspendedThreads (ksmc_suspendEnvironment (some threads) thisThread
            (reservedAfter added) thread_suspend).2 thread_suspend) := by
  have h1 : resumeRequests (ksmc_resumeEnvironment
        (ksmc_suspendEnvironment (some threads) thisThread (reservedAfter added)
          thread_suspend).1
        thisThread (reservedAfter added) thread_resume)
      = suspendRequests (ksmc_suspendEnvironment (some threads) thisThread
          (reservedAfter added) thread_suspend).2 := by
    unfold ksmc_suspendEnvironment
    simp only [resumeRequests_ksmc_resumeEnvironment, suspendRequests_suspendLoop]
  refine ⟨h1, ?_⟩
  intro hall
  rw [h1]
  unfold suspendedThreads
  symm
  rw [List.filter_eq_self]
  intro thread hmem
  unfold ksmc_suspendEnvironment at hmem
  simp only [suspendRequests_suspendLoop] at hmem
  exact hall thread (List.mem_filter.mp hmem).1

/-- C6 (witness): with reserved handles 4 and 9 and calling thread 2 at both
calls, the list 1..5 gets resume requests on 1, 3 and 5, the threads that
were suspended. -/
theorem C6_resume_matches_suspend_requests_witness :
    (∀ thread, thread ∈ [1, 2, 3, 4, 5] → (fun _ : KSThread => true) thread = true) ∧
    resumeRequests (ksmc_resumeEnvironment
        (ksmc_suspendEnvironment (some [1, 2, 3, 4, 5]) 2 (reservedAfter [4, 9])
          (fun _ => true)).1
        2 (reservedAfter [4, 9]) (fun thread => thread != 5)) = [1, 3, 5] ∧
    resumeRequests (ksmc_resumeEnvironment
        (ksmc_suspendEnvironment (some [1, 2, 3, 4, 5]) 2 (reservedAfter [4, 9])
          (fun _ => true)).1
        2 (reservedAfter [4, 9]) (fun thread => thread != 5))
      = suspendedThreads (ksmc_suspendEnvironment (some [1, 2, 3, 4, 5]) 2
          (reservedAfter [4, 9]) (fun _ => true)).2 (fun _ => true) :=
  ⟨fun _ _ => rfl, by decide,
    (C6_resume_matches_suspend_requests [1, 2, 3, 4, 5] 2 [4, 9] (fun _ => true)
      (fun thread => thread != 5)).2 (fun _ _ => rfl)⟩

/-! ## Lemmas and claims on the thread list of a context -/

theorem copyThreads_length (threads : List KSThread) (allThreads : List KSThread) :
    ∀ threadCount : Nat,
      (copyThreads threads threadCount allThreads).length = allThreads.length := by
  intro threadCount
  induction threadCount with
  | zero => rfl
  | succ k ih =>
    unfold copyThreads at ih ⊢
    rw [List.range_succ, List.foldl_append]
    simp only [List.foldl_cons, List.foldl_nil]
    split
    · rw [List.length_set, ih]
    · exact ih

/-- The copy loop writes `threads[i]` to every slot `i < threadCount` of the
array and leaves the other slots as they were. -/
theorem copyThreads_getElem? (threads : List KSThread) (allThreads : List KSThread) :
    ∀ threadCount : Nat, threadCount ≤ threads.length →
      ∀ i : Nat, (copyThreads threads threadCount allThreads)[i]?
        = if i < threadCount ∧ i < allThreads.length then threads[i]? else allThreads[i]? := by
  intro threadCount
  induction threadCount with
  | zero => intro _ i; simp [copyThreads]
  | succ k ih =>
    intro hk i
    have hlen := copyThreads_length threads allThreads k
    have ih1 := ih (by omega) i
    unfold copyThreads at ih1 hlen ⊢
    rw [List.range_succ, List.foldl_append]
    simp only [List.foldl_cons, List.foldl_nil]
    have hget : threads[k]? = some threads[k] := List.getElem?_eq_getElem (by omega)
    rw [hget]
    simp only
    rw [List.getElem?_set, hlen, ih1]
    by_cases hik : k = i
    · subst hik
      by_cases hl : k < allThreads.length
      · simp [hl, hget]
      · simp [hl]
        omega
    · simp only [hik, if_false]
      by_cases h1 : i < k
      · have h2 : i < k + 1 := by omega
        simp [h1, h2]
      · have h2 : ¬ i < k + 1 := by omega
        simp [h1, h2]

/-- C7: when the enumeration is longer than the capacity of `allThreads` and
contains `thisThread`, `getThreadList` succeeds, sets `threadCount` to the
capacity and `thisThread` is at an index below `threadCount` of `allThreads`. -/
theorem C7_overflow_keeps_thisThread (context : KSMachineContext) (threads : List KSThread)
    (hcap : 0 < context.allThreads.length)
    (hover : context.allThreads.length < threads.length)
    (hmem : context.thisThread ∈ threads) :
    (getThreadList context (some threads)).1 = true ∧
    (getThreadList context (some threads)).2.threadCount = context.allThreads.length ∧
    (getThreadList context (some threads)).2.thisThread = context.thisThread ∧
    ∃ i : Nat, (i : Int) < (getThreadList context (some threads)).2.threadCount ∧
      (getThreadList context (some threads)).2.allThreads[i]? = some context.thisThread := by
  unfold getThreadList
  simp only [gt_iff_lt, hover, if_true, true_and]
  cases hfind : (threads.drop context.allThreads.length).find?
      (fun thread => thread == context.thisThread) with
  | some t =>
    have ht : t = context.thisThread := by
      have := List.find?_some hfind
      simpa using this
    subst ht
    refine ⟨context.allThreads.length - 1, by omega, ?_⟩
    simp only
    rw [copyThreads_getElem? _ _ _ (by simp; omega)]
    rw [if_pos ⟨by omega, by omega⟩, List.getElem?_set]
    simp
    omega
  | none =>
    have hnot : context.thisThread ∉ threads.drop context.allThreads.length := by
      intro hin
      have := List.find?_eq_none.mp hfind _ hin
      simp at this
    have hin : context.thisThread ∈ threads.take context.allThreads.length := by
      rw [← List.take_append_drop context.allThreads.length threads] at hmem
      rcases List.mem_append.mp hmem with h | h
      · exact h
      · exact absurd h hnot
    obtain ⟨i, hi⟩ := List.mem_iff_getElem?.mp hin
    rw [List.getElem?_take] at hi
    split at hi
    · rename_i hlt
      refine ⟨i, by omega, ?_⟩
      simp only
      rw [copyThreads_getElem? _ _ _ (by omega), if_pos ⟨hlt, hlt⟩]
      exact hi
    · simp at hi

/-- C7 (witness): with capacity 3 and the enumeration `[1, 2, 3, 4, 7, 8]`, the
context of thread 7 gets the list `[1, 2, 7]`. -/
theorem C7_overflow_keeps_thisThread_witness :
    (0 < (staleContext 7 3).allThreads.length ∧
      (staleContext 7 3).allThreads.length < [1, 2, 3, 4, 7, 8].length ∧
      (staleContext 7 3).thisThread ∈ [1, 2, 3, 4, 7, 8]) ∧
    (getThreadList (staleContext 7 3) (some [1, 2, 3, 4, 7, 8])).2.allThreads = [1, 2, 7] ∧
    (getThreadList (staleContext 7 3) (some [1, 2, 3, 4, 7, 8])).1 = true ∧
    (getThreadList (staleContext 7 3) (some [1, 2, 3, 4, 7, 8])).2.threadCount
      = (staleContext 7 3).allThreads.length ∧
    (getThreadList (staleContext 7 3) (some [1, 2, 3, 4, 7, 8])).2.thisThread
      = (staleContext 7 3).thisThread ∧
    ∃ i : Nat,
      (i : Int) < (getThreadList (staleContext 7 3) (some [1, 2, 3, 4, 7, 8])).2.threadCount ∧
      (getThreadList (staleContext 7 3) (some [1, 2, 3, 4, 7, 8])).2.allThreads[i]?
        = some (staleContext 7 3).thisThread :=
  ⟨by decide, by decide,
    C7_overflow_keeps_thisThread (staleContext 7 3) [1, 2, 3, 4, 7, 8]
      (by decide) (by decide) (by decide)⟩

/-- C8: `ksmc_canHaveCPUState` is true when `isCurrentThread` is false, true
when `isCurrentThread` and `isSignalContext` are both true, false exactly when
`isCurrentThread` is true and `isSignalContext` is false, and two contexts
that agree on these two fields get the same result. -/
theorem C8_canHaveCPUState (context : KSMachineContext) :
    (context.isCurrentThread = false → ksmc_canHaveCPUState context = true) ∧
    (context.isCurrentThread = true → context.isSignalContext = true →
      ksmc_canHaveCPUState context = true) ∧
    (ksmc_canHaveCPUState context = false
      ↔ context.isCurrentThread = true ∧ context.isSignalContext = false) ∧
    (∀ other : KSMachineContext,
      other.isCurrentThread = context.isCurrentThread →
      other.isSignalContext = context.isSignalContext →
      ksmc_canHaveCPUState other = ksmc_canHaveCPUState context) := by
  unfold ksmc_canHaveCPUState isContextForCurrentThread isSignalContext
  refine ⟨?_, ?_, ?_, ?_⟩
  · intro h; simp [h]
  · intro _ h; simp [h]
  · cases context.isCurrentThread <;> cases context.isSignalContext <;> simp
  · intro other h1 h2; rw [h1, h2]

/-- C8 (witness): a context of the calling thread that is no signal context
cannot have CPU state; the other three combinations can. -/
theorem C8_canHaveCPUState_witness :
    ksmc_canHaveCPUState (staleContext 7 3) = false ∧
    ksmc_canHaveCPUState { staleContext 7 3 with isSignalContext := true } = true ∧
    ksmc_canHaveCPUState { staleContext 7 3 with isCurrentThread := false } = true ∧
    ksmc_canHaveCPUState
      { staleContext 7 3 with isCurrentThread := false, isSignalContext := true } = true ∧
    ksmc_canHaveCPUState (staleContext 1 5) = ksmc_canHaveCPUState (staleContext 7 3) :=
  ⟨(C8_canHaveCPUState (staleContext 7 3)).2.2.1.mpr ⟨rfl, rfl⟩,
    (C8_canHaveCPUState { staleContext 7 3 with isSignalContext := true }).2.1 rfl rfl,
    (C8_canHaveCPUState { staleContext 7 3 with isCurrentThread := false }).1 rfl,
    by decide,
    (C8_canHaveCPUState (staleContext 7 3)).2.2.2 (staleContext 1 5) rfl rfl⟩

/-! ## Lemmas and claims on the freeze gate -/

theorem ksccd_freeze_fst (g : Int) : (ksccd_freeze g).1 = g + 1 := by
  unfold ksccd_freeze
  simp only
  split <;> rfl

theorem ksccd_unfreeze_eq (g : Int) : ksccd_unfreeze g = if g ≤ 0 then g else g - 1 := by
  unfold ksccd_unfreeze
  simp only
  split <;> split <;> omega

theorem gateStep_nonneg (g : Int) (call : GateCall) (h : 0 ≤ g) : 0 ≤ gateStep g call := by
  cases call with
  | freeze =>
    show 0 ≤ (ksccd_freeze g).1
    rw [ksccd_freeze_fst]
    omega
  | unfreeze =>
    show 0 ≤ ksccd_unfreeze g
    rw [ksccd_unfreeze_eq]
    split <;> omega

theorem foldl_gateStep_nonneg (calls : List GateCall) :
    ∀ g : Int, 0 ≤ g → 0 ≤ calls.foldl gateStep g := by
  induction calls with
  | nil => intro g h; exact h
  | cons call rest ih =>
    intro g h
    exact ih _ (gateStep_nonneg g call h)

theorem foldl_gateStep_unfreeze (k : Nat) :
    ∀ g : Int, 0 ≤ g → g ≤ k →
      (List.replicate k GateCall.unfreeze).foldl gateStep g = 0 := by
  induction k with
  | zero =>
    intro g h0 hk
    simp only [List.replicate_zero, List.foldl_nil]
    omega
  | succ k ih =>
    intro g h0 hk
    simp only [List.replicate_succ, List.foldl_cons]
    apply ih
    · exact gateStep_nonneg g GateCall.unfreeze h0
    · show ksccd_unfreeze g ≤ k
      rw [ksccd_unfreeze_eq]
      split <;> omega

/-- C9: starting from the initial counter 0, after every finite sequence of
`ksccd_freeze` and `ksccd_unfreeze` calls (made one after the other) the
counter is at least 0; after at least as many further `ksccd_unfreeze` calls
as the counter counts, with any surplus, the counter is 0, so the next
`ksccd_freeze` observes 0, calls `usleep` and leaves the counter at 1. -/
theorem C9_gate_never_negative (calls : List GateCall) (surplus : Nat) :
    0 ≤ gateAfter calls ∧
    gateAfter (calls ++
      List.replicate ((gateAfter calls).toNat + surplus) GateCall.unfreeze) = 0 ∧
    ksccd_freeze (gateAfter (calls ++
      List.replicate ((gateAfter calls).toNat + surplus) GateCall.unfreeze)) = (1, true) := by
  have h0 : 0 ≤ gateAfter calls := foldl_gateStep_nonneg calls 0 (le_refl 0)
  have h1 : gateAfter (calls ++
      List.replicate ((gateAfter calls).toNat + surplus) GateCall.unfreeze) = 0 := by
    unfold gateAfter at h0 ⊢
    rw [List.foldl_append]
    apply foldl_gateStep_unfreeze _ _ h0
    omega
  refine ⟨h0, h1, ?_⟩
  rw [h1]
  rfl

/-- C10: in every gate state reached by `ksccd_freeze` and `ksccd_unfreeze`
calls from the initial counter 0, `ksccd_freeze` followed immediately by
`ksccd_unfreeze` leaves the counter equal to its value before the pair. -/
theorem C10_freeze_unfreeze_restores (calls : List GateCall) :
    ksccd_unfreeze (ksccd_freeze (gateAfter calls)).1 = gateAfter calls ∧
    gateAfter (calls ++ [GateCall.freeze, GateCall.unfreeze]) = gateAfter calls := by
  have h0 : 0 ≤ gateAfter calls := foldl_gateStep_nonneg calls 0 (le_refl 0)
  have h1 : ksccd_unfreeze (ksccd_freeze (gateAfter calls)).1 = gateAfter calls := by
    rw [ksccd_freeze_fst, ksccd_unfreeze_eq]
    split <;> omega
  refine ⟨h1, ?_⟩
  unfold gateAfter at h1 ⊢
  rw [List.foldl_append]
  exact h1

/-! ## Lemmas and claims on the signal classification table -/

theorem find?_key_of_mem {α : Type} (key : α → Int) (l : List α) :
    (l.map key).Nodup → ∀ a ∈ l, l.find? (fun x => key x == key a) = some a := by
  induction l with
  | nil => intro _ a h; simp at h
  | cons b l ih =>
    intro hnd a hmem
    rw [List.map_cons, List.nodup_cons] at hnd
    rcases List.mem_cons.mp hmem with rfl | hin
    · simp
    · have hne : key b ≠ key a := by
        intro heq
        exact hnd.1 (heq ▸ List.mem_map_of_mem key hin)
      rw [List.find?_cons_of_neg _ (by simpa using hne)]
      exact ih hnd.2 a hin

theorem g_fatalSignalData_take (H : SignalHeader) :
    (g_fatalSignalData H).take (g_fatalSignalsCount H).toNat = g_fatalSignalData H := by
  rfl

theorem g_fatalSignalData_sigNums (H : SignalHeader) :
    (g_fatalSignalData H).map (fun info => info.sigNum) = g_fatalSignals H := by
  rfl

/-- With distinct signal numbers, the name of every entry of the table is found
under its number. -/
theorem kssignal_signalName_of_mem (H : SignalHeader) (hdistinct : (g_fatalSignals H).Nodup)
    (info : KSSignalInfo) (hmem : info ∈ g_fatalSignalData H) :
    kssignal_signalName H info.sigNum = some info.name := by
  unfold kssignal_signalName
  rw [g_fatalSignalData_take,
    find?_key_of_mem (fun info => info.sigNum) _ (by rw [g_fatalSignalData_sigNums]; exact hdistinct)
      info hmem]

theorem signalCodeNameInner_of_mem (info : KSSignalInfo)
    (hnd : (info.listedCodes.map (fun codeInfo => codeInfo.code)).Nodup)
    (codeInfo : KSSignalCodeInfo) (hmem : codeInfo ∈ info.listedCodes) :
    signalCodeNameInner info codeInfo.code = some codeInfo.name := by
  unfold signalCodeNameInner
  rw [find?_key_of_mem (fun codeInfo => codeInfo.code) _ hnd codeInfo hmem]

theorem signalCodeNameInner_eq_some (info : KSSignalInfo) (code : Int) (name : String)
    (h : signalCodeNameInner info code = some name) :
    ∃ codeInfo ∈ info.listedCodes, codeInfo.code = code ∧ codeInfo.name = name := by
  unfold signalCodeNameInner at h
  split at h
  · rename_i codeInfo hfind
    simp only [Option.some.injEq] at h
    exact ⟨codeInfo, List.mem_of_find?_eq_some hfind, by simpa using List.find?_some hfind, h⟩
  · simp at h

theorem signalCodeNameOuter_eq_some (sigNum code : Int) (name : String) :
    ∀ l : List KSSignalInfo, signalCodeNameOuter sigNum code l = some name →
      ∃ info ∈ l, info.sigNum = sigNum ∧
        ∃ codeInfo ∈ info.listedCodes, codeInfo.code = code ∧ codeInfo.name = name := by
  intro l
  induction l with
  | nil => intro h; simp [signalCodeNameOuter] at h
  | cons info rest ih =>
    intro h
    unfold signalCodeNameOuter at h
    split at h
    · rename_i hsig
      split at h
      · rename_i found hinner
        simp only [Option.some.injEq] at h
        subst h
        exact ⟨info, List.mem_cons_self _ _, by simpa using hsig,
          signalCodeNameInner_eq_some info code found hinner⟩
      · obtain ⟨i, hi, hrest⟩ := ih h
        exact ⟨i, List.mem_cons_of_mem _ hi, hrest⟩
    · obtain ⟨i, hi, hrest⟩ := ih h
      exact ⟨i, List.mem_cons_of_mem _ hi, hrest⟩

theorem signalCodeNameOuter_eq_none (sigNum code : Int) (l : List KSSignalInfo)
    (h : ∀ info ∈ l, ∀ codeInfo ∈ info.listedCodes,
      ¬ (info.sigNum = sigNum ∧ codeInfo.code = code)) :
    signalCodeNameOuter sigNum code l = none := by
  cases hres : signalCodeNameOuter sigNum code l with
  | none => rfl
  | some name =>
    obtain ⟨info, hi, hsig, codeInfo, hc, hcode, -⟩ :=
      signalCodeNameOuter_eq_some sigNum code name l hres
    exact absurd ⟨hsig, hcode⟩ (h info hi codeInfo hc)

theorem signalCodeNameOuter_of_mem (code : Int) :
    ∀ l : List KSSignalInfo, (l.map (fun info => info.sigNum)).Nodup →
      ∀ info ∈ l, signalCodeNameOuter info.sigNum code l = signalCodeNameInner info code := by
  intro l
  induction l with
  | nil => intro _ info h; simp at h
  | cons b rest ih =>
    intro hnd info hmem
    rw [List.map_cons, List.nodup_cons] at hnd
    unfold signalCodeNameOuter
    rcases List.mem_cons.mp hmem with rfl | hin
    · simp only [beq_self_eq_true, if_true]
      cases hinner : signalCodeNameInner info code with
      | some name => rfl
      | none =>
        simp only
        apply signalCodeNameOuter_eq_none
        intro i hi c _ hc
        exact hnd.1 (hc.1 ▸ List.mem_map_of_mem (fun info => info.sigNum) hi)
    · have hne : ¬ (b.sigNum == info.sigNum) = true := by
        intro heq
        have heq2 : b.sigNum = info.sigNum := by simpa using heq
        exact hnd.1 (heq2 ▸ List.mem_map_of_mem (fun info => info.sigNum) hin)
      rw [if_neg hne]
      exact ih hnd.2 info hin

/-- With a header of distinct constants, the name of every listed code is found
under its signal number and code. -/
theorem kssignal_signalCodeName_of_mem (H : SignalHeader) (hdistinct : H.Distinct)
    (info : KSSignalInfo) (hinfo : info ∈ g_fatalSignalData H)
    (codeInfo : KSSignalCodeInfo) (hcode : codeInfo ∈ info.listedCodes) :
    kssignal_signalCodeName H info.sigNum codeInfo.code = some codeInfo.name := by
  unfold kssignal_signalCodeName
  rw [g_fatalSignalData_take,
    signalCodeNameOuter_of_mem codeInfo.code _
      (by rw [g_fatalSignalData_sigNums]; exact hdistinct.1) info hinfo]
  exact signalCodeNameInner_of_mem info (hdistinct.2 info hinfo) codeInfo hcode

/-- The Darwin header defines distinct constants. -/
theorem darwinSignalHeader_distinct : darwinSignalHeader.Distinct := by
  unfold SignalHeader.Distinct
  decide

/-- C11: for a header with distinct numbers for the nine signals,
`kssignal_signalName` returns the spelling of each of the nine signals of the
table and `NULL` for every other signal number. -/
theorem C11_signalName (H : SignalHeader) (hdistinct : (g_fatalSignals H).Nodup) :
    kssignal_signalName H H.SIGABRT = some "SIGABRT" ∧
    kssignal_signalName H H.SIGBUS = some "SIGBUS" ∧
    kssignal_signalName H H.SIGFPE = some "SIGFPE" ∧
    kssignal_signalName H H.SIGILL = some "SIGILL" ∧
    kssignal_signalName H H.SIGPIPE = some "SIGPIPE" ∧
    kssignal_signalName H H.SIGSEGV = some "SIGSEGV" ∧
    kssignal_signalName H H.SIGSYS = some "SIGSYS" ∧
    kssignal_signalName H H.SIGTRAP = some "SIGTRAP" ∧
    kssignal_signalName H H.SIGTERM = some "SIGTERM" ∧
    ∀ sigNum : Int, sigNum ∉ g_fatalSignals H → kssignal_signalName H sigNum = none := by
  have key := kssignal_signalName_of_mem H hdistinct
  refine ⟨key (SIGNAL_INFO_NOCODES H.SIGABRT "SIGABRT") (by simp [g_fatalSignalData]),
    key (SIGNAL_INFO H.SIGBUS "SIGBUS" (g_sigBusCodes H)) (by simp [g_fatalSignalData]),
    key (SIGNAL_INFO H.SIGFPE "SIGFPE" (g_sigFPECodes H)) (by simp [g_fatalSignalData]),
    key (SIGNAL_INFO H.SIGILL "SIGILL" (g_sigIllCodes H)) (by simp [g_fatalSignalData]),
    key (SIGNAL_INFO_NOCODES H.SIGPIPE "SIGPIPE") (by simp [g_fatalSignalData]),
    key (SIGNAL_INFO H.SIGSEGV "SIGSEGV" (g_sigSegVCodes H)) (by simp [g_fatalSignalData]),
    key (SIGNAL_INFO_NOCODES H.SIGSYS "SIGSYS") (by simp [g_fatalSignalData]),
    key (SIGNAL_INFO H.SIGTRAP "SIGTRAP" (g_sigTrapCodes H)) (by simp [g_fatalSignalData]),
    key (SIGNAL_INFO_NOCODES H.SIGTERM "SIGTERM") (by simp [g_fatalSignalData]), ?_⟩
  intro sigNum hnot
  unfold kssignal_signalName
  rw [g_fatalSignalData_take]
  have hnone : (g_fatalSignalData H).find? (fun info => info.sigNum == sigNum) = none := by
    rw [List.find?_eq_none]
    intro info hinfo heq
    apply hnot
    rw [← g_fatalSignalData_sigNums]
    have heq2 : info.sigNum = sigNum := by simpa using heq
    exact heq2 ▸ List.mem_map_of_mem (fun info => info.sigNum) hinfo
  rw [hnone]

/-- C11 (witness): with the Darwin header, signal 11 is `SIGSEGV` and signal 9
has no name. -/
theorem C11_signalName_witness :
    (g_fatalSignals darwinSignalHeader).Nodup ∧
    kssignal_signalName darwinSignalHeader 11 = some "SIGSEGV" ∧
    kssignal_signalName darwinSignalHeader 9 = none :=
  have h := C11_signalName darwinSignalHeader (by decide)
  ⟨by decide, h.2.2.2.2.2.1, h.2.2.2.2.2.2.2.2.2 9 (by decide)⟩

/-- C12: for a header of distinct constants, `kssignal_signalCodeName` returns
the spelling of the code for every pair listed in the code table of a signal,
so `SEGV_MAPERR` for `(SIGSEGV, SEGV_MAPERR)` and `0` for `(SIGTRAP, 0)`, and
`NULL` for every other pair: an unknown signal with any code, a known signal
with an unlisted code, and any code for `SIGABRT`, `SIGPIPE`, `SIGSYS` and
`SIGTERM`. -/
theorem C12_signalCodeName (H : SignalHeader) (hdistinct : H.Distinct) :
    (∀ info ∈ g_fatalSignalData H, ∀ codeInfo ∈ info.listedCodes,
      kssignal_signalCodeName H info.sigNum codeInfo.code = some codeInfo.name) ∧
    kssignal_signalCodeName H H.SIGSEGV H.SEGV_MAPERR = some "SEGV_MAPERR" ∧
    kssignal_signalCodeName H H.SIGTRAP 0 = some "0" ∧
    (∀ sigNum code : Int,
      (∀ info ∈ g_fatalSignalData H, ∀ codeInfo ∈ info.listedCodes,
        ¬ (info.sigNum = sigNum ∧ codeInfo.code = code)) →
      kssignal_signalCodeName H sigNum code = none) ∧
    (∀ sigNum code : Int, sigNum ∉ g_fatalSignals H →
      kssignal_signalCodeName H sigNum code = none) ∧
    (∀ code : Int,
      kssignal_signalCodeName H H.SIGABRT code = none ∧
      kssignal_signalCodeName H H.SIGPIPE code = none ∧
      kssignal_signalCodeName H H.SIGSYS code = none ∧
      kssignal_signalCodeName H H.SIGTERM code = none) := by
  have hlisted := kssignal_signalCodeName_of_mem H hdistinct
  have hnone : ∀ sigNum code : Int,
      (∀ info ∈ g_fatalSignalData H, ∀ codeInfo ∈ info.listedCodes,
        ¬ (info.sigNum = sigNum ∧ codeInfo.code = code)) →
      kssignal_signalCodeName H sigNum code = none := by
    intro sigNum code h
    unfold kssignal_signalCodeName
    rw [g_fatalSignalData_take]
    exact signalCodeNameOuter_eq_none sigNum code _ h
  have hcodeless : ∀ (info : KSSignalInfo), info ∈ g_fatalSignalData H →
      info.listedCodes = [] → ∀ code, kssignal_signalCodeName H info.sigNum code = none := by
    intro info hinfo hempty code
    unfold kssignal_signalCodeName
    rw [g_fatalSignalData_take,
      signalCodeNameOuter_of_mem code _
        (by rw [g_fatalSignalData_sigNums]; exact hdistinct.1) info hinfo]
    unfold signalCodeNameInner
    rw [hempty]
    rfl
  refine ⟨fun info hinfo codeInfo hcode => hlisted info hinfo codeInfo hcode, ?_, ?_, hnone,
    ?_, ?_⟩
  · exact hlisted (SIGNAL_INFO H.SIGSEGV "SIGSEGV" (g_sigSegVCodes H))
      (by simp [g_fatalSignalData]) (ENUM_NAME_MAPPING H.SEGV_MAPERR "SEGV_MAPERR")
      (by
        unfold KSSignalInfo.listedCodes SIGNAL_INFO
        simp only [Int.toNat_ofNat, List.take_length]
        simp [g_sigSegVCodes])
  · exact hlisted (SIGNAL_INFO H.SIGTRAP "SIGTRAP" (g_sigTrapCodes H))
      (by simp [g_fatalSignalData]) (ENUM_NAME_MAPPING 0 "0")
      (by
        unfold KSSignalInfo.listedCodes SIGNAL_INFO
        simp only [Int.toNat_ofNat, List.take_length]
        simp [g_sigTrapCodes])
  · intro sigNum code hnot
    apply hnone
    intro info hinfo codeInfo _ hc
    apply hnot
    rw [← g_fatalSignalData_sigNums]
    exact hc.1 ▸ List.mem_map_of_mem (fun info => info.sigNum) hinfo
  · intro code
    exact ⟨hcodeless (SIGNAL_INFO_NOCODES H.SIGABRT "SIGABRT") (by simp [g_fatalSignalData])
        rfl code,
      hcodeless (SIGNAL_INFO_NOCODES H.SIGPIPE "SIGPIPE") (by simp [g_fatalSignalData])
        rfl code,
      hcodeless (SIGNAL_INFO_NOCODES H.SIGSYS "SIGSYS") (by simp [g_fatalSignalData])
        rfl code,
      hcodeless (SIGNAL_INFO_NOCODES H.SIGTERM "SIGTERM") (by simp [g_fatalSignalData])
        rfl code⟩

/-- C12 (witness): with the Darwin header, `(11, 1)` is `SEGV_MAPERR`, `(5, 0)`
is `0`, and the unlisted pairs `(11, 7)`, `(9, 1)` and `(6, 0)` are not found. -/
theorem C12_signalCodeName_witness :
    darwinSignalHeader.Distinct ∧
    kssignal_signalCodeName darwinSignalHeader 11 1 = some "SEGV_MAPERR" ∧
    kssignal_signalCodeName darwinSignalHeader 5 0 = some "0" ∧
    kssignal_signalCodeName darwinSignalHeader 11 7 = none ∧
    kssignal_signalCodeName darwinSignalHeader 9 1 = none ∧
    kssignal_signalCodeName darwinSignalHeader 6 0 = none :=
  have h := C12_signalCodeName darwinSignalHeader darwinSignalHeader_distinct
  ⟨darwinSignalHeader_distinct, h.2.1, h.2.2.1, h.2.2.2.1 11 7 (by decide),
    h.2.2.2.2.1 9 1 (by decide), (h.2.2.2.2.2 0).1⟩

/-- C13: `kssignal_fatalSignals` is the list `SIGABRT`, `SIGBUS`, `SIGFPE`,
`SIGILL`, `SIGPIPE`, `SIGSEGV`, `SIGSYS`, `SIGTRAP`, `SIGTERM`;
`kssignal_numFatalSignals`, the size of the name table, is 9, the length of
that list; every index below the count is an index of the list, the entry is
the signal number of the table entry at the same index, and
`kssignal_signalName` of the entry is present. -/
theorem C13_fatalSignals (H : SignalHeader) :
    kssignal_fatalSignals H
      = [H.SIGABRT, H.SIGBUS, H.SIGFPE, H.SIGILL, H.SIGPIPE, H.SIGSEGV, H.SIGSYS,
          H.SIGTRAP, H.SIGTERM] ∧
    kssignal_numFatalSignals H = (g_fatalSignalData H).length ∧
    kssignal_numFatalSignals H = 9 ∧
    kssignal_numFatalSignals H = (kssignal_fatalSignals H).length ∧
    (∀ i : Nat, (i : Int) < kssignal_numFatalSignals H →
      ∃ sigNum, (kssignal_fatalSignals H)[i]? = some sigNum ∧
        (g_fatalSignalData H)[i]?.map (fun info => info.sigNum) = some sigNum ∧
        (kssignal_signalName H sigNum).isSome = true) := by
  refine ⟨rfl, rfl, rfl, rfl, ?_⟩
  intro i hi
  have hi9 : i < 9 := by
    have : kssignal_numFatalSignals H = 9 := rfl
    omega
  have hpresent : ∀ sigNum ∈ g_fatalSignals H, (kssignal_signalName H sigNum).isSome = true := by
    intro sigNum hmem
    unfold kssignal_signalName
    rw [g_fatalSignalData_take]
    cases hfind : (g_fatalSignalData H).find? (fun info => info.sigNum == sigNum) with
    | some info => rfl
    | none =>
      exfalso
      rw [← g_fatalSignalData_sigNums, List.mem_map] at hmem
      obtain ⟨info, hinfo, heq⟩ := hmem
      have := List.find?_eq_none.mp hfind info hinfo
      simp [heq] at this
  have hlen : i < (kssignal_fatalSignals H).length := hi9
  refine ⟨(kssignal_fatalSignals H)[i], List.getElem?_eq_getElem hlen, ?_,
    hpresent _ (List.getElem_mem hlen)⟩
  unfold kssignal_fatalSignals
  rw [← List.getElem?_eq_getElem, ← g_fatalSignalData_sigNums, List.getElem?_map]

/-- C13 (witness): with the Darwin header, the entry at index 5 is signal 11,
whose name is present. -/
theorem C13_fatalSignals_witness :
    kssignal_fatalSignals darwinSignalHeader = [6, 10, 8, 4, 13, 11, 12, 5, 15] ∧
    ((5 : Int) < kssignal_numFatalSignals darwinSignalHeader) ∧
    ∃ sigNum, (kssignal_fatalSignals darwinSignalHeader)[5]? = some sigNum ∧
      (g_fatalSignalData darwinSignalHeader)[5]?.map (fun info => info.sigNum) = some sigNum ∧
      (kssignal_signalName darwinSignalHeader sigNum).isSome = true :=
  ⟨by decide, by decide, (C13_fatalSignals darwinSignalHeader).2.2.2.2 5 (by decide)⟩

/-! ## Lemmas on the thread metadata cache -/

theorem storeName_sized (names : Option (List (Option HeapString))) (a : List (Option HeapString))
    (n i : Nat) (buffer : Option String) (strdupCount : Nat)
    (h : names = some a) (hlen : a.length = n) (hi : i < n) :
    ∃ b count, storeName names i buffer strdupCount = some (some b, count) ∧ b.length = n := by
  subst h
  unfold storeName
  cases buffer with
  | none => exact ⟨a, strdupCount, rfl, hlen⟩
  | some text =>
    simp only
    by_cases ht : text ≠ ""
    · rw [if_pos ht]
      unfold storeAt
      simp only
      rw [if_pos (by omega)]
      exact ⟨_, _, rfl, by simp [hlen]⟩
    · rw [if_neg ht]
      exact ⟨a, strdupCount, rfl, hlen⟩

theorem fillEntry_sized (os : RefreshOS) (g_searchQueueNames : Bool) (i n : Nat)
    (thread : KSThread) (l : RefreshLocals) (h : l.Sized n) (hi : i < n) :
    ∃ l1, fillEntry os g_searchQueueNames i thread l = some l1 ∧ l1.Sized n := by
  obtain ⟨⟨a, ha, hla⟩, ⟨b, hb, hlb⟩, ⟨c, hc, hlc⟩, ⟨d, hd, hld⟩⟩ := h
  unfold fillEntry
  simp only [ha, hb, storeAt]
  rw [if_pos (by omega), if_pos (by omega)]
  simp only
  obtain ⟨c1, count1, hc1, hlc1⟩ := storeName_sized l.allThreadNames c n i
    (if os.pthread_from_mach_thread_np thread ≠ 0 then
      os.pthread_getname_np (os.pthread_from_mach_thread_np thread) else none)
    l.strdupCount hc hlc hi
  rw [hc1]
  simp only
  obtain ⟨d1, count2, hd1, hld1⟩ := storeName_sized l.allQueueNames d n i
    (if g_searchQueueNames then os.ksthread_getQueueName thread else none)
    count1 hd hld hi
  rw [hd1]
  exact ⟨_, rfl, ⟨_, rfl, by simp [hla]⟩, ⟨_, rfl, by simp [hlb]⟩, ⟨_, rfl, hlc1⟩,
    ⟨_, rfl, hld1⟩⟩

theorem fillGeneration_sized (os : RefreshOS) (g_searchQueueNames : Bool) (n : Nat)
    (threads : List KSThread) :
    ∀ (i : Nat) (l : RefreshLocals), l.Sized n → i + threads.length ≤ n →
      ∃ l1, fillGeneration os g_searchQueueNames i threads l = some l1 ∧ l1.Sized n := by
  induction threads with
  | nil => intro i l h _; exact ⟨l, rfl, h⟩
  | cons thread rest ih =>
    intro i l h hi
    simp only [List.length_cons] at hi
    obtain ⟨l1, h1, hs1⟩ := fillEntry_sized os g_searchQueueNames i n thread l h (by omega)
    obtain ⟨l2, h2, hs2⟩ := ih (i + 1) l1 hs1 (by omega)
    refine ⟨l2, ?_, hs2⟩
    unfold fillGeneration
    rw [h1]
    exact h2

/-- When the four allocations succeed, the loop of `updateThreadList` builds
four arrays of the length of the enumeration. -/
theorem buildGeneration_sized (os : RefreshOS) (s : CachedData) (threads : List KSThread)
    (halloc : os.allocationsSucceed = true) :
    ∃ l, buildGeneration os s threads = some l ∧ l.Sized threads.length := by
  unfold RefreshOS.allocationsSucceed at halloc
  simp only [Bool.and_eq_true] at halloc
  obtain ⟨⟨⟨h1, h2⟩, h3⟩, h4⟩ := halloc
  unfold buildGeneration
  apply fillGeneration_sized
  · unfold calloc
    rw [h1, h2, h3, h4]
    exact ⟨⟨_, rfl, by simp⟩, ⟨_, rfl, by simp⟩, ⟨_, rfl, by simp⟩, ⟨_, rfl, by simp⟩⟩
  · omega

theorem freeNames_of_length (names : Option (List (Option HeapString))) (oldThreadsCount : Int)
    (h : seqLength names = oldThreadsCount.toNat) :
    ∃ calls, freeNames names oldThreadsCount = some calls := by
  unfold freeNames
  cases names with
  | none => exact ⟨_, rfl⟩
  | some entries =>
    simp only [seqLength] at h
    simp only
    rw [if_pos (by omega)]
    exact ⟨_, rfl⟩

/-- The parts of the statics that `updateThreadList` never writes. -/
theorem updateThreadList_frame (os : RefreshOS) (s s1 : CachedData) (calls : List CacheCall)
    (h : updateThreadList os s = some (s1, calls)) :
    s1.g_semaphoreCount = s.g_semaphoreCount ∧
    s1.g_pollingIntervalInSeconds = s.g_pollingIntervalInSeconds ∧
    s1.g_searchQueueNames = s.g_searchQueueNames ∧
    s1.g_hasThreadStarted = s.g_hasThreadStarted ∧
    s1.quickPollCount = s.quickPollCount := by
  unfold updateThreadList at h
  simp only at h
  split at h
  · simp only [Option.some.injEq, Prod.mk.injEq] at h
    obtain ⟨rfl, -⟩ := h
    simp
  · split at h
    · simp at h
    · split at h
      · simp only [Option.some.injEq, Prod.mk.injEq] at h
        obtain ⟨rfl, -⟩ := h
        simp [installGeneration, setCount, swapQueueNames, swapThreadNames, swapPThreads,
          swapMachThreads, lowerCount]
      · simp at h

/-- A refresh whose allocations succeed, from consistent statics, is defined
and leaves consistent statics. -/
theorem updateThreadList_consistent (os : RefreshOS) (s : CachedData) (hs : s.Consistent)
    (halloc : os.allocationsSucceed = true) :
    ∃ s1 calls, updateThreadList os s = some (s1, calls) ∧ s1.Consistent := by
  unfold updateThreadList
  simp only
  cases hthreads : os.task_threads with
  | none => exact ⟨s, _, rfl, hs⟩
  | some threads =>
    simp only
    obtain ⟨l, hl, hsized⟩ := buildGeneration_sized os s threads halloc
    rw [hl]
    simp only
    obtain ⟨h0, hm, hp, hn, hq⟩ := hs
    obtain ⟨f1, hf1⟩ := freeNames_of_length s.g_allThreadNames s.g_allThreadsCount hn
    obtain ⟨f2, hf2⟩ := freeNames_of_length s.g_allQueueNames s.g_allThreadsCount hq
    have e1 : (installGeneration s l threads.length).2.allThreadNames = s.g_allThreadNames := rfl
    have e2 : (installGeneration s l threads.length).2.allQueueNames = s.g_allQueueNames := rfl
    rw [e1, e2, hf1, hf2]
    refine ⟨_, _, rfl, ?_⟩
    obtain ⟨⟨a, ha, hla⟩, ⟨b, hb, hlb⟩, ⟨c, hc, hlc⟩, ⟨d, hd, hld⟩⟩ := hsized
    unfold CachedData.Consistent
    simp only [installGeneration, setCount, swapQueueNames, swapThreadNames, swapPThreads,
      swapMachThreads, lowerCount, ha, hb, hc, hd, seqLength, Int.toNat_ofNat]
    exact ⟨by omega, hla, hlb, hlc, hld⟩

theorem monitorCachedData_cycle_consistent (os : RefreshOS) (s : CachedData)
    (hs : s.Consistent) (halloc : os.allocationsSucceed = true) :
    ∃ called s1 calls, monitorCachedData_cycle os s = (called, some (s1, calls)) ∧
      s1.Consistent := by
  unfold monitorCachedData_cycle
  by_cases hgate : s.g_semaphoreCount ≤ 0
  · obtain ⟨s1, calls, hrun, hs1⟩ := updateThreadList_consistent os s hs halloc
    simp only [hgate, if_true, hrun]
    split
    · exact ⟨_, _, _, rfl, hs1⟩
    · exact ⟨_, _, _, rfl, hs1⟩
  · simp only [hgate, if_false]
    split
    · exact ⟨_, _, _, rfl, hs⟩
    · exact ⟨_, _, _, rfl, hs⟩

/-- A cycle of the worker that finds the counter positive calls no refresh and
leaves the counter and the four sequences as they are. -/
theorem monitorCachedData_cycle_frozen (os : RefreshOS) (s : CachedData)
    (hfrozen : 0 < s.g_semaphoreCount) :
    ∃ s1 calls, monitorCachedData_cycle os s = (false, some (s1, calls)) ∧
      s1.g_semaphoreCount = s.g_semaphoreCount ∧
      s1.g_allMachThreads = s.g_allMachThreads ∧ s1.g_allPThreads = s.g_allPThreads ∧
      s1.g_allThreadNames = s.g_allThreadNames ∧ s1.g_allQueueNames = s.g_allQueueNames ∧
      s1.g_allThreadsCount = s.g_allThreadsCount := by
  unfold monitorCachedData_cycle
  have hgate : ¬ s.g_semaphoreCount ≤ 0 := by omega
  simp only [hgate, if_false]
  split
  · exact ⟨_, _, rfl, rfl, rfl, rfl, rfl, rfl, rfl⟩
  · exact ⟨_, _, rfl, rfl, rfl, rfl, rfl, rfl, rfl⟩

/-- A cycle of the worker never writes the counter of the gate. -/
theorem monitorCachedData_cycle_semaphore (os : RefreshOS) (s s1 : CachedData) (called : Bool)
    (calls : List CacheCall)
    (h : monitorCachedData_cycle os s = (called, some (s1, calls))) :
    s1.g_semaphoreCount = s.g_semaphoreCount := by
  unfold monitorCachedData_cycle at h
  by_cases hgate : s.g_semaphoreCount ≤ 0
  · simp only [hgate, if_true] at h
    cases hrun : updateThreadList os s with
    | none => simp [hrun] at h
    | some r =>
      obtain ⟨s2, calls2⟩ := r
      have hframe := (updateThreadList_frame os s s2 calls2 hrun).1
      simp only [hrun] at h
      split at h
      · simp only [Prod.mk.injEq, Option.some.injEq] at h
        obtain ⟨-, rfl, -⟩ := h
        exact hframe
      · simp only [Prod.mk.injEq, Option.some.injEq] at h
        obtain ⟨-, rfl, -⟩ := h
        exact hframe
  · simp only [hgate, if_false] at h
    split at h
    · simp only [Prod.mk.injEq, Option.some.injEq] at h
      obtain ⟨-, rfl, -⟩ := h
      rfl
    · simp only [Prod.mk.injEq, Option.some.injEq] at h
      obtain ⟨-, rfl, -⟩ := h
      rfl

theorem runCache_gate (call : GateCall) (rest : List CacheStep) (s : CachedData) :
    runCache (CacheStep.gate call :: rest) s
      = runCache rest { s with g_semaphoreCount := gateStep s.g_semaphoreCount call } := by
  rw [runCache]

theorem runCache_setSearchQueueNames (flag : Bool) (rest : List CacheStep) (s : CachedData) :
    runCache (CacheStep.setSearchQueueNames flag :: rest) s
      = runCache rest (ksccd_setSearchQueueNames s flag) := by
  rw [runCache]

theorem runCache_cycle (os : RefreshOS) (rest : List CacheStep) (s s1 : CachedData)
    (called : Bool) (calls : List CacheCall)
    (h : monitorCachedData_cycle os s = (called, some (s1, calls))) :
    runCache (CacheStep.cycle os :: rest) s
      = match runCache rest s1 with
        | none => none
        | some (s2, log) => some (s2, called :: log) := by
  rw [runCache, h]

theorem runCache_cycle_none (os : RefreshOS) (rest : List CacheStep) (s : CachedData)
    (called : Bool) (h : monitorCachedData_cycle os s = (called, none)) :
    runCache (CacheStep.cycle os :: rest) s = none := by
  rw [runCache, h]

theorem runCache_consistent (steps : List CacheStep) :
    ∀ s : CachedData, s.Consistent →
      (∀ os, CacheStep.cycle os ∈ steps → os.allocationsSucceed = true) →
      ∃ s1 log, runCache steps s = some (s1, log) ∧ s1.Consistent := by
  induction steps with
  | nil => intro s hs _; exact ⟨s, [], rfl, hs⟩
  | cons step rest ih =>
    intro s hs halloc
    have hrest : ∀ os, CacheStep.cycle os ∈ rest → os.allocationsSucceed = true :=
      fun os hmem => halloc os (List.mem_cons_of_mem _ hmem)
    cases step with
    | gate call =>
      rw [runCache_gate]
      exact ih _ hs hrest
    | setSearchQueueNames b =>
      rw [runCache_setSearchQueueNames]
      exact ih _ hs hrest
    | cycle os =>
      obtain ⟨called, s1, calls, hcycle, hs1⟩ :=
        monitorCachedData_cycle_consistent os s hs (halloc os (List.mem_cons_self _ _))
      obtain ⟨s2, log, hrun, hs2⟩ := ih s1 hs1 hrest
      refine ⟨s2, called :: log, ?_, hs2⟩
      rw [runCache_cycle os rest s s1 called calls hcycle, hrun]

theorem runCache_semaphore_nonneg (steps : List CacheStep) :
    ∀ (s s1 : CachedData) (log : List Bool), 0 ≤ s.g_semaphoreCount →
      runCache steps s = some (s1, log) → 0 ≤ s1.g_semaphoreCount := by
  induction steps with
  | nil =>
    intro s s1 log h0 h
    simp only [runCache, Option.some.injEq, Prod.mk.injEq] at h
    obtain ⟨rfl, -⟩ := h
    exact h0
  | cons step rest ih =>
    intro s s1 log h0 h
    cases step with
    | gate call =>
      rw [runCache_gate] at h
      exact ih _ s1 log (gateStep_nonneg _ call h0) h
    | setSearchQueueNames b =>
      rw [runCache_setSearchQueueNames] at h
      exact ih (ksccd_setSearchQueueNames s b) s1 log h0 h
    | cycle os =>
      cases hcycle : monitorCachedData_cycle os s with
      | mk called result =>
        cases result with
        | none =>
          rw [runCache_cycle_none os rest s called hcycle] at h
          simp at h
        | some r =>
          obtain ⟨s2, calls⟩ := r
          rw [runCache_cycle os rest s s2 called calls hcycle] at h
          cases hrun : runCache rest s2 with
          | none => simp [hrun] at h
          | some q =>
            obtain ⟨s3, log3⟩ := q
            simp only [hrun, Option.some.injEq, Prod.mk.injEq] at h
            obtain ⟨rfl, -⟩ := h
            have hsem := monitorCachedData_cycle_semaphore os s s2 called calls hcycle
            exact ih s2 s3 log3 (by omega) hrun

theorem runCache_append (a b : List CacheStep) :
    ∀ (s s1 : CachedData) (log1 : List Bool), runCache a s = some (s1, log1) →
      runCache (a ++ b) s
        = match runCache b s1 with
          | none => none
          | some (s2, log2) => some (s2, log1 ++ log2) := by
  induction a with
  | nil =>
    intro s s1 log1 h
    simp only [runCache, Option.some.injEq, Prod.mk.injEq] at h
    obtain ⟨rfl, rfl⟩ := h
    simp only [List.nil_append]
    cases runCache b s with
    | none => rfl
    | some q => rfl
  | cons step rest ih =>
    intro s s1 log1 h
    cases step with
    | gate call =>
      rw [runCache_gate] at h
      rw [List.cons_append, runCache_gate]
      exact ih _ s1 log1 h
    | setSearchQueueNames flag =>
      rw [runCache_setSearchQueueNames] at h
      rw [List.cons_append, runCache_setSearchQueueNames]
      exact ih _ s1 log1 h
    | cycle os =>
      cases hcycle : monitorCachedData_cycle os s with
      | mk called result =>
        cases result with
        | none =>
          rw [runCache_cycle_none os rest s called hcycle] at h
          simp at h
        | some r =>
          obtain ⟨s2, calls⟩ := r
          rw [runCache_cycle os rest s s2 called calls hcycle] at h
          rw [List.cons_append, runCache_cycle os (rest ++ b) s s2 called calls hcycle]
          cases hrun : runCache rest s2 with
          | none => simp [hrun] at h
          | some q =>
            obtain ⟨s3, log3⟩ := q
            simp only [hrun, Option.some.injEq, Prod.mk.injEq] at h
            obtain ⟨rfl, rfl⟩ := h
            rw [ih s2 s3 log3 hrun]
            cases runCache b s3 with
            | none => rfl
            | some q2 => rfl

/-- Inside a freeze no cycle of the worker calls a refresh: while the
unfreeze that matches the freeze has not been made, the counter stays
positive, every cycle skips the refresh and the four sequences stay as they
are. -/
theorem runCache_frozen (mid : List CacheStep) :
    ∀ (depth : Nat) (s : CachedData), (depth : Int) + 1 ≤ s.g_semaphoreCount →
      staysFrozen depth mid = true →
      ∃ s1, runCache mid s = some (s1, List.replicate (countCycles mid) false) ∧
        s1.g_allMachThreads = s.g_allMachThreads ∧ s1.g_allPThreads = s.g_allPThreads ∧
        s1.g_allThreadNames = s.g_allThreadNames ∧ s1.g_allQueueNames = s.g_allQueueNames ∧
        s1.g_allThreadsCount = s.g_allThreadsCount := by
  induction mid with
  | nil => intro depth s _ _; exact ⟨s, rfl, rfl, rfl, rfl, rfl, rfl⟩
  | cons step rest ih =>
    intro depth s hdepth hstay
    cases step with
    | gate call =>
      cases call with
      | freeze =>
        simp only [staysFrozen] at hstay
        rw [runCache_gate]
        simp only [countCycles]
        obtain ⟨s1, h1, h2⟩ := ih (depth + 1)
          { s with g_semaphoreCount := gateStep s.g_semaphoreCount GateCall.freeze }
          (by
            show ((depth + 1 : Nat) : Int) + 1 ≤ (ksccd_freeze s.g_semaphoreCount).1
            rw [ksccd_freeze_fst]
            omega)
          hstay
        exact ⟨s1, h1, h2⟩
      | unfreeze =>
        cases depth with
        | zero => simp [staysFrozen] at hstay
        | succ depth =>
          simp only [staysFrozen] at hstay
          rw [runCache_gate]
          simp only [countCycles]
          obtain ⟨s1, h1, h2⟩ := ih depth
            { s with g_semaphoreCount := gateStep s.g_semaphoreCount GateCall.unfreeze }
            (by
              show (depth : Int) + 1 ≤ ksccd_unfreeze s.g_semaphoreCount
              rw [ksccd_unfreeze_eq]
              split <;> omega)
            hstay
          exact ⟨s1, h1, h2⟩
    | setSearchQueueNames flag =>
      simp only [staysFrozen] at hstay
      rw [runCache_setSearchQueueNames]
      simp only [countCycles]
      obtain ⟨s1, h1, h2⟩ := ih depth (ksccd_setSearchQueueNames s flag) hdepth hstay
      exact ⟨s1, h1, h2⟩
    | cycle os =>
      simp only [staysFrozen] at hstay
      obtain ⟨s1, calls, hcycle, hsem, hm, hp, hn, hq, hc⟩ :=
        monitorCachedData_cycle_frozen os s (by omega)
      obtain ⟨s2, hrun, gm, gp, gn, gq, gc⟩ := ih depth s1 (by omega) hstay
      refine ⟨s2, ?_, gm.trans hm, gp.trans hp, gn.trans hn, gq.trans hq, gc.trans hc⟩
      rw [runCache_cycle os rest s s1 false calls hcycle, hrun]
      simp only [countCycles, List.replicate_succ]

/-! ## Claims on the thread metadata cache -/

/-- C14 (the code at failing inputs): from the statics left by a good refresh
over the threads 1 and 2, a refresh over thread 7 whose allocation of the
machine-thread array fails writes through `NULL` (undefined behaviour), as does
a refresh over the named thread 1 whose allocation of the name array fails;
and a refresh over thread 7 whose allocation of the queue-name array fails is
not aborted: it installs the new generation with a `NULL` queue-name table and
thread count 1, and frees the last good generation. -/
theorem C14_allocation_failure_not_aborted :
    runRefreshes [sampleOS (some [1, 2]) true true true true] CachedData.initial
      = some cacheOfTwo ∧
    updateThreadList (sampleOS (some [7]) false true true true) cacheOfTwo = none ∧
    updateThreadList (sampleOS (some [1]) true true false true) cacheOfTwo = none ∧
    updateThreadList (sampleOS (some [7]) true true true false) cacheOfTwo
      = some
          ({ cacheOfTwo with
              g_allMachThreads := some [7]
              g_allPThreads := some [107]
              g_allThreadNames := some [none]
              g_allQueueNames := none
              g_allThreadsCount := 1 },
            [CacheCall.free_threads [1, 2], CacheCall.free_threads [101, 102],
              CacheCall.free_name { allocation := 0, text := "main" },
              CacheCall.free_names [some { allocation := 0, text := "main" }, none],
              CacheCall.free_names [none, none],
              CacheCall.mach_port_deallocate 7, CacheCall.vm_deallocate 1]) := by
  decide

/-- C15: when the thread enumeration fails, `updateThreadList` returns with
the statics exactly as they were (the four sequences, the thread count and
every name) and its only request is the log line: nothing is freed; no other
state is observable during the call. -/
theorem C15_enumeration_failure_no_change (os : RefreshOS) (s : CachedData)
    (hfail : os.task_threads = none) :
    updateThreadList os s = some (s, [CacheCall.KSLOG_ERROR "task_threads"]) ∧
    observableStates os s = some [s] := by
  unfold updateThreadList observableStates
  simp only [hfail, and_self]

/-- C15 (witness): a failed enumeration leaves the cache of the threads 1 and
2 as it is. -/
theorem C15_enumeration_failure_no_change_witness :
    (sampleOS none true true true true).task_threads = none ∧
    updateThreadList (sampleOS none true true true true) cacheOfTwo
      = some (cacheOfTwo, [CacheCall.KSLOG_ERROR "task_threads"]) ∧
    observableStates (sampleOS none true true true true) cacheOfTwo = some [cacheOfTwo] :=
  ⟨rfl, C15_enumeration_failure_no_change (sampleOS none true true true true) cacheOfTwo rfl⟩

/-- C16 (counterexample): while a refresh over three threads replaces a
generation of two, the lengths of the four sequences and the thread count
are, on entry and after each of the six installing statements, as listed: after
the first swap the machine threads have length 3 and the other three
sequences length 2. -/
theorem C16_counterexample :
    runRefreshes [sampleOS (some [1, 2]) true true true true] CachedData.initial
      = some cacheOfTwo ∧
    (observableStates (sampleOS (some [1, 2, 3]) true true true true) cacheOfTwo).map
        (fun states => states.map (fun s =>
          (seqLength s.g_allMachThreads, seqLength s.g_allPThreads,
            seqLength s.g_allThreadNames, seqLength s.g_allQueueNames, s.g_allThreadsCount)))
      = some [(2, 2, 2, 2, 2), (2, 2, 2, 2, 2), (3, 2, 2, 2, 2), (3, 3, 2, 2, 2),
          (3, 3, 3, 2, 2), (3, 3, 3, 3, 2), (3, 3, 3, 3, 3)] ∧
    (∃ states s, observableStates (sampleOS (some [1, 2, 3]) true true true true) cacheOfTwo
        = some states ∧ s ∈ states ∧ ¬ s.EqualLengths) := by
  refine ⟨by decide, by decide, ?_⟩
  refine ⟨_, swapMachThreads (lowerCount cacheOfTwo 3,
      { allMachThreads := some [1, 2, 3], allPThreads := some [101, 102, 103],
        allThreadNames := some [some { allocation := 1, text := "main" }, none, none],
        allQueueNames := some [none, none, none], strdupCount := 2 }) |>.1, rfl, ?_, ?_⟩
  · decide
  · unfold CachedData.EqualLengths
    decide

/-- C16 (amended): for every run of worker cycles, gate calls and
`ksccd_setSearchQueueNames` calls from the initial statics in which the four
allocations of every refresh succeed, the run is defined and at its end, that
is at every instant at which no refresh is in progress, the four parallel
sequences have equal length, which is the thread count. -/
theorem C16_equal_lengths_between_refreshes (steps : List CacheStep)
    (halloc : ∀ os, CacheStep.cycle os ∈ steps → os.allocationsSucceed = true) :
    ∃ s log, runCache steps CachedData.initial = some (s, log) ∧ s.EqualLengths ∧
      (seqLength s.g_allMachThreads : Int) = s.g_allThreadsCount := by
  have hinit : CachedData.initial.Consistent := by
    unfold CachedData.Consistent
    decide
  obtain ⟨s, log, hrun, h0, hm, hp, hn, hq⟩ :=
    runCache_consistent steps CachedData.initial hinit halloc
  refine ⟨s, log, hrun, ⟨by rw [hp, hm], by rw [hn, hm], by rw [hq, hm]⟩, ?_⟩
  rw [hm]
  omega

/-- C16 (witness): a refresh over two threads, a freeze and its unfreeze, and
a refresh over three threads leave four sequences of length 3. -/
theorem C16_equal_lengths_between_refreshes_witness :
    (∀ os, CacheStep.cycle os ∈
        [CacheStep.cycle (sampleOS (some [1, 2]) true true true true),
          CacheStep.gate GateCall.freeze, CacheStep.gate GateCall.unfreeze,
          CacheStep.cycle (sampleOS (some [1, 2, 3]) true true true true)] →
      os.allocationsSucceed = true) ∧
    (runCache
        [CacheStep.cycle (sampleOS (some [1, 2]) true true true true),
          CacheStep.gate GateCall.freeze, CacheStep.gate GateCall.unfreeze,
          CacheStep.cycle (sampleOS (some [1, 2, 3]) true true true true)]
        CachedData.initial).map
        (fun r => (seqLength r.1.g_allMachThreads, seqLength r.1.g_allPThreads,
          seqLength r.1.g_allThreadNames, seqLength r.1.g_allQueueNames, r.1.g_allThreadsCount))
      = some (3, 3, 3, 3, 3) ∧
    ∃ s log, runCache
        [CacheStep.cycle (sampleOS (some [1, 2]) true true true true),
          CacheStep.gate GateCall.freeze, CacheStep.gate GateCall.unfreeze,
          CacheStep.cycle (sampleOS (some [1, 2, 3]) true true true true)]
        CachedData.initial = some (s, log) ∧ s.EqualLengths ∧
      (seqLength s.g_allMachThreads : Int) = s.g_allThreadsCount :=
  have hall : ∀ os, CacheStep.cycle os ∈
        [CacheStep.cycle (sampleOS (some [1, 2]) true true true true),
          CacheStep.gate GateCall.freeze, CacheStep.gate GateCall.unfreeze,
          CacheStep.cycle (sampleOS (some [1, 2, 3]) true true true true)] →
      os.allocationsSucceed = true := by
    intro os hmem
    simp only [List.mem_cons, CacheStep.cycle.injEq, List.mem_singleton, List.not_mem_nil,
      or_false, false_or, reduceCtorEq] at hmem
    rcases hmem with rfl | rfl <;> rfl
  ⟨hall, by decide, C16_equal_lengths_between_refreshes _ hall⟩

/-- C17: in every cycle of `monitorCachedData`, `updateThreadList` is called
if and only if the freeze counter is at most 0 at the check; and in every run
of the cache from the initial statics (gate calls and worker cycles taken one
after the other), once `ksccd_freeze` has been called and as long as the
`ksccd_unfreeze` that matches it has not been called, no cycle of the worker
calls `updateThreadList` and the four sequences and the thread count stay as
they were at the freeze. -/
theorem C17_no_refresh_while_frozen (pre mid : List CacheStep) (s : CachedData)
    (log : List Bool)
    (hpre : runCache pre CachedData.initial = some (s, log))
    (hmid : staysFrozen 0 mid = true) :
    (∀ (os : RefreshOS) (s0 : CachedData),
      (monitorCachedData_cycle os s0).1 = true ↔ s0.g_semaphoreCount ≤ 0) ∧
    ∃ s1, runCache (pre ++ CacheStep.gate GateCall.freeze :: mid) CachedData.initial
        = some (s1, log ++ List.replicate (countCycles mid) false) ∧
      s1.g_allMachThreads = s.g_allMachThreads ∧ s1.g_allPThreads = s.g_allPThreads ∧
      s1.g_allThreadNames = s.g_allThreadNames ∧ s1.g_allQueueNames = s.g_allQueueNames ∧
      s1.g_allThreadsCount = s.g_allThreadsCount := by
  constructor
  · intro os s0
    unfold monitorCachedData_cycle
    by_cases hgate : s0.g_semaphoreCount ≤ 0
    · simp only [hgate, if_true, iff_true]
      cases updateThreadList os s0 with
      | none => rfl
      | some r =>
        simp only
        split <;> rfl
    · simp only [hgate, if_false, iff_false]
      split <;> simp
  · have h0 : 0 ≤ s.g_semaphoreCount :=
      runCache_semaphore_nonneg pre CachedData.initial s log (le_refl 0) hpre
    obtain ⟨s1, hrun, hseq⟩ := runCache_frozen mid 0
      { s with g_semaphoreCount := gateStep s.g_semaphoreCount GateCall.freeze }
      (by
        show ((0 : Nat) : Int) + 1 ≤ (ksccd_freeze s.g_semaphoreCount).1
        rw [ksccd_freeze_fst]
        omega)
      hmid
    refine ⟨s1, ?_, hseq⟩
    rw [runCache_append pre _ CachedData.initial s log hpre, runCache_gate, hrun]

/-- C17 (witness): after a first refresh, a freeze is entered; the three
cycles inside it, around a nested freeze and unfreeze, call no refresh. -/
theorem C17_no_refresh_while_frozen_witness :
    (runCache [CacheStep.cycle (sampleOS (some [1, 2]) true true true true)]
        CachedData.initial = some ({ cacheOfTwo with quickPollCount := 3 }, [true]) ∧
      staysFrozen 0 sampleFrozenSteps = true) ∧
    ∃ s1, runCache
        ([CacheStep.cycle (sampleOS (some [1, 2]) true true true true)]
          ++ CacheStep.gate GateCall.freeze :: sampleFrozenSteps)
        CachedData.initial
        = some (s1, [true] ++ List.replicate (countCycles sampleFrozenSteps) false) ∧
      s1.g_allMachThreads = some [1, 2] ∧ s1.g_allPThreads = some [101, 102] ∧
      s1.g_allThreadNames = some [some { allocation := 0, text := "main" }, none] ∧
      s1.g_allQueueNames = some [none, none] ∧
      s1.g_allThreadsCount = 2 :=
  ⟨⟨by decide, by decide⟩,
    (C17_no_refresh_while_frozen [CacheStep.cycle (sampleOS (some [1, 2]) true true true true)]
      sampleFrozenSteps { cacheOfTwo with quickPollCount := 3 } [true]
      (by decide) (by decide)).2⟩

/-! ## Claims on the reserved set and on the capture of a context -/

theorem reservedAfter_count (added : List KSThread) :
    (reservedAfter added).g_reservedThreadsCount = ((min added.length 10 : Nat) : Int) := by
  obtain ⟨⟨hlen, h0, h10⟩, hstored⟩ := reservedAfter_stored added
  have hl := congrArg List.length hstored
  unfold ReservedThreads.stored at hl
  simp only [List.length_take] at hl
  omega

/-- C18: after any sequence of `ksmc_addReservedThread` calls the set holds the
first `min(k, 10)` of the `k` handles passed, in call order, in an array of 10
slots; one more call is one more step of that sequence; a call made when 10
handles are stored changes nothing; and no call changes a stored handle. -/
theorem C18_reserved_bounded_append_only (added : List KSThread) (thread : KSThread) :
    (reservedAfter added).stored = added.take (min added.length 10) ∧
    (reservedAfter added).g_reservedThreadsCount = ((min added.length 10 : Nat) : Int) ∧
    (reservedAfter added).g_reservedThreads.length = 10 ∧
    reservedAfter (added ++ [thread]) = ksmc_addReservedThread (reservedAfter added) thread ∧
    ((reservedAfter added).g_reservedThreadsCount = 10 →
      ksmc_addReservedThread (reservedAfter added) thread = reservedAfter added) ∧
    (∀ i : Nat, (i : Int) < (reservedAfter added).g_reservedThreadsCount →
      (ksmc_addReservedThread (reservedAfter added) thread).g_reservedThreads[i]?
        = (reservedAfter added).g_reservedThreads[i]?) := by
  obtain ⟨⟨hlen, h0, h10⟩, hstored⟩ := reservedAfter_stored added
  refine ⟨?_, reservedAfter_count added, hlen, ?_, ?_, ?_⟩
  · rw [hstored]
    by_cases h : added.length ≤ 10
    · rw [Nat.min_eq_left h, List.take_of_length_le h, List.take_of_length_le (le_refl _)]
    · rw [Nat.min_eq_right (by omega)]
  · unfold reservedAfter
    rw [List.foldl_append]
    rfl
  · intro hfull
    unfold ksmc_addReservedThread g_reservedThreadsMaxIndex
    simp only
    rw [if_pos (by omega)]
  · intro i hi
    unfold ksmc_addReservedThread g_reservedThreadsMaxIndex
    simp only
    split
    · rfl
    · simp only
      rw [List.getElem?_set_ne (by omega)]

/-- C18 (witness): twelve calls leave the first ten handles, and a thirteenth
call changes nothing. -/
theorem C18_reserved_bounded_append_only_witness :
    (reservedAfter [1, 2, 3, 4, 5, 6, 7, 8, 9, 10, 11, 12]).stored
      = [1, 2, 3, 4, 5, 6, 7, 8, 9, 10] ∧
    (reservedAfter [1, 2, 3, 4, 5, 6, 7, 8, 9, 10, 11, 12]).g_reservedThreadsCount = 10 ∧
    ksmc_addReservedThread (reservedAfter [1, 2, 3, 4, 5, 6, 7, 8, 9, 10, 11, 12]) 13
      = reservedAfter [1, 2, 3, 4, 5, 6, 7, 8, 9, 10, 11, 12] :=
  ⟨by decide, by decide,
    (C18_reserved_bounded_append_only [1, 2, 3, 4, 5, 6, 7, 8, 9, 10, 11, 12] 13).2.2.2.2.1
      (by decide)⟩

/-- The fields of a context that `getThreadList` never writes. -/
theorem getThreadList_frame (context : KSMachineContext) (task_threads : Option (List KSThread)) :
    (getThreadList context task_threads).2.thisThread = context.thisThread ∧
    (getThreadList context task_threads).2.isCrashedContext = context.isCrashedContext ∧
    (getThreadList context task_threads).2.isCurrentThread = context.isCurrentThread ∧
    (getThreadList context task_threads).2.isStackOverflow = context.isStackOverflow ∧
    (getThreadList context task_threads).2.isSignalContext = context.isSignalContext ∧
    (getThreadList context task_threads).2.machineContext = context.machineContext := by
  unfold getThreadList
  cases task_threads with
  | none => simp
  | some threads =>
    simp only
    split <;> simp

/-- C19: for every register block supplied by the signal, every prior content
of the destination and every answer of the operating system,
`ksmc_getContextForSignal` returns true and leaves the destination with the
supplied register block, `thisThread` the calling thread, `isCrashedContext`
and `isSignalContext` true; `ksmc_canHaveCPUState` and
`ksmc_hasValidExceptionRegisters` are true for the result. -/
theorem C19_getContextForSignal (os : CaptureOS) (sourceContext : STRUCT_MCONTEXT_L)
    (destinationContext : KSMachineContext) :
    (ksmc_getContextForSignal os sourceContext destinationContext).1 = true ∧
    (ksmc_getContextForSignal os sourceContext destinationContext).2.machineContext
      = sourceContext ∧
    (ksmc_getContextForSignal os sourceContext destinationContext).2.thisThread
      = os.ksthread_self ∧
    (ksmc_getContextForSignal os sourceContext destinationContext).2.isCrashedContext = true ∧
    (ksmc_getContextForSignal os sourceContext destinationContext).2.isSignalContext = true ∧
    ksmc_canHaveCPUState (ksmc_getContextForSignal os sourceContext destinationContext).2
      = true ∧
    ksmc_hasValidExceptionRegisters
      (ksmc_getContextForSignal os sourceContext destinationContext).2 = true := by
  unfold ksmc_hasValidExceptionRegisters ksmc_canHaveCPUState isSignalContext
    isContextForCurrentThread ksmc_isCrashedContext ksmc_getContextForSignal
  simp only [getThreadList_frame]
  simp

/-- C20: for every thread handle, flag, prior content of the destination and
answer of the operating system, `ksmc_getContextForThread` returns true with
`thisThread` the handle, `isCurrentThread` telling whether the handle is the
calling thread, `isCrashedContext` the argument and `isSignalContext` false;
when the flag is false the result is the zeroed destination apart from these
fields and from the register block, which is filled for a thread other than
the calling thread and zero for the calling thread: `threadCount` is 0,
`isStackOverflow` is false and `allThreads` is all zero. -/
theorem C20_getContextForThread (os : CaptureOS) (thread : KSThread)
    (destinationContext : KSMachineContext) (isCrashedContext : Bool) :
    (ksmc_getContextForThread os thread destinationContext isCrashedContext).1 = true ∧
    (ksmc_getContextForThread os thread destinationContext isCrashedContext).2.thisThread
      = thread ∧
    (ksmc_getContextForThread os thread destinationContext isCrashedContext).2.isCurrentThread
      = decide (thread = os.ksthread_self) ∧
    (ksmc_getContextForThread os thread destinationContext isCrashedContext).2.isCrashedContext
      = isCrashedContext ∧
    (ksmc_getContextForThread os thread destinationContext isCrashedContext).2.isSignalContext
      = false ∧
    (isCrashedContext = false →
      (ksmc_getContextForThread os thread destinationContext false).2.threadCount = 0 ∧
      (ksmc_getContextForThread os thread destinationContext false).2.isStackOverflow = false ∧
      (ksmc_getContextForThread os thread destinationContext false).2.allThreads
        = List.replicate destinationContext.allThreads.length 0 ∧
      (ksmc_getContextForThread os thread destinationContext false).2
        = { memsetZero destinationContext with
            thisThread := thread
            isCurrentThread := decide (thread = os.ksthread_self)
            machineContext :=
              if thread = os.ksthread_self then (memsetZero destinationContext).machineContext
              else
                { __ss := os.kscpu_i_fillState_ss thread
                    (memsetZero destinationContext).machineContext.__ss
                  __es := os.kscpu_i_fillState_es thread
                    (memsetZero destinationContext).machineContext.__es } }) := by
  unfold ksmc_getContextForThread ksmc_canHaveCPUState isSignalContext
    isContextForCurrentThread ksmc_isCrashedContext
  refine ⟨rfl, ?_, ?_, ?_, ?_, ?_⟩
  · cases isCrashedContext <;> by_cases h : thread = os.ksthread_self <;>
      simp [h, getThreadList_frame, kscpu_getState]
  · cases isCrashedContext <;> by_cases h : thread = os.ksthread_self <;>
      simp [h, getThreadList_frame, kscpu_getState]
  · cases isCrashedContext <;> by_cases h : thread = os.ksthread_self <;>
      simp [h, getThreadList_frame, kscpu_getState]
  · cases isCrashedContext <;> by_cases h : thread = os.ksthread_self <;>
      simp [h, getThreadList_frame, kscpu_getState]
  · intro _
    by_cases h : thread = os.ksthread_self <;>
      simp [h, kscpu_getState, memsetZero]

/-- C19 (witness): a capture from a signal on calling thread 7, into a
destination that held a context of thread 5, takes the supplied registers and
the enumerated threads and keeps the prior `isCurrentThread`. -/
theorem C19_getContextForSignal_witness :
    ksmc_getContextForSignal (sampleCaptureOS (some [1, 7])) sampleRegisters (staleContext 5 3)
      = (true,
          { thisThread := 7
            allThreads := [1, 7, 0]
            threadCount := 2
            isCrashedContext := true
            isCurrentThread := true
            isStackOverflow := false
            isSignalContext := true
            machineContext := sampleRegisters }) ∧
    ksmc_hasValidExceptionRegisters
      (ksmc_getContextForSignal (sampleCaptureOS (some [1, 7])) sampleRegisters
        (staleContext 5 3)).2 = true :=
  ⟨by decide,
    (C19_getContextForSignal (sampleCaptureOS (some [1, 7])) sampleRegisters
      (staleContext 5 3)).2.2.2.2.2.2⟩

/-- C20 (witness): a capture of thread 9 from calling thread 7, not crashed,
into a destination that held a context of thread 5, is zero apart from the
handle and the filled registers. -/
theorem C20_getContextForThread_witness :
    ksmc_getContextForThread (sampleCaptureOS (some [1, 7])) 9 (staleContext 5 3) false
      = (true,
          { thisThread := 9
            allThreads := [0, 0, 0]
            threadCount := 0
            isCrashedContext := false
            isCurrentThread := false
            isStackOverflow := false
            isSignalContext := false
            machineContext :=
              { __es := { __far := 16, __esr := 0, __exception := 0 }
                __ss :=
                  { __x := List.replicate 29 0, __fp := 0, __lr := 0, __sp := 0, __pc := 4096,
                    __cpsr := 0 } } }) ∧
    (ksmc_getContextForThread (sampleCaptureOS (some [1, 7])) 9 (staleContext 5 3) false).2.threadCount
      = 0 ∧
    (ksmc_getContextForThread (sampleCaptureOS (some [1, 7])) 9 (staleContext 5 3) false).2.isStackOverflow
      = false ∧
    (ksmc_getContextForThread (sampleCaptureOS (some [1, 7])) 9 (staleContext 5 3) false).2.allThreads
      = List.replicate (staleContext 5 3).allThreads.length 0 :=
  have h := (C20_getContextForThread (sampleCaptureOS (some [1, 7])) 9 (staleContext 5 3)
    false).2.2.2.2.2 rfl
  ⟨by decide, h.1, h.2.1, h.2.2.1⟩

/-! ## Further claims on the stack cursor -/

/-- C21: when the depth is below `backtraceLength - skippedEntries` and the
array holds a value greater than 1 at index `currentDepth + skippedEntries`,
`advanceCursor` returns true, sets `stackEntry.address` to
`kscpu_normaliseInstructionPointer` of that value, which is the value AND
`0x0000000fffffffff`, every bit above bit 35 cleared and the others kept, and
increases `currentDepth` by one; nothing else of the cursor changes. -/
theorem C21_advance_normalises (cursor : KSStackCursor) (nextAddress : Nat)
    (hdepth : cursor.state.currentDepth
      < cursor.context.backtraceLength - cursor.context.skippedEntries)
    (hread : readBacktrace cursor.context.backtrace
      (cursor.state.currentDepth + cursor.context.skippedEntries) = some nextAddress)
    (hvalid : 1 < nextAddress) :
    advanceCursor cursor
      = some (true,
          { cursor with
            stackEntry :=
              { cursor.stackEntry with
                address := kscpu_normaliseInstructionPointer nextAddress }
            state := { cursor.state with currentDepth := cursor.state.currentDepth + 1 } }) ∧
    kscpu_normaliseInstructionPointer nextAddress = nextAddress &&& 0x0000000fffffffff ∧
    kscpu_normaliseInstructionPointer nextAddress = nextAddress % 2 ^ 36 ∧
    (∀ bit : Nat, (kscpu_normaliseInstructionPointer nextAddress).testBit bit
      = (decide (bit ≤ 35) && nextAddress.testBit bit)) := by
  refine ⟨?_, rfl, kscpu_normaliseInstructionPointer_eq_mod nextAddress, ?_⟩
  · unfold advanceCursor
    simp only [hdepth, if_true, hread, gt_iff_lt, hvalid]
  · intro bit
    rw [kscpu_normaliseInstructionPointer_eq_mod, Nat.testBit_mod_two_pow]
    congr 1
    simp only [decide_eq_decide]
    omega

/-- C21 (witness): at depth 1 over `[10, 2^36 + 20, 30, 40]` with skip 0, the
call leaves the address 20 and the depth 2. -/
theorem C21_advance_normalises_witness :
    ((1 : Int) < 4 - 0 ∧
      readBacktrace [10, 68719476756, 30, 40] (1 + 0) = some 68719476756 ∧
      1 < 68719476756) ∧
    advanceCursor
        { kssc_initWithBacktrace staleCursor [10, 68719476756, 30, 40] 4 0 with
          state := { currentDepth := 1, hasGivenUp := false } }
      = some (true,
          { kssc_initWithBacktrace staleCursor [10, 68719476756, 30, 40] 4 0 with
            stackEntry :=
              { address := 20, imageName := none, imageAddress := 0, symbolName := none,
                symbolAddress := 0 }
            state := { currentDepth := 2, hasGivenUp := false } }) :=
  ⟨⟨by decide, by decide, by decide⟩,
    (C21_advance_normalises
      { kssc_initWithBacktrace staleCursor [10, 68719476756, 30, 40] 4 0 with
        state := { currentDepth := 1, hasGivenUp := false } }
      68719476756 (by decide) (by decide) (by decide)).1.trans (by decide)⟩

/-- C22: for every cursor, `kssc_resetCursor` leaves `currentDepth` 0,
`hasGivenUp` false and a cleared current frame (address, image address and
symbol address 0, image name and symbol name absent), and changes neither the
producer payload nor the three operation pointers. -/
theorem C22_resetCursor_frame (cursor : KSStackCursor) :
    (kssc_resetCursor cursor).state.currentDepth = 0 ∧
    (kssc_resetCursor cursor).state.hasGivenUp = false ∧
    (kssc_resetCursor cursor).stackEntry.address = 0 ∧
    (kssc_resetCursor cursor).stackEntry.imageAddress = 0 ∧
    (kssc_resetCursor cursor).stackEntry.symbolAddress = 0 ∧
    (kssc_resetCursor cursor).stackEntry.imageName = none ∧
    (kssc_resetCursor cursor).stackEntry.symbolName = none ∧
    (kssc_resetCursor cursor).context = cursor.context ∧
    (kssc_resetCursor cursor).resetCursor = cursor.resetCursor ∧
    (kssc_resetCursor cursor).advanceCursor = cursor.advanceCursor ∧
    (kssc_resetCursor cursor).symbolicate = cursor.symbolicate :=
  ⟨rfl, rfl, rfl, rfl, rfl, rfl, rfl, rfl, rfl, rfl, rfl⟩

/-- The fallback cursor stays as it is under any number of calls through its
advance pointer, and every call returns false. -/
theorem callAdvanceTimes_fallback (cursor : KSStackCursor)
    (h : cursor.advanceCursor = AdvanceFn.g_advanceCursor) (n : Nat) :
    callAdvanceTimes n cursor = some (List.replicate n false, cursor) := by
  have h1 : callAdvanceCursor cursor = some (false, cursor) := by
    unfold callAdvanceCursor
    rw [h]
    rfl
  induction n with
  | zero => rfl
  | succ n ih =>
    unfold callAdvanceTimes
    simp only [h1, ih, List.replicate_succ]

/-- C23: a cursor initialised by `kssc_initCursor` with `NULL` for the advance
operation gets the fallback `g_advanceCursor`; it starts at depth 0 with
`hasGivenUp` false and a cleared frame; every call through its advance pointer
returns false and leaves the cursor as it is; and with `NULL` for the reset
operation the cursor gets `kssc_resetCursor`, whatever the advance operation. -/
theorem C23_fallback_cursor (prior : KSStackCursor) (resetCursor : Option ResetFn)
    (advanceCursor : Option AdvanceFn) (n : Nat) :
    (kssc_initCursor prior resetCursor none).advanceCursor = AdvanceFn.g_advanceCursor ∧
    (kssc_initCursor prior resetCursor none).state
      = { currentDepth := 0, hasGivenUp := false } ∧
    (kssc_initCursor prior resetCursor none).stackEntry
      = { address := 0, imageName := none, imageAddress := 0, symbolName := none,
          symbolAddress := 0 } ∧
    callAdvanceCursor (kssc_initCursor prior resetCursor none)
      = some (false, kssc_initCursor prior resetCursor none) ∧
    callAdvanceTimes n (kssc_initCursor prior resetCursor none)
      = some (List.replicate n false, kssc_initCursor prior resetCursor none) ∧
    (kssc_initCursor prior none advanceCursor).resetCursor = ResetFn.kssc_resetCursor ∧
    callResetCursor (kssc_initCursor prior none advanceCursor)
      = kssc_resetCursor (kssc_initCursor prior none advanceCursor) := by
  have hadv : (kssc_initCursor prior resetCursor none).advanceCursor
      = AdvanceFn.g_advanceCursor := by
    cases resetCursor with
    | none => rfl
    | some f => cases f; rfl
  have hstate : (kssc_initCursor prior resetCursor none).state
      = { currentDepth := 0, hasGivenUp := false } := by
    cases resetCursor with
    | none => rfl
    | some f => cases f; rfl
  have hentry : (kssc_initCursor prior resetCursor none).stackEntry
      = { address := 0, imageName := none, imageAddress := 0, symbolName := none,
          symbolAddress := 0 } := by
    cases resetCursor with
    | none => rfl
    | some f => cases f; rfl
  have hcall := callAdvanceTimes_fallback _ hadv
  refine ⟨hadv, hstate, hentry, ?_, hcall n, rfl, rfl⟩
  unfold callAdvanceCursor
  rw [hadv]
  rfl

/-- C23 (witness): the fallback cursor built over stale memory returns false
three times and stays as it is. -/
theorem C23_fallback_cursor_witness :
    callAdvanceTimes 3 (kssc_initCursor staleCursor none none)
      = some ([false, false, false],
          { stackEntry :=
              { address := 0, imageName := none, imageAddress := 0, symbolName := none,
                symbolAddress := 0 }
            state := { currentDepth := 0, hasGivenUp := false }
            resetCursor := ResetFn.kssc_resetCursor
            advanceCursor := AdvanceFn.g_advanceCursor
            symbolicate := SymbolicateFn.kssymbolicator_symbolicate
            context := staleCursor.context }) :=
  (C23_fallback_cursor staleCursor none none 3).2.2.2.2.1.trans (by decide)

/-! ## Further claims on the machine context -/

/-- C25: `ksmc_resumeEnvironment` called with a `NULL` thread list or with a
thread count of 0 only logs the usage error: it requests no `thread_resume`
and releases neither a thread handle nor the list. -/
theorem C25_resume_without_suspend (thisThread : KSThread) (g : ReservedThreads)
    (thread_resume : KSThread → Bool) (threads : Option (List KSThread))
    (hnone : threads = none ∨ threads = some []) :
    ksmc_resumeEnvironment threads thisThread g thread_resume
      = [OSCall.KSLOG_ERROR "we should call ksmc_suspendEnvironment() first"] ∧
    resumeRequests (ksmc_resumeEnvironment threads thisThread g thread_resume) = [] ∧
    (∀ thread, OSCall.thread_resume thread
      ∉ ksmc_resumeEnvironment threads thisThread g thread_resume) ∧
    (∀ thread, OSCall.mach_port_deallocate thread
      ∉ ksmc_resumeEnvironment threads thisThread g thread_resume) ∧
    (∀ numThreads, OSCall.vm_deallocate numThreads
      ∉ ksmc_resumeEnvironment threads thisThread g thread_resume) := by
  rcases hnone with rfl | rfl <;>
    simp [ksmc_resumeEnvironment, resumeRequests]

/-- C25 (witness): a resume of the empty list from thread 2 only logs. -/
theorem C25_resume_without_suspend_witness :
    ((some [] : Option (List KSThread)) = none ∨ (some [] : Option (List KSThread)) = some []) ∧
    ksmc_resumeEnvironment (some []) 2 (reservedAfter [4, 9]) (fun _ => true)
      = [OSCall.KSLOG_ERROR "we should call ksmc_suspendEnvironment() first"] :=
  ⟨Or.inr rfl,
    (C25_resume_without_suspend 2 (reservedAfter [4, 9]) (fun _ => true) (some [])
      (Or.inr rfl)).1⟩

/-- C26: for every machine context, `ksmc_hasValidExceptionRegisters` is
`ksmc_canHaveCPUState` and `isCrashedContext`, that is
`(!isCurrentThread || isSignalContext) && isCrashedContext`. -/
theorem C26_hasValidExceptionRegisters (context : KSMachineContext) :
    ksmc_hasValidExceptionRegisters context
      = (ksmc_canHaveCPUState context && context.isCrashedContext) ∧
    ksmc_hasValidExceptionRegisters context
      = ((!context.isCurrentThread || context.isSignalContext) && context.isCrashedContext) :=
  ⟨rfl, rfl⟩

/-! ## Claims on the lookups of the cache -/

theorem scanNames_none (machThreads : Option (List KSThread))
    (names : Option (List (Option HeapString))) (thread : KSThread) (remaining : Nat) :
    ∀ i : Nat,
      (∀ k, i ≤ k → k < i + remaining →
        ∃ handle, readAt machThreads k = some handle ∧ handle ≠ thread) →
      scanNames machThreads names thread i remaining = some none := by
  induction remaining with
  | zero => intro i _; rfl
  | succ r ih =>
    intro i h
    obtain ⟨handle, hread, hne⟩ := h i (le_refl i) (by omega)
    rw [scanNames, hread]
    simp only [hne, if_false]
    exact ih (i + 1) (fun k h1 h2 => h k (by omega) (by omega))

theorem scanNames_found (machThreads : Option (List KSThread))
    (names : Option (List (Option HeapString))) (thread : KSThread) (remaining : Nat) :
    ∀ i j : Nat, i ≤ j → j < i + remaining → readAt machThreads j = some thread →
      (∀ k, i ≤ k → k < j → ∃ handle, readAt machThreads k = some handle ∧ handle ≠ thread) →
      scanNames machThreads names thread i remaining = readAt names j := by
  induction remaining with
  | zero => intro i j h1 h2; omega
  | succ r ih =>
    intro i j hij hj hread hbefore
    by_cases heq : i = j
    · subst heq
      rw [scanNames, hread]
      simp
    · obtain ⟨handle, hread1, hne⟩ := hbefore i (le_refl i) (by omega)
      rw [scanNames, hread1]
      simp only [hne, if_false]
      exact ih (i + 1) j (by omega) (by omega) hread
        (fun k h1 h2 => hbefore k (by omega) h2)

theorem readAt_of_lt {α : Type} (array : Option (List α)) (i : Nat)
    (h : i < seqLength array) : ∃ x, readAt array i = some x := by
  cases array with
  | none => simp [seqLength] at h
  | some entries =>
    simp only [seqLength] at h
    exact ⟨entries[i], List.getElem?_eq_getElem h⟩

theorem readAt_names_eq_nameAt (names : Option (List (Option HeapString))) (i : Nat)
    (h : i < seqLength names) : readAt names i = some (nameAt names i) := by
  cases names with
  | none => simp [seqLength] at h
  | some entries =>
    simp only [seqLength] at h
    simp only [readAt, nameAt, List.getElem?_eq_getElem h]

/-- The lookup of a name in a table of the cache, for consistent statics. -/
theorem scanNames_consistent (s : CachedData) (hs : s.Consistent) (thread : KSThread)
    (names : Option (List (Option HeapString)))
    (hnames : seqLength names = s.g_allThreadsCount.toNat) :
    (∀ i : Nat, (i : Int) < s.g_allThreadsCount → readAt s.g_allMachThreads i = some thread →
      (∀ j, j < i → readAt s.g_allMachThreads j ≠ some thread) →
      scanNames s.g_allMachThreads names thread 0 s.g_allThreadsCount.toNat
        = some (nameAt names i)) ∧
    ((∀ i : Nat, (i : Int) < s.g_allThreadsCount → readAt s.g_allMachThreads i ≠ some thread) →
      scanNames s.g_allMachThreads names thread 0 s.g_allThreadsCount.toNat = some none) := by
  obtain ⟨h0, hm, -, -, -⟩ := hs
  have hdefined : ∀ k : Nat, k < s.g_allThreadsCount.toNat →
      readAt s.g_allMachThreads k ≠ some thread →
      ∃ handle, readAt s.g_allMachThreads k = some handle ∧ handle ≠ thread := by
    intro k hk hne
    obtain ⟨x, hx⟩ := readAt_of_lt s.g_allMachThreads k (by omega)
    exact ⟨x, hx, fun heq => hne (heq ▸ hx)⟩
  constructor
  · intro i hi hread hfirst
    rw [scanNames_found s.g_allMachThreads names thread _ 0 i (Nat.zero_le i) (by omega) hread
      (fun k _ hk => hdefined k (by omega) (hfirst k hk))]
    exact readAt_names_eq_nameAt names i (by omega)
  · intro hnone
    exact scanNames_none s.g_allMachThreads names thread _ 0
      (fun k _ hk => hdefined k (by omega) (hnone k (by omega)))

/-- C24: for consistent statics (a generation of the cache) and every thread
handle, `ksccd_getThreadName` and `ksccd_getQueueName` return the entry of
their table at the smallest index below the count whose machine thread is the
query, which is `NULL` when that entry holds no name; they return `NULL` when
no machine thread below the count is the query and when their table is `NULL`;
`ksccd_getAllThreads` returns the machine-thread pointer and stores the
count. -/
theorem C24_lookups (s : CachedData) (hs : s.Consistent) (thread : KSThread) :
    (∀ i : Nat, (i : Int) < s.g_allThreadsCount → readAt s.g_allMachThreads i = some thread →
      (∀ j, j < i → readAt s.g_allMachThreads j ≠ some thread) →
      ksccd_getThreadName s thread = some (nameAt s.g_allThreadNames i) ∧
      ksccd_getQueueName s thread = some (nameAt s.g_allQueueNames i)) ∧
    ((∀ i : Nat, (i : Int) < s.g_allThreadsCount → readAt s.g_allMachThreads i ≠ some thread) →
      ksccd_getThreadName s thread = some none ∧ ksccd_getQueueName s thread = some none) ∧
    (s.g_allThreadNames = none → ksccd_getThreadName s thread = some none) ∧
    (s.g_allQueueNames = none → ksccd_getQueueName s thread = some none) ∧
    (∀ prior : Int,
      ksccd_getAllThreads s (some prior) = (s.g_allMachThreads, some s.g_allThreadsCount)) ∧
    ksccd_getAllThreads s none = (s.g_allMachThreads, none) := by
  have hn := hs.2.2.2.1
  have hq := hs.2.2.2.2
  have hthread := scanNames_consistent s hs thread s.g_allThreadNames hn
  have hqueue := scanNames_consistent s hs thread s.g_allQueueNames hq
  refine ⟨?_, ?_, ?_, ?_, fun _ => rfl, rfl⟩
  · intro i hi hread hfirst
    constructor
    · unfold ksccd_getThreadName
      cases hnames : s.g_allThreadNames with
      | none => rfl
      | some entries =>
        simp only
        rw [← hnames]
        exact hthread.1 i hi hread hfirst
    · unfold ksccd_getQueueName
      cases hnames : s.g_allQueueNames with
      | none => rfl
      | some entries =>
        simp only
        rw [← hnames]
        exact hqueue.1 i hi hread hfirst
  · intro hnone
    constructor
    · unfold ksccd_getThreadName
      cases hnames : s.g_allThreadNames with
      | none => rfl
      | some entries =>
        simp only
        rw [← hnames]
        exact hthread.2 hnone
    · unfold ksccd_getQueueName
      cases hnames : s.g_allQueueNames with
      | none => rfl
      | some entries =>
        simp only
        rw [← hnames]
        exact hqueue.2 hnone
  · intro h
    unfold ksccd_getThreadName
    rw [h]
  · intro h
    unfold ksccd_getQueueName
    rw [h]

/-- C24 (witness): in the cache of the threads 1 and 2, thread 1 has the name
`main`, thread 2 has none, and thread 3 is not found. -/
theorem C24_lookups_witness :
    cacheOfTwo.Consistent ∧
    ksccd_getThreadName cacheOfTwo 1 = some (some { allocation := 0, text := "main" }) ∧
    ksccd_getThreadName cacheOfTwo 2 = some none ∧
    ksccd_getQueueName cacheOfTwo 2 = some none ∧
    ksccd_getThreadName cacheOfTwo 3 = some none :=
  have hs : cacheOfTwo.Consistent := by
    unfold CachedData.Consistent
    decide
  have h1 := (C24_lookups cacheOfTwo hs 1).1 0 (by decide) (by decide)
    (fun j hj => absurd hj (Nat.not_lt_zero j))
  have h2 := (C24_lookups cacheOfTwo hs 2).1 1 (by decide) (by decide)
    (fun j hj => by
      have hj0 : j = 0 := by omega
      subst hj0
      decide)
  have h3 := (C24_lookups cacheOfTwo hs 3).2.1 (fun i hi => by
    have hi2 : i < 2 := by
      have : cacheOfTwo.g_allThreadsCount = 2 := rfl
      omega
    have hcases : i = 0 ∨ i = 1 := by omega
    rcases hcases with rfl | rfl <;> decide)
  ⟨hs, h1.1, h2.1, h2.2, h3.1⟩

/-! ## Claims on the start and the sleeps of the worker -/

/-- C27: in statics in which the worker has not been started, `ksccd_init(a)`
followed by `ksccd_init(b)` leaves the polling interval `a` and has requested
exactly one worker with `pthread_create`, whatever `pthread_create` returned;
the second call returns the statics as the first call left them and makes no
request. -/
theorem C27_init_idempotent (s : CachedData) (a b error1 error2 : Int)
    (hfresh : s.g_hasThreadStarted = false) :
    (ksccd_init s a error1).1
      = { s with g_hasThreadStarted := true, g_pollingIntervalInSeconds := a } ∧
    ksccd_init (ksccd_init s a error1).1 b error2 = ((ksccd_init s a error1).1, []) ∧
    (ksccd_init (ksccd_init s a error1).1 b error2).1.g_pollingIntervalInSeconds = a ∧
    countWorkers ((ksccd_init s a error1).2
      ++ (ksccd_init (ksccd_init s a error1).1 b error2).2) = 1 := by
  have h1 : ksccd_init s a error1
      = ({ s with g_hasThreadStarted := true, g_pollingIntervalInSeconds := a },
          [InitCall.pthread_attr_init, InitCall.pthread_attr_setdetachstate,
            InitCall.pthread_create "KSCrash Cached Data Monitor"]
          ++ (if error1 ≠ 0 then [InitCall.KSLOG_ERROR "pthread_create_suspended_np"] else [])
          ++ [InitCall.pthread_attr_destroy]) := by
    unfold ksccd_init
    simp [hfresh]
  have h2 : ksccd_init (ksccd_init s a error1).1 b error2 = ((ksccd_init s a error1).1, []) := by
    rw [h1]
    unfold ksccd_init
    simp
  refine ⟨by rw [h1], h2, by rw [h2, h1], ?_⟩
  rw [h2, h1]
  by_cases herr : error1 = 0 <;> simp [herr, countWorkers]

/-- C27 (witness): from the initial statics, `ksccd_init(60)` then
`ksccd_init(5)` leave the interval 60 and one worker request. -/
theorem C27_init_idempotent_witness :
    CachedData.initial.g_hasThreadStarted = false ∧
    (ksccd_init (ksccd_init CachedData.initial 60 0).1 5 0).1.g_pollingIntervalInSeconds = 60 ∧
    countWorkers ((ksccd_init CachedData.initial 60 0).2
      ++ (ksccd_init (ksccd_init CachedData.initial 60 0).1 5 0).2) = 1 :=
  have h := C27_init_idempotent CachedData.initial 60 5 0 0 rfl
  ⟨rfl, h.2.2.1, h.2.2.2⟩

theorem lastSleep_append_sleep (calls : List CacheCall) (seconds : Nat) :
    lastSleep (calls ++ [CacheCall.sleep seconds]) = some seconds := by
  unfold lastSleep
  rw [List.getLast?_append]
  simp

/-- The end of a cycle of the worker: the sleep lasts 1 second and
`quickPollCount` goes down by one while it is positive, and else the sleep
lasts the polling interval converted to `unsigned`; the polling interval stays
as it is. -/
theorem monitorCachedData_cycle_sleep (os : RefreshOS) (s s1 : CachedData) (called : Bool)
    (calls : List CacheCall)
    (h : monitorCachedData_cycle os s = (called, some (s1, calls))) :
    s1.g_pollingIntervalInSeconds = s.g_pollingIntervalInSeconds ∧
    s1.quickPollCount = (if s.quickPollCount > 0 then s.quickPollCount - 1 else s.quickPollCount) ∧
    lastSleep calls
      = some (if s.quickPollCount > 0 then 1
          else (s.g_pollingIntervalInSeconds % 2 ^ 32).toNat) := by
  unfold monitorCachedData_cycle at h
  by_cases hgate : s.g_semaphoreCount ≤ 0
  · simp only [hgate, if_true] at h
    cases hrun : updateThreadList os s with
    | none => simp [hrun] at h
    | some r =>
      obtain ⟨s2, calls2⟩ := r
      obtain ⟨-, hp, -, -, hq⟩ := updateThreadList_frame os s s2 calls2 hrun
      simp only [hrun] at h
      split at h
      · rename_i hquick
        simp only [Prod.mk.injEq, Option.some.injEq] at h
        obtain ⟨-, rfl, rfl⟩ := h
        rw [hq] at hquick
        simp only [hp, hq, hquick, if_true, lastSleep_append_sleep, and_self]
      · rename_i hquick
        simp only [Prod.mk.injEq, Option.some.injEq] at h
        obtain ⟨-, rfl, rfl⟩ := h
        rw [hq] at hquick
        simp only [hp, hq, hquick, if_false, lastSleep_append_sleep, and_self]
  · simp only [hgate, if_false] at h
    split at h
    · rename_i hquick
      simp only [Prod.mk.injEq, Option.some.injEq] at h
      obtain ⟨-, rfl, rfl⟩ := h
      simp only [hquick, if_true, lastSleep_append_sleep, and_self]
    · rename_i hquick
      simp only [Prod.mk.injEq, Option.some.injEq] at h
      obtain ⟨-, rfl, rfl⟩ := h
      simp only [hquick, if_false, lastSleep_append_sleep, and_self]

theorem runCacheSleeps_gate (call : GateCall) (rest : List CacheStep) (s : CachedData) :
    runCacheSleeps (CacheStep.gate call :: rest) s
      = runCacheSleeps rest { s with g_semaphoreCount := gateStep s.g_semaphoreCount call } := by
  rw [runCacheSleeps]

theorem runCacheSleeps_setSearchQueueNames (flag : Bool) (rest : List CacheStep)
    (s : CachedData) :
    runCacheSleeps (CacheStep.setSearchQueueNames flag :: rest) s
      = runCacheSleeps rest (ksccd_setSearchQueueNames s flag) := by
  rw [runCacheSleeps]

theorem runCacheSleeps_cycle (os : RefreshOS) (rest : List CacheStep) (s s1 : CachedData)
    (called : Bool) (calls : List CacheCall) (seconds : Nat)
    (h : monitorCachedData_cycle os s = (called, some (s1, calls)))
    (hsleep : lastSleep calls = some seconds) :
    runCacheSleeps (CacheStep.cycle os :: rest) s
      = match runCacheSleeps rest s1 with
        | none => none
        | some (s2, sleeps) => some (s2, seconds :: sleeps) := by
  rw [runCacheSleeps, h]
  simp only [hsleep]
  cases runCacheSleeps rest s1 with
  | none => rfl
  | some q => rfl

theorem runCacheSleeps_cycle_none (os : RefreshOS) (rest : List CacheStep) (s : CachedData)
    (called : Bool) (h : monitorCachedData_cycle os s = (called, none)) :
    runCacheSleeps (CacheStep.cycle os :: rest) s = none := by
  rw [runCacheSleeps, h]

/-- The sleeps of a run are those that `quickPollCount` and the polling
interval at its start determine. -/
theorem runCacheSleeps_eq_expected (p : Nat) (steps : List CacheStep) :
    ∀ (s s1 : CachedData) (sleeps : List Nat),
      (s.g_pollingIntervalInSeconds % 2 ^ 32).toNat = p →
      runCacheSleeps steps s = some (s1, sleeps) →
      sleeps = expectedSleeps p s.quickPollCount (countCycles steps) := by
  induction steps with
  | nil =>
    intro s s1 sleeps _ h
    simp only [runCacheSleeps, Option.some.injEq, Prod.mk.injEq] at h
    rw [← h.2]
    rfl
  | cons step rest ih =>
    intro s s1 sleeps hp h
    cases step with
    | gate call =>
      rw [runCacheSleeps_gate] at h
      simp only [countCycles]
      exact ih { s with g_semaphoreCount := gateStep s.g_semaphoreCount call } s1 sleeps hp h
    | setSearchQueueNames flag =>
      rw [runCacheSleeps_setSearchQueueNames] at h
      simp only [countCycles]
      exact ih (ksccd_setSearchQueueNames s flag) s1 sleeps hp h
    | cycle os =>
      cases hcycle : monitorCachedData_cycle os s with
      | mk called result =>
        cases result with
        | none =>
          rw [runCacheSleeps_cycle_none os rest s called hcycle] at h
          simp at h
        | some r =>
          obtain ⟨s2, calls⟩ := r
          obtain ⟨hpoll, hquick, hsleep⟩ := monitorCachedData_cycle_sleep os s s2 called calls hcycle
          rw [runCacheSleeps_cycle os rest s s2 called calls _ hcycle hsleep] at h
          cases hrun : runCacheSleeps rest s2 with
          | none => simp [hrun] at h
          | some q =>
            obtain ⟨s3, sleeps3⟩ := q
            simp only [hrun, Option.some.injEq, Prod.mk.injEq] at h
            obtain ⟨-, rfl⟩ := h
            have hrest := ih s2 s3 sleeps3 (by rw [hpoll]; exact hp) hrun
            simp only [countCycles, expectedSleeps]
            rw [hrest, hquick, hp]

/-- A run in which every allocation succeeds, from consistent statics, is
defined. -/
theorem runCacheSleeps_defined (steps : List CacheStep) :
    ∀ s : CachedData, s.Consistent →
      (∀ os, CacheStep.cycle os ∈ steps → os.allocationsSucceed = true) →
      ∃ s1 sleeps, runCacheSleeps steps s = some (s1, sleeps) ∧ s1.Consistent := by
  induction steps with
  | nil => intro s hs _; exact ⟨s, [], rfl, hs⟩
  | cons step rest ih =>
    intro s hs halloc
    have hrest : ∀ os, CacheStep.cycle os ∈ rest → os.allocationsSucceed = true :=
      fun os hmem => halloc os (List.mem_cons_of_mem _ hmem)
    cases step with
    | gate call =>
      rw [runCacheSleeps_gate]
      exact ih _ hs hrest
    | setSearchQueueNames flag =>
      rw [runCacheSleeps_setSearchQueueNames]
      exact ih _ hs hrest
    | cycle os =>
      obtain ⟨called, s1, calls, hcycle, hs1⟩ :=
        monitorCachedData_cycle_consistent os s hs (halloc os (List.mem_cons_self _ _))
      obtain ⟨-, -, hsleep⟩ := monitorCachedData_cycle_sleep os s s1 called calls hcycle
      obtain ⟨s2, sleeps, hrun, hs2⟩ := ih s1 hs1 hrest
      refine ⟨s2, (if s.quickPollCount > 0 then 1
        else (s.g_pollingIntervalInSeconds % 2 ^ 32).toNat) :: sleeps, ?_, hs2⟩
      rw [runCacheSleeps_cycle os rest s s1 called calls _ hcycle hsleep, hrun]

theorem expectedSleeps_length (p : Nat) (n : Nat) :
    ∀ q : Int, (expectedSleeps p q n).length = n := by
  induction n with
  | zero => intro q; rfl
  | succ n ih => intro q; simp [expectedSleeps, ih]

theorem expectedSleeps_getElem? (p : Nat) (n : Nat) :
    ∀ (q : Int) (k : Nat), 0 ≤ q → k < n →
      (expectedSleeps p q n)[k]? = some (if (k : Int) < q then 1 else p) := by
  induction n with
  | zero => intro q k _ hk; omega
  | succ n ih =>
    intro q k hq hk
    cases k with
    | zero =>
      simp only [expectedSleeps, List.getElem?_cons_zero, Nat.cast_zero, gt_iff_lt]
    | succ k =>
      simp only [expectedSleeps, List.getElem?_cons_succ]
      by_cases hpos : q > 0
      · rw [if_pos hpos, ih (q - 1) k (by omega) (by omega)]
        congr 1
        have : ((k : Int) < q - 1) ↔ (((k + 1 : Nat) : Int) < q) := by omega
        simp only [this]
      · rw [if_neg hpos, ih q k hq (by omega)]
        have h1 : ¬ ((k : Int) < q) := by omega
        have h2 : ¬ (((k + 1 : Nat) : Int) < q) := by omega
        simp only [h1, h2, if_false]

/-- C28: for a worker started with polling interval `p` (an `int`, at least 0)
and `quickPollCount` 4, in every run of cycles, gate calls and
`ksccd_setSearchQueueNames` calls, the sleep that ends the cycle number `k + 1`
lasts 1 second when `k + 1 <= 4` and `p` seconds otherwise, whether the cycle
called the refresh or skipped it; the run is defined when the statics are
consistent and the allocations succeed. -/
theorem C28_sleep_intervals (steps : List CacheStep) (s : CachedData) (p : Nat)
    (hp : s.g_pollingIntervalInSeconds = (p : Int)) (hint : p < 2 ^ 31)
    (hq : s.quickPollCount = 4) :
    (∀ (s1 : CachedData) (sleeps : List Nat), runCacheSleeps steps s = some (s1, sleeps) →
      sleeps.length = countCycles steps ∧
      ∀ k : Nat, k < countCycles steps →
        sleeps[k]? = some (if k + 1 ≤ 4 then 1 else p)) ∧
    (s.Consistent → (∀ os, CacheStep.cycle os ∈ steps → os.allocationsSucceed = true) →
      ∃ s1 sleeps, runCacheSleeps steps s = some (s1, sleeps)) := by
  have hunsigned : (s.g_pollingIntervalInSeconds % 2 ^ 32).toNat = p := by
    rw [hp]
    omega
  constructor
  · intro s1 sleeps hrun
    have heq := runCacheSleeps_eq_expected p steps s s1 sleeps hunsigned hrun
    rw [heq, hq]
    refine ⟨expectedSleeps_length p _ 4, ?_⟩
    intro k hk
    rw [expectedSleeps_getElem? p _ 4 k (by omega) hk]
    congr 1
    have : ((k : Int) < 4) ↔ (k + 1 ≤ 4) := by omega
    simp only [this]
  · intro hs halloc
    obtain ⟨s1, sleeps, hrun, -⟩ := runCacheSleeps_defined steps s hs halloc
    exact ⟨s1, sleeps, hrun⟩

/-- C28 (witness): started with interval 60, seven cycles with a freeze around
the third and fourth sleep 1, 1, 1, 1, 60, 60 and 60 seconds. -/
theorem C28_sleep_intervals_witness :
    ((ksccd_init CachedData.initial 60 0).1.g_pollingIntervalInSeconds = ((60 : Nat) : Int) ∧
      60 < 2 ^ 31 ∧ (ksccd_init CachedData.initial 60 0).1.quickPollCount = 4) ∧
    (runCacheSleeps sampleSevenCycles (ksccd_init CachedData.initial 60 0).1).map Prod.snd
      = some [1, 1, 1, 1, 60, 60, 60] ∧
    (runCache sampleSevenCycles (ksccd_init CachedData.initial 60 0).1).map Prod.snd
      = some [true, true, false, false, true, true, true] ∧
    (∀ (s1 : CachedData) (sleeps : List Nat),
      runCacheSleeps sampleSevenCycles (ksccd_init CachedData.initial 60 0).1
        = some (s1, sleeps) →
      sleeps.length = countCycles sampleSevenCycles ∧
      ∀ k : Nat, k < countCycles sampleSevenCycles →
        sleeps[k]? = some (if k + 1 ≤ 4 then 1 else 60)) :=
  ⟨⟨by decide, by norm_num, by decide⟩, by decide, by decide,
    (C28_sleep_intervals sampleSevenCycles (ksccd_init CachedData.initial 60 0).1 60
      (by decide) (by norm_num) (by decide)).1⟩

/-! ## Claims on the truncation of the thread list and on the install order -/

theorem find?_thisThread_eq_none (thisThread : KSThread) (l : List KSThread) :
    l.find? (fun thread => thread == thisThread) = none ↔ thisThread ∉ l := by
  rw [List.find?_eq_none]
  constructor
  · intro h hmem
    exact h thisThread hmem (by simp)
  · intro h x hx heq
    have : x = thisThread := by simpa using heq
    exact h (this ▸ hx)

/-- C29: for every successful enumeration `T` of `n` threads and capacity `M`
of `allThreads`, `getThreadList` succeeds and sets `threadCount` to
`min(n, M)`; when `n <= M` it copies `T` completely and in order; when
`n > M` it copies the first `M` entries of `T`, except that when `thisThread`
occurs in `T` at an index from `M` on, the last slot `allThreads[M-1]` holds
`thisThread`; for an enumeration without repeated handles that is when the
first occurrence of `thisThread` is at an index from `M` on. -/
theorem C29_thread_list_copy (context : KSMachineContext) (threads : List KSThread)
    (hcap : 0 < context.allThreads.length) :
    (getThreadList context (some threads)).1 = true ∧
    (getThreadList context (some threads)).2.threadCount
      = ((min threads.length context.allThreads.length : Nat) : Int) ∧
    (getThreadList context (some threads)).2.allThreads.length = context.allThreads.length ∧
    (threads.length ≤ context.allThreads.length →
      (∀ i : Nat, i < threads.length →
        (getThreadList context (some threads)).2.allThreads[i]? = threads[i]?) ∧
      (getThreadList context (some threads)).2.allThreads.take threads.length = threads) ∧
    (context.allThreads.length < threads.length →
      context.thisThread ∈ threads.drop context.allThreads.length →
      (getThreadList context (some threads)).2.allThreads[context.allThreads.length - 1]?
        = some context.thisThread ∧
      ∀ i : Nat, i < context.allThreads.length - 1 →
        (getThreadList context (some threads)).2.allThreads[i]? = threads[i]?) ∧
    (context.allThreads.length < threads.length →
      context.thisThread ∉ threads.drop context.allThreads.length →
      ∀ i : Nat, i < context.allThreads.length →
        (getThreadList context (some threads)).2.allThreads[i]? = threads[i]?) ∧
    (context.allThreads.length < threads.length → threads.Nodup →
      context.thisThread ∈ threads.take context.allThreads.length →
      ∀ i : Nat, i < context.allThreads.length →
        (getThreadList context (some threads)).2.allThreads[i]? = threads[i]?) := by
  have hunder : threads.length ≤ context.allThreads.length →
      (getThreadList context (some threads)).2
        = { context with
            allThreads := copyThreads threads threads.length context.allThreads
            threadCount := (threads.length : Int) } := by
    intro h
    unfold getThreadList
    simp only [gt_iff_lt]
    rw [if_neg (by omega)]
  have hover : context.allThreads.length < threads.length →
      (getThreadList context (some threads)).2
        = { context with
            allThreads := copyThreads
              (match (threads.drop context.allThreads.length).find?
                  (fun thread => thread == context.thisThread) with
                | some thread => threads.set (context.allThreads.length - 1) thread
                | none => threads)
              context.allThreads.length context.allThreads
            threadCount := (context.allThreads.length : Int) } := by
    intro h
    unfold getThreadList
    simp only [gt_iff_lt]
    rw [if_pos h]
  have hnotin : context.allThreads.length < threads.length →
      context.thisThread ∉ threads.drop context.allThreads.length →
      ∀ i : Nat, i < context.allThreads.length →
        (getThreadList context (some threads)).2.allThreads[i]? = threads[i]? := by
    intro h hnot i hi
    rw [hover h, (find?_thisThread_eq_none _ _).mpr hnot]
    simp only
    rw [copyThreads_getElem? _ _ _ (by omega), if_pos ⟨hi, hi⟩]
  refine ⟨?_, ?_, ?_, ?_, ?_, hnotin, ?_⟩
  · unfold getThreadList
    simp only
    split <;> rfl
  · by_cases h : threads.length ≤ context.allThreads.length
    · rw [hunder h, Nat.min_eq_left h]
    · rw [hover (by omega), Nat.min_eq_right (by omega)]
  · by_cases h : threads.length ≤ context.allThreads.length
    · rw [hunder h]
      exact copyThreads_length _ _ _
    · rw [hover (by omega)]
      exact copyThreads_length _ _ _
  · intro h
    have hget : ∀ i : Nat, i < threads.length →
        (getThreadList context (some threads)).2.allThreads[i]? = threads[i]? := by
      intro i hi
      rw [hunder h]
      simp only
      rw [copyThreads_getElem? _ _ _ (le_refl _), if_pos ⟨hi, by omega⟩]
    refine ⟨hget, ?_⟩
    apply List.ext_getElem?
    intro i
    rw [List.getElem?_take]
    by_cases hi : i < threads.length
    · rw [if_pos hi, hget i hi]
    · rw [if_neg hi, List.getElem?_eq_none (by omega)]
  · intro h hmem
    have hfind : ∃ thread, (threads.drop context.allThreads.length).find?
        (fun thread => thread == context.thisThread) = some thread := by
      cases hf : (threads.drop context.allThreads.length).find?
          (fun thread => thread == context.thisThread) with
      | some thread => exact ⟨thread, rfl⟩
      | none => exact absurd hmem ((find?_thisThread_eq_none _ _).mp hf)
    obtain ⟨thread, hf⟩ := hfind
    have hthread : thread = context.thisThread := by
      simpa using List.find?_some hf
    subst hthread
    rw [hover h, hf]
    simp only
    constructor
    · rw [copyThreads_getElem? _ _ _ (by simp; omega), if_pos ⟨by omega, by omega⟩,
        List.getElem?_set]
      simp
      omega
    · intro i hi
      rw [copyThreads_getElem? _ _ _ (by simp; omega), if_pos ⟨by omega, by omega⟩,
        List.getElem?_set_ne (by omega)]
  · intro h hnodup hmem
    apply hnotin h
    intro hdrop
    rw [← List.take_append_drop context.allThreads.length threads] at hnodup
    exact (List.disjoint_of_nodup_append hnodup) hmem hdrop

/-- C29 (witness): with capacity 3, the enumeration `[1, 2, 3, 4, 7, 8]` gives
the context of thread 7 the list `[1, 2, 7]`, and the enumeration `[1, 7]`
gives it `[1, 7]` with the third slot untouched. -/
theorem C29_thread_list_copy_witness :
    0 < (staleContext 7 3).allThreads.length ∧
    ((staleContext 7 3).allThreads.length < [1, 2, 3, 4, 7, 8].length ∧
      (staleContext 7 3).thisThread
        ∈ List.drop (staleContext 7 3).allThreads.length [1, 2, 3, 4, 7, 8]) ∧
    (getThreadList (staleContext 7 3) (some [1, 2, 3, 4, 7, 8])).2.allThreads = [1, 2, 7] ∧
    (getThreadList (staleContext 7 3) (some [1, 2, 3, 4, 7, 8])).2.allThreads[
        (staleContext 7 3).allThreads.length - 1]? = some (staleContext 7 3).thisThread ∧
    (getThreadList (staleContext 7 3) (some [1, 7])).2.allThreads = [1, 7, 0] ∧
    (getThreadList (staleContext 7 3) (some [1, 7])).2.threadCount = 2 :=
  ⟨by decide, ⟨by decide, by decide⟩, by decide,
    ((C29_thread_list_copy (staleContext 7 3) [1, 2, 3, 4, 7, 8] (by decide)).2.2.2.2.1
      (by decide) (by decide)).1,
    by decide, by decide⟩

theorem seqLength_some {α : Type} (entries : List α) :
    seqLength (some entries) = entries.length := rfl

/-- The six statics that the installing statements pass through, for
consistent statics on entry and four new arrays of `n` entries: the count
stays within the four installed sequences, and the last of them is consistent
with count `n`. -/
theorem installStates_within (s : CachedData) (l : RefreshLocals) (n : Nat)
    (hs : s.Consistent) (hl : l.Sized n) :
    (∀ t ∈ installStates s l n, t.CountWithinSequences) ∧
    (installGeneration s l n).1.Consistent ∧
    (installGeneration s l n).1.g_allThreadsCount = n ∧
    (installStates s l n).getLast? = some (installGeneration s l n).1 := by
  obtain ⟨h0, hm, hp, hn, hq⟩ := hs
  obtain ⟨⟨a, ha, hla⟩, ⟨b, hb, hlb⟩, ⟨c, hc, hlc⟩, ⟨d, hd, hld⟩⟩ := hl
  refine ⟨?_, ?_, rfl, rfl⟩
  · intro t ht
    simp only [installStates, List.mem_cons, List.mem_singleton, List.not_mem_nil,
      or_false] at ht
    unfold CachedData.CountWithinSequences
    rcases ht with rfl | rfl | rfl | rfl | rfl | rfl <;>
      simp only [lowerCount, swapMachThreads, swapPThreads, swapThreadNames, swapQueueNames,
        setCount, ha, hb, hc, hd, seqLength_some, hla, hlb, hlc, hld] <;>
      omega
  · unfold CachedData.Consistent
    simp only [installGeneration, setCount, swapQueueNames, swapThreadNames, swapPThreads,
      swapMachThreads, lowerCount, ha, hb, hc, hd, seqLength, Int.toNat_ofNat]
    exact ⟨by omega, hla, hlb, hlc, hld⟩

theorem scanNames_defined (machThreads : Option (List KSThread))
    (names : Option (List (Option HeapString))) (thread : KSThread) (remaining : Nat) :
    ∀ i : Nat, i + remaining ≤ seqLength machThreads → i + remaining ≤ seqLength names →
      ∃ result, scanNames machThreads names thread i remaining = some result := by
  induction remaining with
  | zero => intro i _ _; exact ⟨none, rfl⟩
  | succ r ih =>
    intro i hm hn
    obtain ⟨handle, hread⟩ := readAt_of_lt machThreads i (by omega)
    rw [scanNames, hread]
    simp only
    by_cases heq : handle = thread
    · rw [if_pos heq]
      exact readAt_of_lt names i (by omega)
    · rw [if_neg heq]
      exact ih (i + 1) (by omega) (by omega)

/-- While the count is within the four sequences, a lookup reads inside the
arrays: it is defined. -/
theorem lookups_defined (t : CachedData) (h : t.CountWithinSequences) (thread : KSThread) :
    (∃ result, ksccd_getThreadName t thread = some result) ∧
    (∃ result, ksccd_getQueueName t thread = some result) := by
  obtain ⟨hm, -, hn, hq⟩ := h
  constructor
  · unfold ksccd_getThreadName
    cases hnames : t.g_allThreadNames with
    | none => exact ⟨none, rfl⟩
    | some entries =>
      simp only
      rw [← hnames]
      exact scanNames_defined _ _ _ _ 0 (by omega) (by omega)
  · unfold ksccd_getQueueName
    cases hnames : t.g_allQueueNames with
    | none => exact ⟨none, rfl⟩
    | some entries =>
      simp only
      rw [← hnames]
      exact scanNames_defined _ _ _ _ 0 (by omega) (by omega)

/-- C30: during a refresh whose allocations succeed, from consistent statics,
at every point a reader can observe (on entry and after each of the statements
that install the new generation: the count lowered to the minimum of old and
new, the four pointer swaps, the count set to the new value) the published
thread count is at most the length of each of the four installed sequences, so
a lookup made at that point reads inside the arrays; and when the refresh
completes the four installed sequences have equal length, which is the thread
count. -/
theorem C30_count_within_sequences (os : RefreshOS) (s : CachedData) (hs : s.Consistent)
    (halloc : os.allocationsSucceed = true) :
    (∃ states, observableStates os s = some states ∧
      ∀ t ∈ states, t.CountWithinSequences ∧
        ∀ thread : KSThread,
          (∃ result, ksccd_getThreadName t thread = some result) ∧
          (∃ result, ksccd_getQueueName t thread = some result)) ∧
    (∃ s1 calls, updateThreadList os s = some (s1, calls) ∧ s1.EqualLengths ∧
      (seqLength s1.g_allMachThreads : Int) = s1.g_allThreadsCount) := by
  have hentry : s.CountWithinSequences := by
    obtain ⟨h0, hm, hp, hn, hq⟩ := hs
    unfold CachedData.CountWithinSequences
    omega
  have hstates : ∃ states, observableStates os s = some states ∧
      ∀ t ∈ states, t.CountWithinSequences := by
    unfold observableStates
    cases hthreads : os.task_threads with
    | none =>
      refine ⟨[s], rfl, ?_⟩
      intro t ht
      rw [List.mem_singleton] at ht
      rw [ht]
      exact hentry
    | some threads =>
      obtain ⟨l, hl, hsized⟩ := buildGeneration_sized os s threads halloc
      simp only [hl]
      refine ⟨_, rfl, ?_⟩
      intro t ht
      rcases List.mem_cons.mp ht with rfl | hin
      · exact hentry
      · exact (installStates_within s l threads.length hs hsized).1 t hin
  constructor
  · obtain ⟨states, hobs, hall⟩ := hstates
    exact ⟨states, hobs, fun t ht => ⟨hall t ht, fun thread => lookups_defined t (hall t ht) thread⟩⟩
  · obtain ⟨s1, calls, hrun, h0, hm, hp, hn, hq⟩ := updateThreadList_consistent os s hs halloc
    refine ⟨s1, calls, hrun, ⟨by rw [hp, hm], by rw [hn, hm], by rw [hq, hm]⟩, ?_⟩
    rw [hm]
    omega

/-- C30 (witness): while a refresh over one thread replaces the generation of
the threads 1 and 2, the count is lowered to 1 before the first swap and stays
within the four sequences. -/
theorem C30_count_within_sequences_witness :
    (cacheOfTwo.Consistent ∧
      (sampleOS (some [1]) true true true true).allocationsSucceed = true) ∧
    (observableStates (sampleOS (some [1]) true true true true) cacheOfTwo).map
        (fun states => states.map (fun s =>
          (seqLength s.g_allMachThreads, seqLength s.g_allPThreads,
            seqLength s.g_allThreadNames, seqLength s.g_allQueueNames, s.g_allThreadsCount)))
      = some [(2, 2, 2, 2, 2), (2, 2, 2, 2, 1), (1, 2, 2, 2, 1), (1, 1, 2, 2, 1),
          (1, 1, 1, 2, 1), (1, 1, 1, 1, 1), (1, 1, 1, 1, 1)] ∧
    (∃ states, observableStates (sampleOS (some [1]) true true true true) cacheOfTwo
        = some states ∧
      ∀ t ∈ states, t.CountWithinSequences ∧
        ∀ thread : KSThread,
          (∃ result, ksccd_getThreadName t thread = some result) ∧
          (∃ result, ksccd_getQueueName t thread = some result)) :=
  have hs : cacheOfTwo.Consistent := by
    unfold CachedData.Consistent
    decide
  ⟨⟨hs, rfl⟩, by decide,
    (C30_count_within_sequences (sampleOS (some [1]) true true true true) cacheOfTwo hs rfl).1⟩

/-! ## Symmetry of resume, and what the captures leave in the destination -/

/-- C31: when the calling thread and the reserved set are the same at both
calls, for every thread list that `ksmc_suspendEnvironment` returns, the
threads on which `ksmc_resumeEnvironment` requests `thread_resume` are the
threads on which `ksmc_suspendEnvironment` requested `thread_suspend`, in the
same order, hence the same set; the resume requests do not depend on the
outcome of any `thread_resume`, so a failed resume stops nothing: every listed
thread that passes the exclusion test gets its request. -/
theorem C31_resume_symmetric (threads : List KSThread) (thisThread : KSThread)
    (g : ReservedThreads) (thread_suspend thread_resume : KSThread → Bool) :
    (ksmc_suspendEnvironment (some threads) thisThread g thread_suspend).1 = some threads ∧
    resumeRequests (ksmc_resumeEnvironment
        (ksmc_suspendEnvironment (some threads) thisThread g thread_suspend).1
        thisThread g thread_resume)
      = suspendRequests (ksmc_suspendEnvironment (some threads) thisThread g thread_suspend).2 ∧
    (∀ thread,
      thread ∈ resumeRequests (ksmc_resumeEnvironment
          (ksmc_suspendEnvironment (some threads) thisThread g thread_suspend).1
          thisThread g thread_resume)
        ↔ thread ∈ suspendRequests
          (ksmc_suspendEnvironment (some threads) thisThread g thread_suspend).2) ∧
    (∀ outcome : KSThread → Bool,
      resumeRequests (ksmc_resumeEnvironment (some threads) thisThread g outcome)
        = resumeRequests (ksmc_resumeEnvironment (some threads) thisThread g thread_resume)) ∧
    (∀ thread, thread ∈ threads → thread ≠ thisThread →
      isThreadInList thread g.g_reservedThreads g.g_reservedThreadsCount = false →
      thread ∈ resumeRequests
        (ksmc_resumeEnvironment (some threads) thisThread g (fun _ => false))) := by
  have h1 : resumeRequests (ksmc_resumeEnvironment
        (ksmc_suspendEnvironment (some threads) thisThread g thread_suspend).1
        thisThread g thread_resume)
      = suspendRequests
        (ksmc_suspendEnvironment (some threads) thisThread g thread_suspend).2 := by
    unfold ksmc_suspendEnvironment
    simp only [resumeRequests_ksmc_resumeEnvironment, suspendRequests_suspendLoop]
  refine ⟨rfl, h1, ?_, ?_, ?_⟩
  · intro thread
    rw [h1]
  · intro outcome
    rw [resumeRequests_ksmc_resumeEnvironment, resumeRequests_ksmc_resumeEnvironment]
  · intro thread hmem hne hres
    rw [resumeRequests_ksmc_resumeEnvironment, List.mem_filter]
    refine ⟨hmem, ?_⟩
    simp [hne, hres]

/-- C31 (witness): with reserved handles 4 and 9 and calling thread 2 at both
calls, the list 1..5 gets suspend requests on 1, 3 and 5 and resume requests
on 1, 3 and 5, although the resume of 1 fails. -/
theorem C31_resume_symmetric_witness :
    ksmc_resumeEnvironment
        (ksmc_suspendEnvironment (some [1, 2, 3, 4, 5]) 2 (reservedAfter [4, 9])
          (fun _ => true)).1
        2 (reservedAfter [4, 9]) (fun thread => thread != 1)
      = [OSCall.thread_resume 1, OSCall.KSLOG_ERROR "thread_resume", OSCall.thread_resume 3,
          OSCall.thread_resume 5, OSCall.mach_port_deallocate 1, OSCall.mach_port_deallocate 2,
          OSCall.mach_port_deallocate 3, OSCall.mach_port_deallocate 4,
          OSCall.mach_port_deallocate 5, OSCall.vm_deallocate 5] ∧
    suspendRequests (ksmc_suspendEnvironment (some [1, 2, 3, 4, 5]) 2 (reservedAfter [4, 9])
      (fun _ => true)).2 = [1, 3, 5] ∧
    resumeRequests (ksmc_resumeEnvironment
        (ksmc_suspendEnvironment (some [1, 2, 3, 4, 5]) 2 (reservedAfter [4, 9])
          (fun _ => true)).1
        2 (reservedAfter [4, 9]) (fun thread => thread != 1))
      = suspendRequests (ksmc_suspendEnvironment (some [1, 2, 3, 4, 5]) 2
          (reservedAfter [4, 9]) (fun _ => true)).2 :=
  ⟨by decide, by decide,
    (C31_resume_symmetric [1, 2, 3, 4, 5] 2 (reservedAfter [4, 9]) (fun _ => true)
      (fun thread => thread != 1)).2.1⟩

/-- C32: in `ksmc_getContextForThread` the context that the check
`ksmc_canHaveCPUState` sees is the zeroed destination with the handle, the
flags and `isSignalContext` false, so the check is true if and only if the
handle is not the calling thread; for another thread the register block of the
result is what `kscpu_getState` fills in, for the calling thread it is the
zeroed block, whatever the flag `isCrashedContext` and the thread list. -/
theorem C32_registers_filled_iff_other_thread (os : CaptureOS) (thread : KSThread)
    (destinationContext : KSMachineContext) (isCrashedContext : Bool) :
    ksmc_canHaveCPUState
        { memsetZero destinationContext with
          thisThread := thread
          isCurrentThread := decide (thread = os.ksthread_self)
          isCrashedContext := isCrashedContext
          isSignalContext := false }
      = decide (thread ≠ os.ksthread_self) ∧
    (thread ≠ os.ksthread_self →
      (ksmc_getContextForThread os thread destinationContext isCrashedContext).2.machineContext
        = (kscpu_getState os
            { memsetZero destinationContext with
              thisThread := thread
              isCurrentThread := decide (thread = os.ksthread_self)
              isCrashedContext := isCrashedContext
              isSignalContext := false }).machineContext ∧
      (ksmc_getContextForThread os thread destinationContext isCrashedContext).2.machineContext
        = { __ss := os.kscpu_i_fillState_ss thread
              (memsetZero destinationContext).machineContext.__ss
            __es := os.kscpu_i_fillState_es thread
              (memsetZero destinationContext).machineContext.__es }) ∧
    (thread = os.ksthread_self →
      (ksmc_getContextForThread os thread destinationContext isCrashedContext).2.machineContext
        = (memsetZero destinationContext).machineContext) ∧
    (memsetZero destinationContext).machineContext
      = { __es := { __far := 0, __esr := 0, __exception := 0 }
          __ss :=
            { __x := List.replicate destinationContext.machineContext.__ss.__x.length 0
              __fp := 0, __lr := 0, __sp := 0, __pc := 0, __cpsr := 0 } } := by
  refine ⟨?_, ?_, ?_, rfl⟩
  · unfold ksmc_canHaveCPUState isSignalContext isContextForCurrentThread
    by_cases h : thread = os.ksthread_self <;> simp [h]
  · intro h
    unfold ksmc_getContextForThread ksmc_canHaveCPUState isSignalContext
      isContextForCurrentThread ksmc_isCrashedContext
    cases isCrashedContext <;> simp [h, getThreadList_frame, kscpu_getState]
  · intro h
    unfold ksmc_getContextForThread ksmc_canHaveCPUState isSignalContext
      isContextForCurrentThread ksmc_isCrashedContext
    cases isCrashedContext <;> simp [h, getThreadList_frame]

/-- C32 (witness): with calling thread 7 and a fill that sets the program
counter to 4096, the context of thread 8 has program counter 4096 and the
context of thread 7 has a register block that is all zero. -/
theorem C32_registers_filled_iff_other_thread_witness :
    (8 : KSThread) ≠ (sampleCaptureOS (some [7, 8])).ksthread_self ∧
    (ksmc_getContextForThread (sampleCaptureOS (some [7, 8])) 8
      { staleContext 3 4 with machineContext := sampleRegisters } true).2.machineContext.__ss.__pc
      = 4096 ∧
    (ksmc_getContextForThread (sampleCaptureOS (some [7, 8])) 7
      { staleContext 3 4 with machineContext := sampleRegisters } true).2.machineContext
      = { __es := { __far := 0, __esr := 0, __exception := 0 }
          __ss := { __x := List.replicate 29 0, __fp := 0, __lr := 0, __sp := 0, __pc := 0,
                    __cpsr := 0 } } ∧
    (ksmc_getContextForThread (sampleCaptureOS (some [7, 8])) 7
      { staleContext 3 4 with machineContext := sampleRegisters } true).2.machineContext
      = (memsetZero { staleContext 3 4 with machineContext := sampleRegisters }).machineContext :=
  ⟨by decide, by decide, by decide,
    (C32_registers_filled_iff_other_thread (sampleCaptureOS (some [7, 8])) 7
      { staleContext 3 4 with machineContext := sampleRegisters } true).2.2.1 rfl⟩

/-- C38: `ksmc_getContextForSignal` never writes `isCurrentThread`, which keeps
the value the destination held before the call, and when the enumeration fails
it still returns true and leaves `threadCount` and `allThreads` as they were;
`ksmc_getContextForThread` with `isCrashedContext` true and a failing
enumeration returns true with `threadCount` 0 and `allThreads` all zero. -/
theorem C38_signal_capture_keeps_prior_fields (os : CaptureOS)
    (sourceContext : STRUCT_MCONTEXT_L) (destinationContext : KSMachineContext)
    (thread : KSThread) :
    (ksmc_getContextForSignal os sourceContext destinationContext).2.isCurrentThread
      = destinationContext.isCurrentThread ∧
    (os.task_threads = none →
      (ksmc_getContextForSignal os sourceContext destinationContext).1 = true ∧
      (ksmc_getContextForSignal os sourceContext destinationContext).2.threadCount
        = destinationContext.threadCount ∧
      (ksmc_getContextForSignal os sourceContext destinationContext).2.allThreads
        = destinationContext.allThreads) ∧
    (os.task_threads = none →
      (ksmc_getContextForThread os thread destinationContext true).1 = true ∧
      (ksmc_getContextForThread os thread destinationContext true).2.threadCount = 0 ∧
      (ksmc_getContextForThread os thread destinationContext true).2.allThreads
        = List.replicate destinationContext.allThreads.length 0) := by
  refine ⟨?_, ?_, ?_⟩
  · unfold ksmc_getContextForSignal
    simp only [getThreadList_frame]
  · intro hfail
    unfold ksmc_getContextForSignal
    rw [hfail]
    simp [getThreadList]
  · intro hfail
    unfold ksmc_getContextForThread ksmc_canHaveCPUState isSignalContext
      isContextForCurrentThread ksmc_isCrashedContext
    rw [hfail]
    by_cases h : thread = os.ksthread_self <;>
      simp [h, getThreadList, kscpu_getState, memsetZero]

/-- C38 (witness): over a destination that held `isCurrentThread` true, a
count of 2 and the handles 4, 5, 6, a signal capture with a failing
enumeration keeps all three, and a capture of the crashed thread 8 leaves a
count of 0 and zeroed handles. -/
theorem C38_signal_capture_keeps_prior_fields_witness :
    (sampleCaptureOS none).task_threads = none ∧
    ((ksmc_getContextForSignal (sampleCaptureOS none) sampleRegisters
        { staleContext 3 3 with threadCount := 2, allThreads := [4, 5, 6] }).2.isCurrentThread,
      (ksmc_getContextForSignal (sampleCaptureOS none) sampleRegisters
        { staleContext 3 3 with threadCount := 2, allThreads := [4, 5, 6] }).2.threadCount,
      (ksmc_getContextForSignal (sampleCaptureOS none) sampleRegisters
        { staleContext 3 3 with threadCount := 2, allThreads := [4, 5, 6] }).2.allThreads)
      = (true, 2, [4, 5, 6]) ∧
    ((ksmc_getContextForThread (sampleCaptureOS none) 8
        { staleContext 3 3 with threadCount := 2, allThreads := [4, 5, 6] } true).1 = true ∧
      (ksmc_getContextForThread (sampleCaptureOS none) 8
        { staleContext 3 3 with threadCount := 2, allThreads := [4, 5, 6] } true).2.threadCount
        = 0 ∧
      (ksmc_getContextForThread (sampleCaptureOS none) 8
        { staleContext 3 3 with threadCount := 2, allThreads := [4, 5, 6] } true).2.allThreads
        = List.replicate
          ({ staleContext 3 3 with threadCount := 2, allThreads := [4, 5, 6] } :
            KSMachineContext).allThreads.length 0) :=
  ⟨rfl, by decide,
    (C38_signal_capture_keeps_prior_fields (sampleCaptureOS none) sampleRegisters
      { staleContext 3 3 with threadCount := 2, allThreads := [4, 5, 6] } 8).2.2 rfl⟩

/-! ## Claims on the register enumeration -/

/-- C36: `kscpu_registerName`, `kscpu_registerValue` and
`kscpu_exceptionRegisterName` test the index against the upper bound only: at
the index -1 each of them reads its table, or the array `__x`, before the
first entry. For every index from the count on they return `NULL`, 0 and
`NULL` without a read, and `kscpu_exceptionRegisterValue` returns 0 for every
index outside 0 to 2, negative ones included. -/
theorem C36_negative_index_reads_outside :
    (kscpu_registerName (-1) = none ∧
      (∀ context : KSMachineContext, kscpu_registerValue context (-1) = none) ∧
      kscpu_exceptionRegisterName (-1) = none) ∧
    (∀ regNumber : Int, regNumber < 0 →
      kscpu_registerName regNumber = none ∧
      (∀ context : KSMachineContext, kscpu_registerValue context regNumber = none) ∧
      kscpu_exceptionRegisterName regNumber = none) ∧
    (∀ regNumber : Int, kscpu_numRegisters ≤ regNumber →
      kscpu_registerName regNumber = some none ∧
      ∀ context : KSMachineContext, kscpu_registerValue context regNumber = some 0) ∧
    (∀ regNumber : Int, kscpu_numExceptionRegisters ≤ regNumber →
      kscpu_exceptionRegisterName regNumber = some none) ∧
    (∀ regNumber : Int, (regNumber < 0 ∨ kscpu_numExceptionRegisters ≤ regNumber) →
      ∀ context : KSMachineContext, kscpu_exceptionRegisterValue context regNumber = 0) := by
  have hneg : ∀ regNumber : Int, regNumber < 0 →
      kscpu_registerName regNumber = none ∧
      (∀ context : KSMachineContext, kscpu_registerValue context regNumber = none) ∧
      kscpu_exceptionRegisterName regNumber = none := by
    intro regNumber hlt
    have h35 : kscpu_numRegisters = 35 := rfl
    have h3 : kscpu_numExceptionRegisters = 3 := rfl
    refine ⟨?_, ?_, ?_⟩
    · unfold kscpu_registerName readIndex
      rw [if_pos (by omega), if_neg (by omega)]
    · intro context
      unfold kscpu_registerValue readIndex
      rw [if_pos (by omega), if_neg (by omega)]
    · unfold kscpu_exceptionRegisterName readIndex
      rw [if_pos (by omega), if_neg (by omega)]
  refine ⟨hneg (-1) (by decide), hneg, ?_, ?_, ?_⟩
  · intro regNumber hge
    have h35 : kscpu_numRegisters = 35 := rfl
    rw [h35] at hge
    constructor
    · unfold kscpu_registerName
      rw [h35, if_neg (by omega)]
    · intro context
      unfold kscpu_registerValue
      rw [if_neg (by omega)]
      split <;> first | omega | rfl
  · intro regNumber hge
    have h3 : kscpu_numExceptionRegisters = 3 := rfl
    rw [h3] at hge
    unfold kscpu_exceptionRegisterName
    rw [h3, if_neg (by omega)]
  · intro regNumber hout context
    have h3 : kscpu_numExceptionRegisters = 3 := rfl
    rw [h3] at hout
    unfold kscpu_exceptionRegisterValue
    split <;> omega

/-! ## Claims on the thread accessors of a context -/

/-- What the loop of `ksmc_indexOfThread` returns when it returns: -1 after
finding no match among the indices it visits, or the first index among them
whose entry is the thread. -/
theorem indexOfThreadLoop_spec (allThreads : List KSThread) (thread : KSThread)
    (remaining : Nat) :
    ∀ (start : Nat) (r : Int), indexOfThreadLoop allThreads thread start remaining = some r →
      (r = -1 ∧ ∀ k, start ≤ k → k < start + remaining → allThreads[k]? ≠ some thread) ∨
      (∃ i : Nat, r = (i : Int) ∧ start ≤ i ∧ i < start + remaining ∧
        allThreads[i]? = some thread ∧
        ∀ k, start ≤ k → k < i → allThreads[k]? ≠ some thread) := by
  induction remaining with
  | zero =>
    intro start r h
    simp only [indexOfThreadLoop, Option.some.injEq] at h
    left
    exact ⟨h.symm, fun k h1 h2 => by omega⟩
  | succ remaining ih =>
    intro start r h
    rw [indexOfThreadLoop] at h
    cases hread : allThreads[start]? with
    | none => simp [hread] at h
    | some entry =>
      simp only [hread] at h
      by_cases heq : entry = thread
      · rw [if_pos heq] at h
        right
        refine ⟨start, (Option.some.inj h).symm, le_refl _, by omega, by rw [hread, heq], ?_⟩
        intro k h1 h2
        omega
      · rw [if_neg heq] at h
        have hstart : allThreads[start]? ≠ some thread := by
          rw [hread]
          intro hc
          exact heq (Option.some.inj hc)
        rcases ih (start + 1) r h with ⟨hr, hnone⟩ | ⟨i, hr, h1, h2, h3, h4⟩
        · left
          refine ⟨hr, ?_⟩
          intro k hk1 hk2
          by_cases hks : k = start
          · rw [hks]
            exact hstart
          · exact hnone k (by omega) (by omega)
        · right
          refine ⟨i, hr, by omega, by omega, h3, ?_⟩
          intro k hk1 hk2
          by_cases hks : k = start
          · rw [hks]
            exact hstart
          · exact h4 k (by omega) hk2

/-- The loop of `ksmc_indexOfThread` returns when every index it visits before
a match lies inside the array. -/
theorem indexOfThreadLoop_defined (allThreads : List KSThread) (thread : KSThread)
    (remaining : Nat) :
    ∀ start : Nat,
      (start + remaining ≤ allThreads.length ∨
        ∃ i, start ≤ i ∧ i < start + remaining ∧ allThreads[i]? = some thread) →
      ∃ r, indexOfThreadLoop allThreads thread start remaining = some r := by
  induction remaining with
  | zero => intro start _; exact ⟨-1, rfl⟩
  | succ remaining ih =>
    intro start h
    have hlt : start < allThreads.length := by
      rcases h with h | ⟨i, h1, h2, h3⟩
      · omega
      · have := (List.getElem?_eq_some_iff.mp h3).1
        omega
    rw [indexOfThreadLoop, List.getElem?_eq_getElem hlt]
    simp only
    by_cases heq : allThreads[start] = thread
    · rw [if_pos heq]
      exact ⟨_, rfl⟩
    · rw [if_neg heq]
      apply ih (start + 1)
      rcases h with h | ⟨i, h1, h2, h3⟩
      · left
        omega
      · right
        have hne : i ≠ start := by
          intro hc
          rw [hc, List.getElem?_eq_getElem hlt] at h3
          exact heq (Option.some.inj h3)
        exact ⟨i, by omega, by omega, h3⟩

/-- C39: for every machine context and thread handle: when an index below
`threadCount` holds the handle, `ksmc_indexOfThread` returns the smallest such
index; when it returns a value other than -1, that value is the smallest index
below `threadCount` whose entry is the handle, and `ksmc_getThreadAtIndex` at
it returns the handle; when it returns -1 no index below `threadCount` holds
the handle; and when `threadCount` does not exceed the capacity of
`allThreads` and no index below it holds the handle, it returns -1.
`ksmc_getThreadCount` returns `threadCount`. -/
theorem C39_indexOfThread (context : KSMachineContext) (thread : KSThread) :
    (∀ i : Nat, (i : Int) < context.threadCount → context.allThreads[i]? = some thread →
      (∀ j : Nat, j < i → context.allThreads[j]? ≠ some thread) →
      ksmc_indexOfThread context thread = some (i : Int) ∧
      ksmc_getThreadAtIndex context (i : Int) = some thread) ∧
    (∀ r : Int, ksmc_indexOfThread context thread = some r → r ≠ -1 →
      0 ≤ r ∧ r < context.threadCount ∧
      ksmc_getThreadAtIndex context r = some thread ∧
      ∀ j : Nat, (j : Int) < r → context.allThreads[j]? ≠ some thread) ∧
    (ksmc_indexOfThread context thread = some (-1) →
      ∀ i : Nat, (i : Int) < context.threadCount → context.allThreads[i]? ≠ some thread) ∧
    (context.threadCount ≤ context.allThreads.length →
      (∃ r, ksmc_indexOfThread context thread = some r) ∧
      ((∀ i : Nat, (i : Int) < context.threadCount → context.allThreads[i]? ≠ some thread) →
        ksmc_indexOfThread context thread = some (-1))) ∧
    ksmc_getThreadCount context = context.threadCount := by
  have hfound : ∀ i : Nat, (i : Int) < context.threadCount →
      context.allThreads[i]? = some thread →
      (∀ j : Nat, j < i → context.allThreads[j]? ≠ some thread) →
      ksmc_indexOfThread context thread = some (i : Int) := by
    intro i hi hread hfirst
    obtain ⟨r, hr⟩ := indexOfThreadLoop_defined context.allThreads thread
      context.threadCount.toNat 0 (Or.inr ⟨i, Nat.zero_le i, by omega, hread⟩)
    unfold ksmc_indexOfThread
    rw [hr]
    rcases indexOfThreadLoop_spec _ _ _ 0 r hr with ⟨-, hnone⟩ | ⟨k, hk, -, hk2, hk3, hk4⟩
    · exact absurd hread (hnone i (Nat.zero_le i) (by omega))
    · have hki : k = i := by
        rcases Nat.lt_trichotomy k i with hlt | heq | hgt
        · exact absurd hk3 (hfirst k hlt)
        · exact heq
        · exact absurd hread (hk4 i (Nat.zero_le i) hgt)
      rw [hk, hki]
  refine ⟨?_, ?_, ?_, ?_, rfl⟩
  · intro i hi hread hfirst
    refine ⟨hfound i hi hread hfirst, ?_⟩
    unfold ksmc_getThreadAtIndex readIndex
    rw [if_pos (by omega)]
    exact hread
  · intro r hr hne
    unfold ksmc_indexOfThread at hr
    rcases indexOfThreadLoop_spec _ _ _ 0 r hr with ⟨h1, -⟩ | ⟨k, hk, -, hk2, hk3, hk4⟩
    · exact absurd h1 hne
    · subst hk
      refine ⟨by omega, by omega, ?_, ?_⟩
      · unfold ksmc_getThreadAtIndex readIndex
        rw [if_pos (by omega)]
        exact hk3
      · intro j hj
        exact hk4 j (Nat.zero_le j) (by omega)
  · intro hr i hi
    unfold ksmc_indexOfThread at hr
    rcases indexOfThreadLoop_spec _ _ _ 0 (-1) hr with ⟨-, hnone⟩ | ⟨k, hk, -, -, -, -⟩
    · exact hnone i (Nat.zero_le i) (by omega)
    · omega
  · intro hcap
    have hdef := indexOfThreadLoop_defined context.allThreads thread
      context.threadCount.toNat 0 (Or.inl (by omega))
    refine ⟨hdef, ?_⟩
    intro hnone
    obtain ⟨r, hr⟩ := hdef
    unfold ksmc_indexOfThread
    rw [hr]
    rcases indexOfThreadLoop_spec _ _ _ 0 r hr with ⟨h1, -⟩ | ⟨k, hk, -, hk2, hk3, -⟩
    · rw [h1]
    · exact absurd hk3 (hnone k (by omega))

/-- C39 (witness): in a context with the handles 7, 8, 9 below a count of 3
and capacity 4, handle 8 has index 1 and the entry at index 1 is 8; handle 0,
which lies only in the unused slot, and handle 5 have index -1. -/
theorem C39_indexOfThread_witness :
    sampleRegisterContext.threadCount ≤ sampleRegisterContext.allThreads.length ∧
    (ksmc_indexOfThread sampleRegisterContext 8, ksmc_getThreadAtIndex sampleRegisterContext 1)
      = (some 1, some 8) ∧
    ksmc_indexOfThread sampleRegisterContext 0 = some (-1) ∧
    ksmc_getThreadCount sampleRegisterContext = 3 ∧
    ((∃ r, ksmc_indexOfThread sampleRegisterContext 5 = some r) ∧
      ((∀ i : Nat, (i : Int) < sampleRegisterContext.threadCount →
          sampleRegisterContext.allThreads[i]? ≠ some 5) →
        ksmc_indexOfThread sampleRegisterContext 5 = some (-1))) :=
  ⟨by decide, by decide, by decide, by decide,
    (C39_indexOfThread sampleRegisterContext 5).2.2.2.1 (by decide)⟩

/-! ## Invariant and reads of the backtrace cursor -/

/-- What one `advanceCursor` call does to the depth: a call that returns true
found the depth below the end and adds one to it, a call that returns false
changes nothing. -/
theorem advanceCursor_depth (cursor c1 : KSStackCursor) (r : Bool)
    (h : advanceCursor cursor = some (r, c1)) :
    (r = true →
      cursor.state.currentDepth
        < cursor.context.backtraceLength - cursor.context.skippedEntries ∧
      c1.state.currentDepth = cursor.state.currentDepth + 1) ∧
    (r = false → c1 = cursor) := by
  unfold advanceCursor at h
  simp only at h
  split at h
  · rename_i hlt
    split at h
    · simp at h
    · split at h
      · simp only [Option.some.injEq, Prod.mk.injEq] at h
        obtain ⟨rfl, rfl⟩ := h
        exact ⟨fun _ => ⟨hlt, rfl⟩, fun hc => by simp at hc⟩
      · simp only [Option.some.injEq, Prod.mk.injEq] at h
        obtain ⟨rfl, rfl⟩ := h
        exact ⟨fun hc => by simp at hc, fun _ => rfl⟩
  · simp only [Option.some.injEq, Prod.mk.injEq] at h
    obtain ⟨rfl, rfl⟩ := h
    exact ⟨fun hc => by simp at hc, fun _ => rfl⟩

/-- The call `advanceCursor` in terms of the index it reads: without a read it
returns false and changes nothing, and it is undefined exactly when the read
is outside the array. -/
theorem advanceCursor_of_currentIndex (cursor : KSStackCursor) :
    (advanceCursor_currentIndex cursor = none → advanceCursor cursor = some (false, cursor)) ∧
    (∀ i, advanceCursor_currentIndex cursor = some i →
      (readBacktrace cursor.context.backtrace i = none → advanceCursor cursor = none) ∧
      (∀ a, readBacktrace cursor.context.backtrace i = some a →
        ∃ r c1, advanceCursor cursor = some (r, c1))) := by
  unfold advanceCursor_currentIndex advanceCursor
  simp only
  constructor
  · intro h
    split at h
    · simp at h
    · rename_i hge
      rw [if_neg hge]
  · intro i h
    split at h
    · rename_i hlt
      rw [if_pos hlt]
      simp only [Option.some.injEq] at h
      rw [h]
      constructor
      · intro hread
        rw [hread]
      · intro a hread
        rw [hread]
        simp only
        split
        · exact ⟨_, _, rfl⟩
        · exact ⟨_, _, rfl⟩
    · simp at h

/-- The invariant of a backtrace cursor is kept by every call made through its
operation pointers: the payload and the advance pointer stay, `hasGivenUp`
stays false and the depth stays between 0 and the end depth. -/
theorem runCursor_invariant (context : KSStackCursor_Backtrace_Context)
    (calls : List CursorCall) :
    ∀ cursor c1 : KSStackCursor,
      cursor.context = context → cursor.advanceCursor = AdvanceFn.backtrace_advanceCursor →
      cursor.state.hasGivenUp = false → 0 ≤ cursor.state.currentDepth →
      cursor.state.currentDepth ≤ max 0 (context.backtraceLength - context.skippedEntries) →
      runCursor calls cursor = some c1 →
      c1.context = context ∧ c1.advanceCursor = AdvanceFn.backtrace_advanceCursor ∧
      c1.state.hasGivenUp = false ∧ 0 ≤ c1.state.currentDepth ∧
      c1.state.currentDepth ≤ max 0 (context.backtraceLength - context.skippedEntries) := by
  induction calls with
  | nil =>
    intro cursor c1 h1 h2 h3 h4 h5 hrun
    simp only [runCursor, Option.some.injEq] at hrun
    subst hrun
    exact ⟨h1, h2, h3, h4, h5⟩
  | cons call rest ih =>
    intro cursor c1 h1 h2 h3 h4 h5 hrun
    cases call with
    | resetCursor =>
      rw [runCursor] at hrun
      refine ih (callResetCursor cursor) c1 ?_ ?_ ?_ ?_ ?_ hrun
      · exact h1
      · exact h2
      · rfl
      · exact le_refl _
      · exact le_max_left _ _
    | advanceCursor =>
      rw [runCursor] at hrun
      have hcall : callAdvanceCursor cursor = advanceCursor cursor := by
        unfold callAdvanceCursor
        rw [h2]
      rw [hcall] at hrun
      cases hadv : advanceCursor cursor with
      | none => simp [hadv] at hrun
      | some p =>
        obtain ⟨r, c2⟩ := p
        simp only [hadv] at hrun
        have fr := advanceCursor_frame cursor c2 r hadv
        have hd := advanceCursor_depth cursor c2 r hadv
        refine ih c2 c1 (fr.1.trans h1) (fr.2.2.1.trans h2) (fr.2.2.2.2.1.trans h3) ?_ ?_ hrun
        · cases r with
          | true => have := (hd.1 rfl).2; omega
          | false => rw [hd.2 rfl]; exact h4
        · cases r with
          | true =>
            obtain ⟨hlt, heq⟩ := hd.1 rfl
            rw [h1] at hlt
            rw [heq]
            have := le_max_right 0 (context.backtraceLength - context.skippedEntries)
            omega
          | false => rw [hd.2 rfl]; exact h5

/-- In any number of successive `advanceCursor` calls the calls that return
true each add one to the depth, and the depth never passes the end depth. -/
theorem advanceTimes_countTrue (n : Nat) :
    ∀ (cursor final : KSStackCursor) (results : List (Bool × Nat)),
      0 ≤ cursor.state.currentDepth →
      cursor.state.currentDepth
        ≤ max 0 (cursor.context.backtraceLength - cursor.context.skippedEntries) →
      advanceTimes n cursor = some (results, final) →
      (countTrue results : Int) + cursor.state.currentDepth
        ≤ max 0 (cursor.context.backtraceLength - cursor.context.skippedEntries) := by
  induction n with
  | zero =>
    intro cursor final results h0 h1 h
    simp only [advanceTimes, Option.some.injEq, Prod.mk.injEq] at h
    obtain ⟨rfl, -⟩ := h
    simpa [countTrue] using h1
  | succ n ih =>
    intro cursor final results h0 h1 h
    rw [advanceTimes] at h
    cases hadv : advanceCursor cursor with
    | none => simp [hadv] at h
    | some p =>
      obtain ⟨r, c1⟩ := p
      simp only [hadv] at h
      cases hrest : advanceTimes n c1 with
      | none => simp [hrest] at h
      | some q =>
        obtain ⟨rs, c2⟩ := q
        simp only [hrest, Option.some.injEq, Prod.mk.injEq] at h
        obtain ⟨rfl, -⟩ := h
        have fr := advanceCursor_frame cursor c1 r hadv
        have hd := advanceCursor_depth cursor c1 r hadv
        cases r with
        | true =>
          obtain ⟨hlt, heq⟩ := hd.1 rfl
          have hmax := le_max_right 0
            (cursor.context.backtraceLength - cursor.context.skippedEntries)
          have := ih c1 c2 rs (by omega) (by rw [fr.1, heq]; omega) hrest
          rw [fr.1, heq] at this
          have hc : countTrue ((true, c1.stackEntry.address) :: rs) = countTrue rs + 1 := by
            simp [countTrue]
          rw [hc]
          push_cast
          omega
        | false =>
          have heq := hd.2 rfl
          have := ih c1 c2 rs (by rw [heq]; exact h0) (by rw [heq]; exact h1) hrest
          rw [heq] at this
          have hc : countTrue ((false, c1.stackEntry.address) :: rs) = countTrue rs := by
            simp [countTrue]
          rw [hc]
          exact this

/-- A walk that ends is a sequence of successive `advanceCursor` calls. -/
theorem advanceUntilFalse_eq_advanceTimes (fuel : Nat) :
    ∀ (cursor : KSStackCursor) (trace : List (Bool × Nat)),
      advanceUntilFalse fuel cursor = some trace →
      ∃ final, advanceTimes trace.length cursor = some (trace, final) := by
  induction fuel with
  | zero => intro cursor trace h; simp [advanceUntilFalse] at h
  | succ fuel ih =>
    intro cursor trace h
    rw [advanceUntilFalse] at h
    cases hadv : advanceCursor cursor with
    | none => simp [hadv] at h
    | some p =>
      obtain ⟨r, c1⟩ := p
      cases r with
      | false =>
        simp only [hadv, Option.some.injEq] at h
        subst h
        exact ⟨c1, by simp [advanceTimes, hadv]⟩
      | true =>
        simp only [hadv] at h
        cases hrest : advanceUntilFalse fuel c1 with
        | none => simp [hrest] at h
        | some rs =>
          simp only [hrest, Option.some.injEq] at h
          subst h
          obtain ⟨final, hf⟩ := ih c1 rs hrest
          exact ⟨final, by simp [advanceTimes, hadv, hf]⟩

/-- C34: a cursor made by `kssc_initWithBacktrace`, after any calls of its
reset and advance operations, has `hasGivenUp` false and a depth between 0 and
max(0, backtraceLength - skipEntries); among any number of successive
`advanceCursor` calls on it the calls that return true number at most the
distance of the depth to that bound; with a non-negative skip count and an
array of at least `backtraceLength` entries the walk from the fresh cursor
ends within max(0, backtraceLength - skipEntries) calls that return true
followed by the call that returns false; and when the skip count exceeds the
length the first call returns false, in whatever state. -/
theorem C34_backtrace_cursor_invariant (prior : KSStackCursor) (backtrace : List Nat)
    (backtraceLength skipEntries : Int) :
    (∀ (calls : List CursorCall) (cursor : KSStackCursor),
      runCursor calls (kssc_initWithBacktrace prior backtrace backtraceLength skipEntries)
        = some cursor →
      cursor.state.hasGivenUp = false ∧ 0 ≤ cursor.state.currentDepth ∧
      cursor.state.currentDepth ≤ max 0 (backtraceLength - skipEntries) ∧
      ∀ (n : Nat) (results : List (Bool × Nat)) (final : KSStackCursor),
        advanceTimes n cursor = some (results, final) →
        (countTrue results : Int) + cursor.state.currentDepth
          ≤ max 0 (backtraceLength - skipEntries)) ∧
    (0 ≤ skipEntries → backtraceLength ≤ backtrace.length →
      ∃ trace,
        advanceUntilFalse ((max 0 (backtraceLength - skipEntries)).toNat + 1)
          (kssc_initWithBacktrace prior backtrace backtraceLength skipEntries) = some trace ∧
        (countTrue trace : Int) ≤ max 0 (backtraceLength - skipEntries)) ∧
    (backtraceLength < skipEntries →
      ∀ (calls : List CursorCall) (cursor : KSStackCursor),
        runCursor calls (kssc_initWithBacktrace prior backtrace backtraceLength skipEntries)
          = some cursor →
        advanceCursor cursor = some (false, cursor) ∧
        advanceUntilFalse 1 cursor = some [(false, cursor.stackEntry.address)]) := by
  have hinv : ∀ (calls : List CursorCall) (cursor : KSStackCursor),
      runCursor calls (kssc_initWithBacktrace prior backtrace backtraceLength skipEntries)
        = some cursor →
      cursor.context = (⟨skipEntries, backtraceLength, backtrace⟩ : KSStackCursor_Backtrace_Context) ∧
      cursor.advanceCursor = AdvanceFn.backtrace_advanceCursor ∧
      cursor.state.hasGivenUp = false ∧ 0 ≤ cursor.state.currentDepth ∧
      cursor.state.currentDepth ≤ max 0 (backtraceLength - skipEntries) := by
    intro calls cursor hrun
    exact runCursor_invariant
      (⟨skipEntries, backtraceLength, backtrace⟩ : KSStackCursor_Backtrace_Context) calls _ cursor rfl rfl rfl (le_refl _) (le_max_left _ _) hrun
  refine ⟨?_, ?_, ?_⟩
  · intro calls cursor hrun
    obtain ⟨hctx, -, hgu, h0, h1⟩ := hinv calls cursor hrun
    refine ⟨hgu, h0, h1, ?_⟩
    intro n results final hwalk
    have := advanceTimes_countTrue n cursor final results h0 (by rw [hctx]; exact h1) hwalk
    rw [hctx] at this
    exact this
  · intro hskip hlen
    obtain ⟨trace, ht⟩ := advanceUntilFalse_terminates
      ((max 0 (backtraceLength - skipEntries)).toNat + 1)
      (kssc_initWithBacktrace prior backtrace backtraceLength skipEntries)
      hskip hlen (le_refl _) (by
        rw [kssc_initWithBacktrace_eq]
        simp only
        have := le_max_right 0 (backtraceLength - skipEntries)
        omega)
    refine ⟨trace, ht, ?_⟩
    obtain ⟨final, hf⟩ := advanceUntilFalse_eq_advanceTimes _ _ trace ht
    have := advanceTimes_countTrue trace.length _ final trace (le_refl _)
      (le_max_left _ _) hf
    rw [kssc_initWithBacktrace_eq] at this
    simpa using this
  · intro hlt calls cursor hrun
    obtain ⟨hctx, -, -, h0, -⟩ := hinv calls cursor hrun
    have hadv : advanceCursor cursor = some (false, cursor) := by
      apply (advanceCursor_of_currentIndex cursor).1
      unfold advanceCursor_currentIndex
      simp only
      rw [hctx]
      simp only
      rw [if_neg (by omega)]
    refine ⟨hadv, ?_⟩
    rw [advanceUntilFalse, hadv]

/-- C34 (witness): the cursor over four entries with skip 1 yields three
frames and then false, at depth 3 with `hasGivenUp` false; a cursor with skip 5
over the same entries yields no frame. -/
theorem C34_backtrace_cursor_invariant_witness :
    ((0 : Int) ≤ 1 ∧ (4 : Int) ≤ ([10, 20, 30, 40] : List Nat).length) ∧
    (advanceUntilFalse 4 (kssc_initWithBacktrace staleCursor [10, 20, 30, 40] 4 1)
      = some [(true, 20), (true, 30), (true, 40), (false, 40)] ∧
     (runCursor [CursorCall.advanceCursor, CursorCall.advanceCursor, CursorCall.advanceCursor,
        CursorCall.advanceCursor, CursorCall.advanceCursor]
        (kssc_initWithBacktrace staleCursor [10, 20, 30, 40] 4 1)).map (fun c => c.state)
      = some { currentDepth := 3, hasGivenUp := false } ∧
     advanceUntilFalse 1 (kssc_initWithBacktrace staleCursor [10, 20, 30, 40] 4 5)
      = some [(false, 0)]) ∧
    (∃ trace,
      advanceUntilFalse ((max 0 ((4 : Int) - 1)).toNat + 1)
        (kssc_initWithBacktrace staleCursor [10, 20, 30, 40] 4 1) = some trace ∧
      (countTrue trace : Int) ≤ max 0 ((4 : Int) - 1)) :=
  ⟨⟨by decide, by decide⟩, by decide,
    (C34_backtrace_cursor_invariant staleCursor [10, 20, 30, 40] 4 1).2.1
      (by decide) (by decide)⟩

/-- C37: with a non-negative skip count and an array of at least
`backtraceLength` entries, every sequence of calls on a cursor made by
`kssc_initWithBacktrace` is defined, and in every state so reached the index
that `advanceCursor` reads, when it reads one, is at least 0, below
`backtraceLength` and inside the array, so the call never takes the
out-of-bounds branch; when the skip count exceeds the length no call reads an
element. -/
theorem C37_reads_in_bounds (prior : KSStackCursor) (backtrace : List Nat)
    (backtraceLength skipEntries : Int) (hskip : 0 ≤ skipEntries)
    (hlen : backtraceLength ≤ backtrace.length) :
    (∀ calls : List CursorCall, ∃ cursor,
      runCursor calls (kssc_initWithBacktrace prior backtrace backtraceLength skipEntries)
        = some cursor) ∧
    (∀ (calls : List CursorCall) (cursor : KSStackCursor),
      runCursor calls (kssc_initWithBacktrace prior backtrace backtraceLength skipEntries)
        = some cursor →
      (∀ i, advanceCursor_currentIndex cursor = some i →
        0 ≤ i ∧ i < backtraceLength ∧ ∃ a, readBacktrace backtrace i = some a) ∧
      (∃ r c1, advanceCursor cursor = some (r, c1)) ∧
      (backtraceLength < skipEntries → advanceCursor_currentIndex cursor = none)) := by
  have hinv : ∀ (calls : List CursorCall) (cursor : KSStackCursor),
      runCursor calls (kssc_initWithBacktrace prior backtrace backtraceLength skipEntries)
        = some cursor →
      cursor.context = (⟨skipEntries, backtraceLength, backtrace⟩ : KSStackCursor_Backtrace_Context) ∧
      cursor.advanceCursor = AdvanceFn.backtrace_advanceCursor ∧
      cursor.state.hasGivenUp = false ∧ 0 ≤ cursor.state.currentDepth ∧
      cursor.state.currentDepth ≤ max 0 (backtraceLength - skipEntries) := by
    intro calls cursor hrun
    exact runCursor_invariant
      (⟨skipEntries, backtraceLength, backtrace⟩ : KSStackCursor_Backtrace_Context) calls _ cursor rfl rfl rfl (le_refl _) (le_max_left _ _) hrun
  have hread : ∀ cursor : KSStackCursor,
      cursor.context = (⟨skipEntries, backtraceLength, backtrace⟩ : KSStackCursor_Backtrace_Context) →
      0 ≤ cursor.state.currentDepth →
      (∀ i, advanceCursor_currentIndex cursor = some i →
        0 ≤ i ∧ i < backtraceLength ∧ ∃ a, readBacktrace backtrace i = some a) ∧
      (∃ r c1, advanceCursor cursor = some (r, c1)) ∧
      (backtraceLength < skipEntries → advanceCursor_currentIndex cursor = none) := by
    intro cursor hctx h0
    have hidx : ∀ i, advanceCursor_currentIndex cursor = some i →
        0 ≤ i ∧ i < backtraceLength ∧ ∃ a, readBacktrace backtrace i = some a := by
      intro i hi
      unfold advanceCursor_currentIndex at hi
      simp only at hi
      rw [hctx] at hi
      simp only at hi
      split at hi
      · rename_i hlt
        simp only [Option.some.injEq] at hi
        subst hi
        refine ⟨by omega, by omega, ?_⟩
        unfold readBacktrace
        rw [if_pos (by omega)]
        exact ⟨_, List.getElem?_eq_getElem (by omega)⟩
      · simp at hi
    refine ⟨hidx, ?_, ?_⟩
    · cases hci : advanceCursor_currentIndex cursor with
      | none => exact ⟨_, _, (advanceCursor_of_currentIndex cursor).1 hci⟩
      | some i =>
        obtain ⟨-, -, a, ha⟩ := hidx i hci
        have hb : readBacktrace cursor.context.backtrace i = some a := by
          rw [hctx]
          exact ha
        exact ((advanceCursor_of_currentIndex cursor).2 i hci).2 a hb
    · intro hlt
      unfold advanceCursor_currentIndex
      simp only
      rw [hctx]
      simp only
      rw [if_neg (by omega)]
  constructor
  · intro calls
    suffices hgen : ∀ (calls : List CursorCall) (cursor : KSStackCursor),
        cursor.context = (⟨skipEntries, backtraceLength, backtrace⟩ : KSStackCursor_Backtrace_Context) →
        cursor.advanceCursor = AdvanceFn.backtrace_advanceCursor →
        0 ≤ cursor.state.currentDepth →
        ∃ c1, runCursor calls cursor = some c1 from
      hgen calls _ rfl rfl (le_refl _)
    intro calls
    induction calls with
    | nil => intro cursor _ _ _; exact ⟨cursor, rfl⟩
    | cons call rest ih =>
      intro cursor hctx hadv h0
      cases call with
      | resetCursor =>
        rw [runCursor]
        exact ih (callResetCursor cursor) hctx hadv (le_refl _)
      | advanceCursor =>
        rw [runCursor]
        have hcall : callAdvanceCursor cursor = advanceCursor cursor := by
          unfold callAdvanceCursor
          rw [hadv]
        obtain ⟨r, c1, hstep⟩ := (hread cursor hctx h0).2.1
        rw [hcall, hstep]
        simp only
        have fr := advanceCursor_frame cursor c1 r hstep
        have hd := advanceCursor_depth cursor c1 r hstep
        refine ih c1 (fr.1.trans hctx) (fr.2.2.1.trans hadv) ?_
        cases r with
        | true => have := (hd.1 rfl).2; omega
        | false => rw [hd.2 rfl]; exact h0
  · intro calls cursor hrun
    obtain ⟨hctx, -, -, h0, -⟩ := hinv calls cursor hrun
    exact hread cursor hctx h0

/-- C37 (witness): over four entries with skip 1, after two advances, a reset
and one advance the next call reads index 2, inside the array; with skip 5 the
fresh cursor reads nothing. -/
theorem C37_reads_in_bounds_witness :
    ((0 : Int) ≤ 1 ∧ (4 : Int) ≤ ([10, 20, 30, 40] : List Nat).length) ∧
    ((runCursor [CursorCall.advanceCursor, CursorCall.advanceCursor, CursorCall.resetCursor,
        CursorCall.advanceCursor]
        (kssc_initWithBacktrace staleCursor [10, 20, 30, 40] 4 1)).map
          advanceCursor_currentIndex = some (some 2) ∧
      advanceCursor_currentIndex (kssc_initWithBacktrace staleCursor [10, 20, 30, 40] 4 5)
        = none) ∧
    (∀ calls : List CursorCall, ∃ cursor,
      runCursor calls (kssc_initWithBacktrace staleCursor [10, 20, 30, 40] 4 1)
        = some cursor) :=
  ⟨⟨by decide, by decide⟩, by decide,
    (C37_reads_in_bounds staleCursor [10, 20, 30, 40] 4 1 (by decide) (by decide)).1⟩

/-! ## Lemmas on the ownership of the name strings -/

/-- The statement `names[i] = strdup(buffer)` at the first index that the loop
has not visited yet: the entry becomes the new string, with the number of the
call as its allocation, or stays `NULL`, and the entries after it stay `NULL`. -/
theorem storeName_shape (pre : List (Option HeapString)) (k : Nat) (buffer : Option String)
    (count : Nat) :
    ∃ e : Option HeapString,
      storeName (some (pre ++ List.replicate (k + 1) none)) pre.length buffer count
        = some (some ((pre ++ [e]) ++ List.replicate k none), count + e.toList.length) ∧
      (∀ x, e = some x → x.allocation = count) := by
  have hshape : ∀ e : Option HeapString,
      (pre ++ List.replicate (k + 1) none).set pre.length e
        = (pre ++ [e]) ++ List.replicate k none := by
    intro e
    rw [List.set_append_right _ _ (le_refl _)]
    simp [List.replicate_succ]
  have hnone : pre ++ List.replicate (k + 1) (none : Option HeapString)
      = (pre ++ [none]) ++ List.replicate k none := by
    simp [List.replicate_succ]
  unfold storeName
  cases buffer with
  | none =>
    refine ⟨none, ?_, fun x hx => by simp at hx⟩
    simp only [Option.toList, List.length_nil, Nat.add_zero]
    rw [← hnone]
  | some text =>
    simp only
    by_cases ht : text ≠ ""
    · rw [if_pos ht]
      refine ⟨some { allocation := count, text := text }, ?_, ?_⟩
      · unfold storeAt
        simp only
        rw [if_pos (by simp), hshape]
        rfl
      · intro x hx
        rw [← Option.some.inj hx]
    · rw [if_neg ht]
      refine ⟨none, ?_, fun x hx => by simp at hx⟩
      simp only [Option.toList, List.length_nil, Nat.add_zero]
      rw [← hnone]

/-- The body of the loop of `updateThreadList` at the first index not visited
yet: each name table gets one more entry, a new string or `NULL`, and the
strings made are numbered from the count of `strdup` calls on. -/
theorem fillEntry_names (os : RefreshOS) (g_searchQueueNames : Bool) (thread : KSThread)
    (l : RefreshLocals) (preT preQ : List (Option HeapString)) (k : Nat)
    (machThreads pThreads : List KSThread)
    (hm : l.allMachThreads = some machThreads) (hml : preT.length < machThreads.length)
    (hp : l.allPThreads = some pThreads) (hpl : preT.length < pThreads.length)
    (ht : l.allThreadNames = some (preT ++ List.replicate (k + 1) none))
    (hq : l.allQueueNames = some (preQ ++ List.replicate (k + 1) none))
    (hlen : preQ.length = preT.length) :
    ∃ (l1 : RefreshLocals) (e1 e2 : Option HeapString),
      fillEntry os g_searchQueueNames preT.length thread l = some l1 ∧
      l1.allMachThreads = some (machThreads.set preT.length thread) ∧
      l1.allPThreads
        = some (pThreads.set preT.length (os.pthread_from_mach_thread_np thread)) ∧
      l1.allThreadNames = some ((preT ++ [e1]) ++ List.replicate k none) ∧
      l1.allQueueNames = some ((preQ ++ [e2]) ++ List.replicate k none) ∧
      l1.strdupCount = l.strdupCount + e1.toList.length + e2.toList.length ∧
      (∀ x, e1 = some x → x.allocation = l.strdupCount) ∧
      (∀ x, e2 = some x → x.allocation = l.strdupCount + e1.toList.length) := by
  obtain ⟨e1, h1, ha1⟩ := storeName_shape preT k
    (if os.pthread_from_mach_thread_np thread ≠ 0 then
      os.pthread_getname_np (os.pthread_from_mach_thread_np thread) else none)
    l.strdupCount
  obtain ⟨e2, h2, ha2⟩ := storeName_shape preQ k
    (if g_searchQueueNames then os.ksthread_getQueueName thread else none)
    (l.strdupCount + e1.toList.length)
  rw [hlen] at h2
  refine ⟨
    { allMachThreads := some (machThreads.set preT.length thread)
      allPThreads := some (pThreads.set preT.length (os.pthread_from_mach_thread_np thread))
      allThreadNames := some ((preT ++ [e1]) ++ List.replicate k none)
      allQueueNames := some ((preQ ++ [e2]) ++ List.replicate k none)
      strdupCount := l.strdupCount + e1.toList.length + e2.toList.length },
    e1, e2, ?_, rfl, rfl, rfl, rfl, rfl, ha1, ha2⟩
  unfold fillEntry
  simp only [hm, hp, ht, hq, storeAt]
  rw [if_pos hml, if_pos hpl]
  simp only
  rw [h1]
  simp only
  rw [h2]

/-- The loop of `updateThreadList` from the first index not visited yet: each
name table gets one entry for every thread left, and the allocations of the
strings it stores are the numbers of the `strdup` calls made by the loop, each
once. -/
theorem fillGeneration_names (os : RefreshOS) (g_searchQueueNames : Bool)
    (threads : List KSThread) :
    ∀ (l : RefreshLocals) (preT preQ : List (Option HeapString))
      (machThreads pThreads : List KSThread),
      l.allMachThreads = some machThreads →
      preT.length + threads.length ≤ machThreads.length →
      l.allPThreads = some pThreads →
      preT.length + threads.length ≤ pThreads.length →
      l.allThreadNames = some (preT ++ List.replicate threads.length none) →
      l.allQueueNames = some (preQ ++ List.replicate threads.length none) →
      preQ.length = preT.length →
      ∃ (l1 : RefreshLocals) (postT postQ : List (Option HeapString)),
        fillGeneration os g_searchQueueNames preT.length threads l = some l1 ∧
        l1.allThreadNames = some (preT ++ postT) ∧
        l1.allQueueNames = some (preQ ++ postQ) ∧
        l.strdupCount ≤ l1.strdupCount ∧
        List.Perm ((postT.filterMap id ++ postQ.filterMap id).map HeapString.allocation)
          (List.range' l.strdupCount (l1.strdupCount - l.strdupCount)) := by
  induction threads with
  | nil =>
    intro l preT preQ machThreads pThreads _ _ _ _ ht hq _
    refine ⟨l, [], [], rfl, ?_, ?_, le_refl _, ?_⟩
    · simpa using ht
    · simpa using hq
    · simp
  | cons thread rest ih =>
    intro l preT preQ machThreads pThreads hm hml hp hpl ht hq hlen
    simp only [List.length_cons] at hml hpl ht hq
    obtain ⟨l1, e1, e2, hfill, hm1, hp1, ht1, hq1, hc1, ha1, ha2⟩ :=
      fillEntry_names os g_searchQueueNames thread l preT preQ rest.length machThreads pThreads
        hm (by omega) hp (by omega) ht hq hlen
    have hlenT : (preT ++ [e1]).length = preT.length + 1 := by simp
    obtain ⟨l2, postT, postQ, hrest, ht2, hq2, hc2, hperm⟩ :=
      ih l1 (preT ++ [e1]) (preQ ++ [e2]) _ _ hm1 (by rw [hlenT, List.length_set]; omega)
        hp1 (by rw [hlenT, List.length_set]; omega) ht1 hq1 (by simp [hlen])
    rw [hlenT] at hrest
    refine ⟨l2, e1 :: postT, e2 :: postQ, ?_, ?_, ?_, by omega, ?_⟩
    · rw [fillGeneration, hfill]
      exact hrest
    · rw [ht2]
      simp
    · rw [hq2]
      simp
    · have hsplit : List.range' l.strdupCount (l2.strdupCount - l.strdupCount)
          = List.range' l.strdupCount (e1.toList.length + e2.toList.length)
            ++ List.range' l1.strdupCount (l2.strdupCount - l1.strdupCount) := by
        have hc1a : l1.strdupCount
            = l.strdupCount + (e1.toList.length + e2.toList.length) := by omega
        rw [hc1a, List.range'_append_1]
        congr 1
        omega
      have hhead : (e1.toList ++ e2.toList).map HeapString.allocation
          = List.range' l.strdupCount (e1.toList.length + e2.toList.length) := by
        cases e1 with
        | none =>
          cases e2 with
          | none => rfl
          | some x2 =>
            have := ha2 x2 rfl
            simp only [Option.toList, List.length_nil, Nat.add_zero] at this
            simp [Option.toList, this, List.range']
        | some x1 =>
          have h1 := ha1 x1 rfl
          cases e2 with
          | none => simp [Option.toList, h1, List.range']
          | some x2 =>
            have h2 := ha2 x2 rfl
            simp only [Option.toList, List.length_singleton] at h2
            simp [Option.toList, h1, h2, List.range']
      rw [hsplit, ← hhead]
      have hcons : ∀ (e : Option HeapString) (rest : List (Option HeapString)),
          (e :: rest).filterMap id = e.toList ++ rest.filterMap id := by
        intro e rest
        cases e <;> simp [Option.toList]
      rw [hcons, hcons]
      rw [List.perm_iff_count]
      intro a
      have hc := (List.perm_iff_count.mp hperm) a
      simp only [List.map_append, List.count_append] at hc ⊢
      omega

/-- When the four allocations succeed, the loop of `updateThreadList` builds
name tables whose strings carry the numbers of the `strdup` calls of this
refresh, each once. -/
theorem buildGeneration_names (os : RefreshOS) (s : CachedData) (threads : List KSThread)
    (halloc : os.allocationsSucceed = true) :
    ∃ (l : RefreshLocals) (threadNames queueNames : List (Option HeapString)),
      buildGeneration os s threads = some l ∧ l.Sized threads.length ∧
      l.allThreadNames = some threadNames ∧ l.allQueueNames = some queueNames ∧
      s.strdupCount ≤ l.strdupCount ∧
      List.Perm
        ((threadNames.filterMap id ++ queueNames.filterMap id).map HeapString.allocation)
        (List.range' s.strdupCount (l.strdupCount - s.strdupCount)) := by
  obtain ⟨l0, hl0, hsized⟩ := buildGeneration_sized os s threads halloc
  unfold RefreshOS.allocationsSucceed at halloc
  simp only [Bool.and_eq_true] at halloc
  obtain ⟨⟨⟨h1, h2⟩, h3⟩, h4⟩ := halloc
  have hnames := fillGeneration_names os s.g_searchQueueNames threads
    { allMachThreads := calloc os.calloc_allMachThreads threads.length 0
      allPThreads := calloc os.calloc_allPThreads threads.length 0
      allThreadNames := calloc os.calloc_allThreadNames threads.length none
      allQueueNames := calloc os.calloc_allQueueNames threads.length none
      strdupCount := s.strdupCount }
    [] [] (List.replicate threads.length 0) (List.replicate threads.length 0)
    (by simp [calloc, h1]) (by simp) (by simp [calloc, h2]) (by simp)
    (by simp [calloc, h3]) (by simp [calloc, h4]) rfl
  obtain ⟨l, postT, postQ, hfill, ht, hq, hc, hperm⟩ := hnames
  have hbuild : buildGeneration os s threads = some l := hfill
  have hl : l0 = l := by
    rw [hl0] at hbuild
    exact Option.some.inj hbuild
  subst hl
  exact ⟨l0, postT, postQ, hl0, hsized, by simpa using ht, by simpa using hq, hc, hperm⟩

theorem freedNames_append (a b : List CacheCall) :
    freedNames (a ++ b) = freedNames a ++ freedNames b := by
  induction a with
  | nil => rfl
  | cons call rest ih => cases call <;> simp [freedNames, ih]

theorem freedNames_freeThreads (array : Option (List KSThread)) :
    freedNames (freeThreads array) = [] := by
  cases array <;> rfl

theorem freedNames_map_deallocate (threads : List KSThread) :
    freedNames (threads.map CacheCall.mach_port_deallocate) = [] := by
  induction threads with
  | nil => rfl
  | cons thread rest ih => simp [freedNames, ih]

/-- The release of a name table whose length is the old thread count frees
every string of the table, each once, in index order. -/
theorem freeNames_frees_all (names : Option (List (Option HeapString))) (oldThreadsCount : Int)
    (h : seqLength names = oldThreadsCount.toNat) :
    ∃ calls, freeNames names oldThreadsCount = some calls ∧
      freedNames calls = namesOf names := by
  have key : ∀ entries : List (Option HeapString),
      freedNames (entries.filterMap (fun name => name.map CacheCall.free_name))
        = entries.filterMap id := by
    intro entries
    induction entries with
    | nil => rfl
    | cons entry rest ih =>
      cases entry with
      | none => simpa using ih
      | some name => simpa [freedNames] using ih
  unfold freeNames
  cases names with
  | none => exact ⟨[], rfl, rfl⟩
  | some entries =>
    simp only [seqLength] at h
    simp only
    rw [if_pos (by omega)]
    refine ⟨_, rfl, ?_⟩
    rw [freedNames_append, ← h, List.take_length, key]
    have hlast : freedNames [CacheCall.free_names entries] = [] := rfl
    rw [hlast, List.append_nil]
    rfl

/-- A refresh whose enumeration and allocations succeed, from consistent
statics: it frees the strings of the generation it replaces, each once and no
other, and installs strings that carry the numbers of its own `strdup` calls,
each once. -/
theorem updateThreadList_names (os : RefreshOS) (s : CachedData) (hs : s.Consistent)
    (halloc : os.allocationsSucceed = true) (threads : List KSThread)
    (hthreads : os.task_threads = some threads) :
    ∃ s1 calls, updateThreadList os s = some (s1, calls) ∧ s1.Consistent ∧
      freedNames calls = s.installedNames ∧ s.strdupCount ≤ s1.strdupCount ∧
      List.Perm (s1.installedNames.map HeapString.allocation)
        (List.range' s.strdupCount (s1.strdupCount - s.strdupCount)) := by
  obtain ⟨l, tn, qn, hl, hsized, htn, hqn, hc, hperm⟩ :=
    buildGeneration_names os s threads halloc
  obtain ⟨h0, hm, hp, hn, hq⟩ := hs
  obtain ⟨f1, hf1, hfreed1⟩ := freeNames_frees_all s.g_allThreadNames s.g_allThreadsCount hn
  obtain ⟨f2, hf2, hfreed2⟩ := freeNames_frees_all s.g_allQueueNames s.g_allThreadsCount hq
  have e1 : (installGeneration s l threads.length).2.allThreadNames = s.g_allThreadNames := rfl
  have e2 : (installGeneration s l threads.length).2.allQueueNames = s.g_allQueueNames := rfl
  have hrun : updateThreadList os s
      = some ({ (installGeneration s l threads.length).1 with strdupCount := l.strdupCount },
          freeThreads (installGeneration s l threads.length).2.allMachThreads
            ++ freeThreads (installGeneration s l threads.length).2.allPThreads
            ++ f1 ++ f2 ++ threads.map CacheCall.mach_port_deallocate
            ++ [CacheCall.vm_deallocate threads.length]) := by
    unfold updateThreadList
    simp only [hthreads, hl]
    rw [e1, e2, hf1, hf2]
  refine ⟨_, _, hrun, ?_, ?_, hc, ?_⟩
  · obtain ⟨⟨a, ha, hla⟩, ⟨b, hb, hlb⟩, ⟨c, hc1, hlc⟩, ⟨d, hd, hld⟩⟩ := hsized
    unfold CachedData.Consistent
    simp only [installGeneration, setCount, swapQueueNames, swapThreadNames, swapPThreads,
      swapMachThreads, lowerCount, ha, hb, hc1, hd, seqLength, Int.toNat_ofNat]
    exact ⟨by omega, hla, hlb, hlc, hld⟩
  · simp only [freedNames_append, freedNames_freeThreads, freedNames_map_deallocate, hfreed1,
      hfreed2, List.nil_append, List.append_nil]
    have hlast : freedNames [CacheCall.vm_deallocate threads.length] = [] := rfl
    rw [hlast, List.append_nil]
    rfl
  · have hinst : ({ (installGeneration s l threads.length).1 with
        strdupCount := l.strdupCount } : CachedData).installedNames
        = tn.filterMap id ++ qn.filterMap id := by
      unfold CachedData.installedNames
      simp only [installGeneration, setCount, swapQueueNames, swapThreadNames, swapPThreads,
        swapMachThreads, lowerCount, htn, hqn, namesOf]
    rw [hinst]
    exact hperm

/-- A refresh whose allocations succeed, from statics that own their names,
leaves statics that own their names, and the strings freed by the refresh
together with the strings installed after it are the strings installed before
it together with the strings made by it, each once. -/
theorem updateThreadList_owns (os : RefreshOS) (s : CachedData) (hs : s.OwnsNames)
    (halloc : os.allocationsSucceed = true) :
    ∃ s1 calls, updateThreadList os s = some (s1, calls) ∧ s1.OwnsNames ∧
      s.strdupCount ≤ s1.strdupCount ∧
      List.Perm ((freedNames calls ++ s1.installedNames).map HeapString.allocation)
        (s.installedNames.map HeapString.allocation
          ++ List.range' s.strdupCount (s1.strdupCount - s.strdupCount)) := by
  cases hthreads : os.task_threads with
  | none =>
    refine ⟨s, [CacheCall.KSLOG_ERROR "task_threads"], ?_, hs, le_refl _, ?_⟩
    · unfold updateThreadList
      simp only [hthreads]
    · simp [freedNames]
  | some threads =>
    obtain ⟨s1, calls, hrun, hcons, hfreed, hc, hperm⟩ :=
      updateThreadList_names os s hs.1 halloc threads hthreads
    refine ⟨s1, calls, hrun, ⟨hcons, ?_, ?_⟩, hc, ?_⟩
    · intro name hname
      have hmem : name.allocation ∈ s1.installedNames.map HeapString.allocation :=
        List.mem_map_of_mem _ hname
      have := (List.mem_range'_1.mp (hperm.mem_iff.mp hmem)).2
      omega
    · exact hperm.nodup_iff.mpr (List.nodup_range' _ _)
    · rw [List.map_append, hfreed]
      exact List.Perm.append_left _ hperm

/-- The numbers from `a` up to `c` are those up to `b` followed by those from
`b` on. -/
theorem range_split_middle (a b c : Nat) (h1 : a ≤ b) (h2 : b ≤ c) :
    List.range' a (c - a) = List.range' a (b - a) ++ List.range' b (c - b) := by
  have h := List.range'_append_1 a (b - a) (c - b)
  have hb : a + (b - a) = b := by omega
  rw [hb] at h
  rw [h]
  congr 1
  omega

/-- The strings freed by a sequence of refreshes are those of each refresh in
order. -/
theorem runRefreshesCalls_cons (os : RefreshOS) (rest : List RefreshOS) (s s1 s2 : CachedData)
    (calls more : List CacheCall) (h1 : updateThreadList os s = some (s1, calls))
    (h2 : runRefreshesCalls rest s1 = some (s2, more)) :
    runRefreshesCalls (os :: rest) s = some (s2, calls ++ more) := by
  rw [runRefreshesCalls, h1]
  simp only
  rw [h2]

/-- Over every sequence of refresh cycles whose allocations succeed, from
statics that own their names: the run is defined, the statics own their names
at the end, and the strings freed during the run together with the strings
installed at the end are the strings installed at the start together with the
strings made during the run, each once. -/
theorem runRefreshesCalls_owns (cycles : List RefreshOS) :
    ∀ s : CachedData, s.OwnsNames → (∀ os ∈ cycles, os.allocationsSucceed = true) →
      ∃ s1 calls, runRefreshesCalls cycles s = some (s1, calls) ∧ s1.OwnsNames ∧
        s.strdupCount ≤ s1.strdupCount ∧
        List.Perm ((freedNames calls ++ s1.installedNames).map HeapString.allocation)
          (s.installedNames.map HeapString.allocation
            ++ List.range' s.strdupCount (s1.strdupCount - s.strdupCount)) := by
  induction cycles with
  | nil =>
    intro s hs _
    exact ⟨s, [], rfl, hs, le_refl _, by simp [freedNames]⟩
  | cons os rest ih =>
    intro s hs halloc
    obtain ⟨s1, calls, hrun, hs1, hc1, hperm1⟩ :=
      updateThreadList_owns os s hs (halloc os (List.mem_cons_self _ _))
    obtain ⟨s2, more, hrest, hs2, hc2, hperm2⟩ :=
      ih s1 hs1 (fun o ho => halloc o (List.mem_cons_of_mem _ ho))
    refine ⟨s2, calls ++ more, runRefreshesCalls_cons os rest s s1 s2 calls more hrun hrest,
      hs2, by omega, ?_⟩
    rw [range_split_middle s.strdupCount s1.strdupCount s2.strdupCount hc1 hc2, List.perm_iff_count]
    intro a
    have h1 := (List.perm_iff_count.mp hperm1) a
    have h2 := (List.perm_iff_count.mp hperm2) a
    simp only [freedNames_append, List.map_append, List.count_append] at h1 h2 ⊢
    omega

/-! ## Claim on the ownership of the name strings -/

/-- C33: over every sequence of refresh cycles whose allocations succeed, with
any enumerations, from statics that own their names: the run is defined; the
allocations of the strings freed during the run together with those installed
at the end are those installed at the start together with the numbers of the
`strdup` calls of the run, each once, so no string is freed twice, no string
of the installed generation has been freed, and every string made is either
installed or freed. In every refresh whose enumeration succeeds the strings
freed are the strings of the generation it replaces, the old thread count
being the length of both name tables, and none of them is installed after it. -/
theorem C33_names_freed_exactly_once (cycles : List RefreshOS) (s : CachedData)
    (hs : s.OwnsNames) (halloc : ∀ os ∈ cycles, os.allocationsSucceed = true) :
    (∃ s1 calls, runRefreshesCalls cycles s = some (s1, calls) ∧ s1.OwnsNames ∧
      s.strdupCount ≤ s1.strdupCount ∧
      List.Perm ((freedNames calls ++ s1.installedNames).map HeapString.allocation)
        (s.installedNames.map HeapString.allocation
          ++ List.range' s.strdupCount (s1.strdupCount - s.strdupCount)) ∧
      ((freedNames calls ++ s1.installedNames).map HeapString.allocation).Nodup ∧
      (freedNames calls).Nodup ∧
      (∀ name ∈ s1.installedNames, name ∉ freedNames calls) ∧
      (∀ k, s.strdupCount ≤ k → k < s1.strdupCount →
        k ∈ (freedNames calls ++ s1.installedNames).map HeapString.allocation)) ∧
    (∀ (os : RefreshOS) (threads : List KSThread), os.allocationsSucceed = true →
      os.task_threads = some threads →
      ∃ s1 calls, updateThreadList os s = some (s1, calls) ∧ s1.OwnsNames ∧
        freedNames calls = s.installedNames ∧
        s.g_allThreadsCount.toNat = seqLength s.g_allThreadNames ∧
        s.g_allThreadsCount.toNat = seqLength s.g_allQueueNames ∧
        (∀ name ∈ s1.installedNames,
          s.strdupCount ≤ name.allocation ∧ name ∉ freedNames calls)) := by
  constructor
  · obtain ⟨s1, calls, hrun, hs1, hc, hperm⟩ := runRefreshesCalls_owns cycles s hs halloc
    have hnodup : ((freedNames calls ++ s1.installedNames).map HeapString.allocation).Nodup := by
      rw [hperm.nodup_iff, List.nodup_append]
      refine ⟨hs.2.2, List.nodup_range' _ _, ?_⟩
      intro a ha hr
      obtain ⟨name, hname, rfl⟩ := List.mem_map.mp ha
      have h1 := hs.2.1 name hname
      have h2 := (List.mem_range'_1.mp hr).1
      omega
    refine ⟨s1, calls, hrun, hs1, hc, hperm, hnodup, ?_, ?_, ?_⟩
    · rw [List.map_append, List.nodup_append] at hnodup
      exact List.Nodup.of_map _ hnodup.1
    · intro name hinst hfreed
      rw [List.map_append, List.nodup_append] at hnodup
      exact hnodup.2.2 (List.mem_map_of_mem _ hfreed) (List.mem_map_of_mem _ hinst)
    · intro k h1 h2
      rw [hperm.mem_iff]
      apply List.mem_append_right
      rw [List.mem_range'_1]
      omega
  · intro os threads hos hthreads
    obtain ⟨s1, calls, hrun, hcons, hfreed, hc, hperm⟩ :=
      updateThreadList_names os s hs.1 hos threads hthreads
    obtain ⟨s2, calls2, hrun2, hown, -, -⟩ := updateThreadList_owns os s hs hos
    have heq : s2 = s1 := by
      rw [hrun] at hrun2
      exact (Prod.mk.inj (Option.some.inj hrun2)).1.symm
    subst heq
    have hlow : ∀ name ∈ s2.installedNames, s.strdupCount ≤ name.allocation := by
      intro name hname
      have hmem : name.allocation ∈ s2.installedNames.map HeapString.allocation :=
        List.mem_map_of_mem _ hname
      exact (List.mem_range'_1.mp (hperm.mem_iff.mp hmem)).1
    refine ⟨s2, calls, hrun, hown, hfreed, hs.1.2.2.2.1.symm, hs.1.2.2.2.2.symm, ?_⟩
    intro name hname
    refine ⟨hlow name hname, ?_⟩
    rw [hfreed]
    intro hold
    have := hs.2.1 name hold
    have := hlow name hname
    omega

/-- C33 (witness): three refreshes over 2, then 1, then 3 threads, with
queue names searched: the strings numbered 0, 2, 1, 3, 4 are freed, in this
order, and the strings numbered 5, 7, 8, 6 are installed at the end, 9 strings
having been made. -/
theorem C33_names_freed_exactly_once_witness :
    ((ksccd_setSearchQueueNames CachedData.initial true).OwnsNames ∧
      ∀ os ∈ [namedOS [1, 2], namedOS [1], namedOS [1, 2, 3]],
        os.allocationsSucceed = true) ∧
    (runRefreshesCalls [namedOS [1, 2], namedOS [1], namedOS [1, 2, 3]]
      (ksccd_setSearchQueueNames CachedData.initial true)).map
        (fun r => ((freedNames r.2).map HeapString.allocation,
          r.1.installedNames.map HeapString.allocation, r.1.strdupCount))
      = some ([0, 2, 1, 3, 4], [5, 7, 8, 6], 9) ∧
    (∃ s1 calls, runRefreshesCalls [namedOS [1, 2], namedOS [1], namedOS [1, 2, 3]]
        (ksccd_setSearchQueueNames CachedData.initial true) = some (s1, calls) ∧
      s1.OwnsNames ∧
      (ksccd_setSearchQueueNames CachedData.initial true).strdupCount ≤ s1.strdupCount ∧
      List.Perm ((freedNames calls ++ s1.installedNames).map HeapString.allocation)
        ((ksccd_setSearchQueueNames CachedData.initial true).installedNames.map
            HeapString.allocation
          ++ List.range' (ksccd_setSearchQueueNames CachedData.initial true).strdupCount
            (s1.strdupCount
              - (ksccd_setSearchQueueNames CachedData.initial true).strdupCount)) ∧
      ((freedNames calls ++ s1.installedNames).map HeapString.allocation).Nodup ∧
      (freedNames calls).Nodup ∧
      (∀ name ∈ s1.installedNames, name ∉ freedNames calls) ∧
      (∀ k, (ksccd_setSearchQueueNames CachedData.initial true).strdupCount ≤ k →
        k < s1.strdupCount →
        k ∈ (freedNames calls ++ s1.installedNames).map HeapString.allocation)) :=
  have hs : (ksccd_setSearchQueueNames CachedData.initial true).OwnsNames :=
    ⟨⟨by decide, rfl, rfl, rfl, rfl⟩, fun _ h => absurd h (List.not_mem_nil _), List.nodup_nil⟩
  have halloc : ∀ os ∈ [namedOS [1, 2], namedOS [1], namedOS [1, 2, 3]],
      os.allocationsSucceed = true := by
    intro os hos
    simp only [List.mem_cons, List.mem_singleton, List.not_mem_nil, or_false] at hos
    rcases hos with rfl | rfl | rfl <;> rfl
  ⟨⟨hs, halloc⟩, by decide,
    (C33_names_freed_exactly_once [namedOS [1, 2], namedOS [1], namedOS [1, 2, 3]]
      (ksccd_setSearchQueueNames CachedData.initial true) hs halloc).1⟩

end KSCrash
